import Mathlib

/-!
# Verification of the `StaticInjector` dependency-injection core

This development is a shallow embedding of the static dependency-injection
container (`StaticInjector`, provider records, token resolution) of the
repository, faithful to the TypeScript source:

* provider normalisation (`resolveProvider`, `computeDeps`),
* provider-table construction (`recursivelyProcessProviders`),
* token resolution with caching, cycle detection, scoping flags and
  parent-injector delegation (`resolveToken`, `tryResolveToken`,
  `StaticInjector.get`, `_NullInjector.get`),
* error decoration (`formatError` applied in the `get` catch block).

JavaScript mutation of the record map and of parent injectors is modelled by
explicit state passing; recursion is bounded by an explicit fuel parameter
(the distinguished outcome `Out.fuelOut` marks fuel exhaustion and is never
identified with a thrown error).  Invocations of user constructors/factories
are recorded in an event trace `(injector id, token)` so that the
singleton-per-injector property is observable.
-/

namespace StaticDI

/-- Tokens are opaque identity keys.  `cls n` is a class (a JS function,
hence usable as a constructor provider), `itok n` an `InjectionToken`-like
object, `prov n` the identity of the n-th provider object in the flattened
provider list (multi providers use the provider object itself as a synthetic
token), `injector` the `Injector` class token, and `arrObj` stands for a raw
dependency-annotation array used as a token when no token appears in it. -/
inductive Tok where
  | injector : Tok
  | cls : Nat → Tok
  | itok : Nat → Tok
  | prov : Nat → Tok
  | arrObj : Tok
  deriving DecidableEq, Repr

/-- Runtime values.  `undef`/`null` are JS `undefined`/`null`; `arr` is a JS
array (produced by `MULTI_PROVIDER_FN`); `injRef n` is a reference to the
injector instance with identity `n`; `obj n` an opaque object identity. -/
inductive Val where
  | undef : Val
  | null : Val
  | num : Nat → Val
  | str : String → Val
  | arr : List Val → Val
  | injRef : Nat → Val
  | obj : Nat → Val

mutual

/-- Boolean equality on values (hand-rolled: `Val` nests `List Val`). -/
def Val.beq : Val → Val → Bool
  | .undef, b => match b with | .undef => true | _ => false
  | .null, b => match b with | .null => true | _ => false
  | .num n, b => match b with | .num m => n == m | _ => false
  | .str s, b => match b with | .str t => s == t | _ => false
  | .arr l, b => match b with | .arr l' => Val.beqList l l' | _ => false
  | .injRef n, b => match b with | .injRef m => n == m | _ => false
  | .obj n, b => match b with | .obj m => n == m | _ => false

/-- Boolean equality on value lists. -/
def Val.beqList : List Val → List Val → Bool
  | [], b => match b with | [] => true | _ => false
  | x :: xs, b => match b with | y :: ys => Val.beq x y && Val.beqList xs ys | _ => false

end

mutual

theorem Val.eq_of_beq : ∀ (a b : Val), Val.beq a b = true → a = b
  | .undef, b, h => by cases b <;> simp_all [Val.beq]
  | .null, b, h => by cases b <;> simp_all [Val.beq]
  | .num _, b, h => by cases b <;> simp_all [Val.beq]
  | .str _, b, h => by cases b <;> simp_all [Val.beq]
  | .injRef _, b, h => by cases b <;> simp_all [Val.beq]
  | .obj _, b, h => by cases b <;> simp_all [Val.beq]
  | .arr l, b, h => by
      cases b with
      | arr l' => exact congrArg Val.arr (Val.eqList_of_beq l l' (by simpa [Val.beq] using h))
      | _ => simp_all [Val.beq]

theorem Val.eqList_of_beq : ∀ (a b : List Val), Val.beqList a b = true → a = b
  | [], b, h => by cases b <;> simp_all [Val.beqList]
  | x :: xs, b, h => by
      cases b with
      | nil => simp_all [Val.beqList]
      | cons y ys =>
          simp only [Val.beqList, Bool.and_eq_true] at h
          rw [Val.eq_of_beq x y h.1, Val.eqList_of_beq xs ys h.2]

end

mutual

theorem Val.beq_refl : ∀ (a : Val), Val.beq a a = true
  | .undef => rfl
  | .null => rfl
  | .num _ => by simp [Val.beq]
  | .str _ => by simp [Val.beq]
  | .injRef _ => by simp [Val.beq]
  | .obj _ => by simp [Val.beq]
  | .arr l => by simpa [Val.beq] using Val.beqList_refl l

theorem Val.beqList_refl : ∀ (l : List Val), Val.beqList l l = true
  | [] => rfl
  | x :: xs => by simp [Val.beqList, Val.beq_refl x, Val.beqList_refl xs]

end

instance : DecidableEq Val := fun a b =>
  decidable_of_iff (Val.beq a b = true)
    ⟨Val.eq_of_beq a b, fun h => h ▸ Val.beq_refl a⟩

/-- The mutable `Record.value` cache slot.  `empty` is the `EMPTY` sentinel
(unresolved), `circular` the `CIRCULAR` sentinel (in progress, used for cycle
detection), `val v` a resolved, cached value (which may be `undefined`). -/
inductive Slot where
  | empty : Slot
  | circular : Slot
  | val : Val → Slot
  deriving DecidableEq

/-- A record's function: `ident` is `IDENT` (used for value and existing
providers), `multi` is `MULTI_PROVIDER_FN` (collects its arguments into an
array), `user f` an opaque user constructor or factory interpreted by an
environment `Env`. -/
inductive Fn where
  | ident : Fn
  | multi : Fn
  | user : Nat → Fn
  deriving DecidableEq, Repr

/-- Interpretation of user constructors/factories: a pure map from function
identity and argument list to result value. -/
abbrev Env := Nat → List Val → Val

/-- The `OptionFlags` bitset of a dependency record, embedded as a structure:
`Optional = 1 << 0`, `CheckSelf = 1 << 1`, `CheckParent = 1 << 2`. -/
structure DepOpts where
  optional : Bool
  checkSelf : Bool
  checkParent : Bool
  deriving DecidableEq, Repr

/-- `OptionFlags.Default = CheckSelf | CheckParent`. -/
def defaultOpts : DepOpts := ⟨false, true, true⟩

/-- A normalized dependency entry (`DependencyRecord`). -/
structure DepRec where
  token : Tok
  options : DepOpts
  deriving DecidableEq, Repr

/-- A provider record (`Record`): resolution strategy for one token. -/
structure Record where
  fn : Fn
  useNew : Bool
  deps : List DepRec
  value : Slot
  deriving DecidableEq

/-- The provider table: a JS `Map<any, Record>` as an association list in
insertion order (`rset` overwrites in place or appends, like `Map.set`). -/
abbrev RecMap := List (Tok × Record)

/-- `Map.get`. -/
def rget (m : RecMap) (k : Tok) : Option Record :=
  (m.find? (fun e => e.1 = k)).map (fun e => e.2)

/-- `Map.set`: replace the entry in place if the key exists, else append. -/
def rset (m : RecMap) (k : Tok) (r : Record) : RecMap :=
  match m with
  | [] => [(k, r)]
  | (k', r') :: rest => if k' = k then (k, r) :: rest else (k', r') :: rset rest k r

/-- Read the mutable `value` field of the record stored for `k`. -/
def slotOf (m : RecMap) (k : Tok) : Option Slot :=
  (rget m k).map (fun r => r.value)

/-- Overwrite the mutable `value` field of the record stored for `k`
(no-op when the key is absent, which never happens at call sites). -/
def setSlot (m : RecMap) (k : Tok) (s : Slot) : RecMap :=
  match rget m k with
  | some r => rset m k { r with value := s }
  | none => m

/-- Scoping modifiers that may appear in a bracketed raw dependency entry
(`Optional`, `SkipSelf`, `Self`, `Inject`, or a plain token). -/
inductive Ann where
  | optional : Ann
  | skipSelf : Ann
  | selfOnly : Ann
  | inject : Tok → Ann
  | tok : Tok → Ann
  deriving DecidableEq, Repr

/-- A raw per-provider dependency declaration: a bare token, or an array of
modifiers and tokens. -/
inductive RawDep where
  | plain : Tok → RawDep
  | anns : List Ann → RawDep
  deriving DecidableEq, Repr

/-- A `StaticProvider` object.  `useValue = some v` models the `USE_VALUE`
key being present on the object (its payload may be the JS value
`undefined`); `deps = some l` models a present `deps` array (possibly
empty — an empty JS array is truthy), `none` an absent `deps` key.
Forward references are modelled as already unwrapped (`resolveForwardRef`
is the identity on non-wrapped arguments). -/
structure Provider where
  provide : Tok
  useValue : Option Val := none
  useFactory : Option Nat := none
  useExisting : Option Tok := none
  useClass : Option Nat := none
  deps : Option (List RawDep) := none
  multi : Bool := false
  deriving DecidableEq

/-- Table-build-time errors (`staticError` call sites). -/
inductive BuildErr where
  | malformed : Tok → BuildErr
  | depsRequired : Tok → BuildErr
  | mixedMulti : Tok → BuildErr
  | funcNotSupported : Nat → BuildErr
  deriving DecidableEq, Repr

/-- One step of the annotation loop inside `computeDeps`: each entry of the
bracketed array either sets a flag bit, overrides the token (`Inject`), or is
itself the token. -/
def applyAnn (acc : DepOpts × Tok) (a : Ann) : DepOpts × Tok :=
  match a with
  | .optional => ({ acc.1 with optional := true }, acc.2)
  | .skipSelf => ({ acc.1 with checkSelf := false }, acc.2)
  | .selfOnly => ({ acc.1 with checkParent := false }, acc.2)
  | .inject u => (acc.1, u)
  | .tok u => (acc.1, u)

/-- Compile one raw dependency declaration into a `DepRec`.  A bare token
gets `OptionFlags.Default`; a bracketed entry folds its modifiers left to
right (the raw array object itself is the token if none is given). -/
def compileRawDep (d : RawDep) : DepRec :=
  match d with
  | .plain t => ⟨t, defaultOpts⟩
  | .anns l =>
      let acc := l.foldl applyAnn (defaultOpts, Tok.arrObj)
      ⟨acc.2, acc.1⟩

/-- `computeDeps`: the dependency list of a provider.  A present non-empty
`deps` array is compiled entry-wise; otherwise a `useExisting` provider gets
a single default-flag entry for the aliased token; otherwise an absent
`deps` key is an error unless the provider is a value provider. -/
def computeDeps (p : Provider) : Except BuildErr (List DepRec) :=
  match p.deps with
  | some ds =>
      if ds.length > 0 then .ok (ds.map compileRawDep)
      else
        match p.useExisting with
        | some t => .ok [⟨t, defaultOpts⟩]
        | none => .ok []
  | none =>
      match p.useExisting with
      | some t => .ok [⟨t, defaultOpts⟩]
      | none =>
          if p.useValue.isSome then .ok []
          else .error (.depsRequired p.provide)

/-- `resolveProvider`: normalise one provider into a `Record`, following the
source's branch order (`USE_VALUE in provider`, then `useFactory`, then
`useExisting`, then `useClass`, then a directly newable `provide`). -/
def resolveProvider (p : Provider) : Except BuildErr Record :=
  match computeDeps p with
  | .error e => .error e
  | .ok deps =>
      match p.useValue with
      | some v => .ok ⟨.ident, false, deps, .val v⟩
      | none =>
          match p.useFactory with
          | some f => .ok ⟨.user f, false, deps, .empty⟩
          | none =>
              match p.useExisting with
              | some _ => .ok ⟨.ident, false, deps, .empty⟩
              | none =>
                  match p.useClass with
                  | some c => .ok ⟨.user c, true, deps, .empty⟩
                  | none =>
                      match p.provide with
                      | .cls n => .ok ⟨.user n, true, deps, .empty⟩
                      | _ => .error (.malformed p.provide)

/-- The common tail of `recursivelyProcessProviders` after the multi block:
`records.get(token)`, conflict check against a multi placeholder, then
`records.set(token, resolvedProvider)`.  `idx` is incremented past the
processed provider object. -/
def finishSet (recs : RecMap) (token : Tok) (r : Record) (idx : Nat) :
    Except BuildErr (RecMap × Nat) :=
  match rget recs token with
  | some existing =>
      if existing.fn = .multi then .error (.mixedMulti token)
      else .ok (rset recs token r, idx + 1)
  | none => .ok (rset recs token r, idx + 1)

/-- Process one provider object (the body of `recursivelyProcessProviders`
for a `{provide: ...}` object).  `idx` is the identity of this provider
object in the flattened list; a `multi: true` provider appends a dependency
entry on the synthetic token `Tok.prov idx` to the placeholder record and is
then itself registered under that synthetic token. -/
def processProvider (recs : RecMap) (idx : Nat) (p : Provider) :
    Except BuildErr (RecMap × Nat) :=
  let token := p.provide
  match resolveProvider p with
  | .error e => .error e
  | .ok resolved =>
      if p.multi then
        match rget recs token with
        | some mp =>
            if mp.fn ≠ .multi then .error (.mixedMulti token)
            else
              let recs' := rset recs token
                { mp with deps := mp.deps ++ [⟨Tok.prov idx, defaultOpts⟩] }
              finishSet recs' (Tok.prov idx) resolved idx
        | none =>
            let recs' := rset recs token
              ⟨.multi, false, [⟨Tok.prov idx, defaultOpts⟩], .empty⟩
            finishSet recs' (Tok.prov idx) resolved idx
      else finishSet recs token resolved idx

/-- The recursive input shape of `recursivelyProcessProviders`: a provider
object, a nested array, a falsy entry (skipped), or a bare function (a
build-time error). -/
inductive ProvInput where
  | one : Provider → ProvInput
  | many : List ProvInput → ProvInput
  | skip : ProvInput
  | bareFn : Nat → ProvInput

mutual

/-- `recursivelyProcessProviders` on one input. -/
def processOne (recs : RecMap) (idx : Nat) :
    ProvInput → Except BuildErr (RecMap × Nat)
  | .skip => .ok (recs, idx)
  | .bareFn n => .error (.funcNotSupported n)
  | .many l => processMany recs idx l
  | .one p => processProvider recs idx p

/-- `recursivelyProcessProviders` over an array of inputs. -/
def processMany (recs : RecMap) (idx : Nat) :
    List ProvInput → Except BuildErr (RecMap × Nat)
  | [] => .ok (recs, idx)
  | x :: xs =>
      match processOne recs idx x with
      | .error e => .error e
      | .ok (recs', idx') => processMany recs' idx' xs

end

/-- The record pre-seeded under the `Injector` token by the `StaticInjector`
constructor: identity function, no dependencies, value already resolved to
the owning injector instance. -/
def preseedRecord (id : Nat) : Record :=
  ⟨.ident, false, [], .val (.injRef id)⟩

/-- The `StaticInjector` constructor's table build: seed the `Injector`
entry, then process the providers. -/
def mkRecords (id : Nat) (providers : List ProvInput) : Except BuildErr RecMap :=
  match processMany [(Tok.injector, preseedRecord id)] 0 providers with
  | .error e => .error e
  | .ok (recs, _) => .ok recs

/-- An injector chain: `nil` is the terminal `NULL_INJECTOR`; `cons id recs
parent` a `StaticInjector` with identity `id`, record table `recs` and
parent `parent`.  The `parent` field defaults to `NULL_INJECTOR` at
construction. -/
inductive Chain where
  | nil : Chain
  | cons : Nat → RecMap → Chain → Chain
  deriving DecidableEq

/-- `Injector.create` / `new StaticInjector(providers, parent)`. -/
def mkInjector (id : Nat) (providers : List ProvInput) (parent : Chain) :
    Except BuildErr Chain :=
  match mkRecords id providers with
  | .error e => .error e
  | .ok recs => .ok (.cons id recs parent)

/-- Ghost tag identifying the throw site of a resolution-time error: the
`Circular dependency` throw in `resolveToken`, or the `NullInjectorError`
throw in `_NullInjector.get`. -/
inductive ErrKind where
  | circular : ErrKind
  | notFound : ErrKind
  deriving DecidableEq, Repr

/-- A thrown JS `Error` as observed by this core: its message, its
`ngTempTokenPath` / `ngTokenPath` expando properties (`none` models both an
absent property and `null`), and a ghost counter of how many times the
error's message was decorated by a `StaticInjector.get` catch block. -/
structure JsError where
  kind : ErrKind
  msg : String
  tempPath : Option (List Tok) := none
  tokenPath : Option (List Tok) := none
  wrapCount : Nat := 0
  deriving DecidableEq, Repr

/-- The outcome of a call: normal return, thrown error, or fuel exhaustion
(a technical recursion bound of the embedding, never identified with a
thrown error). -/
inductive Out (α : Type) where
  | ok : α → Out α
  | err : JsError → Out α
  | fuelOut : Out α
  deriving DecidableEq

/-- The `NO_NEW_LINE` marker prefixed to messages that `formatError` must
not re-indent. -/
def NO_NEW_LINE : String := "ɵ"

/-- `stringify` restricted to tokens (names used in error messages). -/
def stringifyTok : Tok → String
  | .injector => "Injector"
  | .cls n => "Class" ++ toString n
  | .itok n => "Token" ++ toString n
  | .prov n => "MultiProvider" ++ toString n
  | .arrObj => "Array"

/-- `formatError` as applied in the `StaticInjector.get` catch block: the
`obj` argument there is the token path (an array), so the context joins the
stringified tokens with ` -> `; a leading newline followed by the
`NO_NEW_LINE` marker is stripped and remaining newlines are indented. -/
def formatError (text : String) (path : List Tok) : String :=
  let text := if text.startsWith ("\n" ++ NO_NEW_LINE) then text.drop 2 else text
  let context := String.intercalate " -> " (path.map stringifyTok)
  "StaticInjectorError[" ++ context ++ "]: " ++ text.replace "\n" "\n  "

/-- The `notFoundValue` argument of `get`: the `THROW_IF_NOT_FOUND`
sentinel object, or a JS value.  An omitted argument is the JS value
`undefined`, i.e. `.val .undef` (`StaticInjector.get` declares no default
for this parameter). -/
inductive NFV where
  | throwSent : NFV
  | val : Val → NFV
  deriving DecidableEq

/-- `_NullInjector.get`: the parameter default `notFoundValue =
_THROW_IF_NOT_FOUND` reinstates the sentinel whenever the passed value is
`undefined`; the sentinel triggers the `NullInjectorError` throw and any
other value is returned unchanged. -/
def nullInjectorGet (token : Tok) (nfv : NFV) : Out Val :=
  let nfv := if nfv = .val .undef then .throwSent else nfv
  match nfv with
  | .throwSent =>
      .err { kind := .notFound,
             msg := "NullInjectorError: No provider for " ++ stringifyTok token ++ "!" }
  | .val v => .ok v

/-- The `Circular dependency` error thrown by `resolveToken`. -/
def circularError : JsError :=
  { kind := .circular, msg := NO_NEW_LINE ++ "Circular dependency" }

/-- Invoke a record function: `IDENT` returns its first argument,
`MULTI_PROVIDER_FN` collects its arguments into an array, and user
constructors/factories are interpreted by the environment (`new
fn(...deps)` and `fn.apply(undefined, deps)` both receive the resolved
dependencies in order). -/
def applyFn (env : Env) : Fn → List Val → Val
  | .ident, args => args.headD .undef
  | .multi, args => .arr args
  | .user f, args => env f args

/-- An invocation event: the identity of the injector owning the record and
the token under which the record is stored.  One event is emitted each time
a record's `fn` is invoked. -/
abbrev Ev := Nat × Tok

/-- The decoration applied in `StaticInjector.get`'s catch block: format the
message from the collected `ngTempTokenPath`, move it to `ngTokenPath`,
null out `ngTempTokenPath`, and count the decoration. -/
def decorateErr (e : JsError) : JsError :=
  let path := e.tempPath.getD []
  { e with msg := formatError ("\n" ++ e.msg) path,
           tokenPath := some path, tempPath := none,
           wrapCount := e.wrapCount + 1 }

/-- The `ngTempTokenPath` unshift in `tryResolveToken`'s catch block. -/
def pushPath (token : Tok) (e : JsError) : JsError :=
  { e with tempPath := some (token :: e.tempPath.getD []) }

/-- The slot reset in `tryResolveToken`'s catch block: if a record was
passed and its (live) value is the `CIRCULAR` sentinel, reset it to
`EMPTY`. -/
def resetIfCircular (rec? : Option Record) (recs : RecMap) (token : Tok) : RecMap :=
  if rec?.isSome ∧ slotOf recs token = some .circular then setSlot recs token .empty
  else recs

mutual

/-- `Injector.get` on a chain: either the terminal `_NullInjector.get`, or
`StaticInjector.get` (record lookup, `tryResolveToken`, and the catch block
that formats the message from the collected token path, moves
`ngTempTokenPath` to `ngTokenPath`, and rethrows). -/
def injGet (env : Env) : Nat → Chain → Tok → NFV → Out Val × Chain × List Ev
  | 0, c, _, _ => (.fuelOut, c, [])
  | _ + 1, .nil, token, nfv => (nullInjectorGet token nfv, .nil, [])
  | fuel + 1, .cons id recs parent, token, nfv =>
      let rec? := rget recs token
      match tryResolveToken env fuel id token rec? recs parent nfv with
      | (.err e, recs', parent', tr) =>
          (.err (decorateErr e), .cons id recs' parent', tr)
      | (o, recs', parent', tr) => (o, .cons id recs' parent', tr)

/-- `tryResolveToken`: run `resolveToken`; on a throw, prepend the token to
the error's `ngTempTokenPath` and reset the record's slot to `EMPTY` when it
is currently the `CIRCULAR` sentinel, then rethrow. -/
def tryResolveToken (env : Env) : Nat → Nat → Tok → Option Record → RecMap → Chain →
    NFV → Out Val × RecMap × Chain × List Ev
  | 0, _, _, _, recs, parent, _ => (.fuelOut, recs, parent, [])
  | fuel + 1, selfId, token, rec?, recs, parent, nfv =>
      match resolveToken env fuel selfId token rec? recs parent nfv with
      | (.err e, recs', parent', tr) =>
          (.err (pushPath token e), resetIfCircular rec? recs' token, parent', tr)
      | o => o

/-- `resolveToken`: a passed record gives cached-value return, cycle
detection on the `CIRCULAR` sentinel, or marking, dependency resolution and
invocation; with no record the call is delegated to the parent injector's
`get` with the same `notFoundValue`. -/
def resolveToken (env : Env) : Nat → Nat → Tok → Option Record → RecMap → Chain →
    NFV → Out Val × RecMap × Chain × List Ev
  | 0, _, _, _, recs, parent, _ => (.fuelOut, recs, parent, [])
  | fuel + 1, selfId, token, rec?, recs, parent, nfv =>
      match rec? with
      | some record =>
          match record.value with
          | .circular => (.err circularError, recs, parent, [])
          | .val v => (.ok v, recs, parent, [])
          | .empty =>
              let recs₁ := setSlot recs token .circular
              match resolveDeps env fuel selfId record.deps recs₁ parent with
              | (.ok args, recs₂, parent₂, tr) =>
                  let v := applyFn env record.fn args
                  (.ok v, setSlot recs₂ token (.val v), parent₂, tr ++ [(selfId, token)])
              | (.err e, recs₂, parent₂, tr) => (.err e, recs₂, parent₂, tr)
              | (.fuelOut, recs₂, parent₂, tr) => (.fuelOut, recs₂, parent₂, tr)
      | none =>
          match injGet env fuel parent token nfv with
          | (o, parent', tr) => (o, recs, parent', tr)

/-- The dependency loop of `resolveToken`: for each entry, the record is
looked up only when `CheckSelf` is set; when the record is absent and
`CheckParent` is cleared the null injector is passed instead of the parent;
`Optional` passes `null` as the not-found value; resolved values are pushed
left to right. -/
def resolveDeps (env : Env) : Nat → Nat → List DepRec → RecMap → Chain →
    Out (List Val) × RecMap × Chain × List Ev
  | 0, _, _, recs, parent => (.fuelOut, recs, parent, [])
  | _ + 1, _, [], recs, parent => (.ok [], recs, parent, [])
  | fuel + 1, selfId, d :: ds, recs, parent =>
      let options := d.options
      let childRec := if options.checkSelf then rget recs d.token else none
      let nfvD := if options.optional then NFV.val .null else NFV.throwSent
      let toNull := childRec.isNone && !options.checkParent
      match tryResolveToken env fuel selfId d.token childRec recs
          (if toNull then Chain.nil else parent) nfvD with
      | (.ok v, recs₁, parRet, tr₁) =>
          let parent₁ := if toNull then parent else parRet
          match resolveDeps env fuel selfId ds recs₁ parent₁ with
          | (.ok vs, recs₂, parent₂, tr₂) => (.ok (v :: vs), recs₂, parent₂, tr₁ ++ tr₂)
          | (.err e, recs₂, parent₂, tr₂) => (.err e, recs₂, parent₂, tr₁ ++ tr₂)
          | (.fuelOut, recs₂, parent₂, tr₂) => (.fuelOut, recs₂, parent₂, tr₁ ++ tr₂)
      | (.err e, recs₁, parRet, tr₁) =>
          (.err e, recs₁, if toNull then parent else parRet, tr₁)
      | (.fuelOut, recs₁, parRet, tr₁) =>
          (.fuelOut, recs₁, if toNull then parent else parRet, tr₁)

end

/-- Run a sequence of top-level `get` calls, threading the injector chain
and concatenating the invocation-event traces. -/
def runGets (env : Env) (fuel : Nat) : Chain → List (Tok × NFV) → Chain × List Ev
  | c, [] => (c, [])
  | c, g :: gs =>
      match injGet env fuel c g.1 g.2 with
      | (_, c₁, tr₁) =>
          match runGets env fuel c₁ gs with
          | (c₂, tr₂) => (c₂, tr₁ ++ tr₂)

/-- Injector identities along a chain. -/
def Chain.ids : Chain → List Nat
  | .nil => []
  | .cons id _ parent => id :: parent.ids

/-- Well-formedness of a chain: injector identities are distinct. -/
def Chain.wf : Chain → Bool
  | .nil => true
  | .cons id _ parent => !parent.ids.contains id && parent.wf

/-- The cache slot of injector `i`'s record for `t`, read off a chain. -/
def slotAt : Chain → Nat → Tok → Option Slot
  | .nil, _, _ => none
  | .cons id recs parent, i, t => if i = id then slotOf recs t else slotAt parent i t

/-- The cache slot read off the state of an in-progress resolution (the
record map of the resolving injector `selfId` plus its parent chain). -/
def slotE (selfId : Nat) (recs : RecMap) (parent : Chain) (i : Nat) (t : Tok) :
    Option Slot :=
  if i = selfId then slotOf recs t else slotAt parent i t

/-- Consistency of a passed record snapshot with the live map: whenever a
record object is passed, it is the map's entry for the token (which holds
at every call site, where the record is looked up immediately before the
call). -/
def RecOk (recs : RecMap) (token : Tok) (rec? : Option Record) : Prop :=
  ∀ r, rec? = some r → rget recs token = some r

/-- No record anywhere in the map is in the `CIRCULAR` (in-progress)
state. -/
def RecMap.noCirc (m : RecMap) : Prop :=
  ∀ e ∈ m, e.2.value ≠ Slot.circular

instance (m : RecMap) : Decidable m.noCirc := by
  unfold RecMap.noCirc; infer_instance

/-- No record anywhere in the chain is in the `CIRCULAR` (in-progress)
state: every record either holds a resolved value or is unresolved. -/
def Chain.noCirc : Chain → Prop
  | .nil => True
  | .cons _ recs parent => recs.noCirc ∧ parent.noCirc

/-- Decidability of `Chain.noCirc`, by recursion on the chain. -/
def Chain.decNoCirc : (c : Chain) → Decidable c.noCirc
  | .nil => .isTrue trivial
  | .cons _ recs parent =>
      @instDecidableAnd _ _ (inferInstance : Decidable recs.noCirc)
        (Chain.decNoCirc parent)

instance (c : Chain) : Decidable c.noCirc := Chain.decNoCirc c

/-- The invariant tying a chain to the trace of invocation events emitted
so far: no record was invoked twice, and every invoked record holds a
resolved value. -/
def chainOk (c : Chain) (tr : List Ev) : Prop :=
  tr.Nodup ∧ ∀ e ∈ tr, ∃ v, slotAt c e.1 e.2 = some (.val v)

mutual

/-- No provider in the input registers the `Injector` token itself. -/
def ProvInput.noInj : ProvInput → Bool
  | .one p => decide (p.provide ≠ Tok.injector)
  | .many l => ProvInput.noInjList l
  | .skip => true
  | .bareFn _ => true

/-- `ProvInput.noInj` over a list of inputs. -/
def ProvInput.noInjList : List ProvInput → Bool
  | [] => true
  | x :: xs => x.noInj && ProvInput.noInjList xs

end

/-- Decidable equality for `Except` results (used to evaluate build
outcomes in witnesses). -/
def exceptDecEq {α β : Type} [DecidableEq α] [DecidableEq β] :
    (a b : Except α β) → Decidable (a = b)
  | .ok a, .ok b =>
      if h : a = b then .isTrue (by rw [h]) else .isFalse (by simp [h])
  | .error a, .error b =>
      if h : a = b then .isTrue (by rw [h]) else .isFalse (by simp [h])
  | .ok _, .error _ => .isFalse (by simp)
  | .error _, .ok _ => .isFalse (by simp)

instance {α β : Type} [DecidableEq α] [DecidableEq β] : DecidableEq (Except α β) :=
  exceptDecEq

/-- The error kind of an outcome's thrown error, if any. -/
def errKindOf : Out Val → Option ErrKind
  | .err e => some e.kind
  | _ => none

/-- The wrap count of an outcome's thrown error, if any. -/
def wrapCountOf : Out Val → Option Nat
  | .err e => some e.wrapCount
  | _ => none

/-- A concrete environment used to instantiate universally quantified
theorems: function `f` applied to `args` returns the array `f :: args`. -/
def envW : Env := fun f args => .arr (.num f :: args)

/-- Chain length: the number of `StaticInjector` levels above the terminal
null injector. -/
def Chain.len : Chain → Nat
  | .nil => 0
  | .cons _ _ parent => parent.len + 1

/-- The token has no record anywhere along the chain. -/
def absentIn : Chain → Tok → Prop
  | .nil, _ => True
  | .cons _ recs parent, t => rget recs t = none ∧ absentIn parent t

/-- Decidability of `absentIn`, by recursion on the chain. -/
def decAbsentIn : (c : Chain) → (t : Tok) → Decidable (absentIn c t)
  | .nil, _ => .isTrue trivial
  | .cons _ recs parent, t =>
      @instDecidableAnd _ _ (inferInstance : Decidable (rget recs t = none))
        (decAbsentIn parent t)

instance (c : Chain) (t : Tok) : Decidable (absentIn c t) := decAbsentIn c t

/-- The record passed for a dependency entry: looked up only when
`CheckSelf` is set. -/
def depRec (recs : RecMap) (d : DepRec) : Option Record :=
  if d.options.checkSelf then rget recs d.token else none

/-- The not-found value passed for a dependency entry: `null` when
`Optional` is set, else the throw sentinel. -/
def depNfv (d : DepRec) : NFV :=
  if d.options.optional then .val .null else .throwSent

/-- Whether the dependency call receives the null injector in place of the
parent (record absent and `CheckParent` cleared). -/
def depToNull (recs : RecMap) (d : DepRec) : Bool :=
  (depRec recs d).isNone && !d.options.checkParent

/-- Declarative left-to-right sequential resolution of a dependency list:
the entries resolve strictly in declaration order, each from the state the
previous entry left behind, the produced values are collected in that same
order, and the trace is the concatenation of the per-entry traces in that
order. -/
inductive SeqResolves (env : Env) (selfId : Nat) :
    Nat → List DepRec → RecMap → Chain → List Val → RecMap → Chain → List Ev → Prop where
  | nil : ∀ fuel recs parent,
      SeqResolves env selfId (fuel + 1) [] recs parent [] recs parent []
  | cons : ∀ fuel d ds recs parent v recs₁ parRet tr₁ vs recs₂ parent₂ tr₂,
      tryResolveToken env fuel selfId d.token (depRec recs d) recs
        (if depToNull recs d then Chain.nil else parent) (depNfv d) =
        (.ok v, recs₁, parRet, tr₁) →
      SeqResolves env selfId fuel ds recs₁
        (if depToNull recs d then parent else parRet) vs recs₂ parent₂ tr₂ →
      SeqResolves env selfId (fuel + 1) (d :: ds) recs parent (v :: vs) recs₂ parent₂
        (tr₁ ++ tr₂)

/-- A `multi: true` value provider contributing `v` under token `M`. -/
def multiValueProvider (M : Tok) (v : Val) : Provider :=
  { provide := M, useValue := some v, multi := true }

/-- The flattened input registering one multi value provider per element of
`vs`, in order. -/
def multiProviders (M : Tok) (vs : List Val) : List ProvInput :=
  vs.map (fun v => .one (multiValueProvider M v))

/-- The record a value provider resolves to. -/
def valueRecord (v : Val) : Record := ⟨.ident, false, [], .val v⟩

/-- The synthetic dependency entries a multi placeholder accumulates:
default-flag entries on the provider-object tokens `prov idx`,
`prov (idx+1)`, ... -/
def synthDeps (idx n : Nat) : List DepRec :=
  (List.range n).map (fun k => ⟨.prov (idx + k), defaultOpts⟩)

/-! ## Basic lemmas about the record map -/

theorem rget_nil (k : Tok) : rget [] k = none := rfl

theorem rget_cons (k' : Tok) (r' : Record) (m : RecMap) (k : Tok) :
    rget ((k', r') :: m) k = if k' = k then some r' else rget m k := by
  by_cases h : k' = k <;> simp [rget, List.find?, h]

theorem rget_rset_self (m : RecMap) (k : Tok) (r : Record) :
    rget (rset m k r) k = some r := by
  induction m with
  | nil => simp [rset, rget_cons]
  | cons e rest ih =>
      obtain ⟨k', r'⟩ := e
      by_cases h : k' = k
      · simp [rset, h, rget_cons]
      · simp [rset, h, rget_cons, ih]

theorem rget_rset_ne (m : RecMap) (k t : Tok) (r : Record) (h : t ≠ k) :
    rget (rset m k r) t = rget m t := by
  have h' : k ≠ t := fun hh => h hh.symm
  induction m with
  | nil => simp [rset, rget_cons, h']
  | cons e rest ih =>
      obtain ⟨k', r'⟩ := e
      by_cases hk : k' = k
      · subst hk; simp [rset, rget_cons, h']
      · simp [rset, hk, rget_cons, ih]

theorem rget_setSlot_self (m : RecMap) (k : Tok) (s : Slot) (r : Record)
    (h : rget m k = some r) :
    rget (setSlot m k s) k = some { r with value := s } := by
  simp [setSlot, h, rget_rset_self]

theorem rget_setSlot_ne (m : RecMap) (k t : Tok) (s : Slot) (h : t ≠ k) :
    rget (setSlot m k s) t = rget m t := by
  unfold setSlot
  cases hk : rget m k with
  | none => rfl
  | some r => simp [rget_rset_ne _ _ _ _ h]

theorem slotOf_setSlot_self (m : RecMap) (k : Tok) (s : Slot) (r : Record)
    (h : rget m k = some r) :
    slotOf (setSlot m k s) k = some s := by
  simp [slotOf, rget_setSlot_self m k s r h]

theorem slotOf_setSlot_ne (m : RecMap) (k t : Tok) (s : Slot) (h : t ≠ k) :
    slotOf (setSlot m k s) t = slotOf m t := by
  simp [slotOf, rget_setSlot_ne m k t s h]

theorem isSome_rget_setSlot (m : RecMap) (k t : Tok) (s : Slot) :
    (rget (setSlot m k s) t).isSome = (rget m t).isSome := by
  by_cases h : t = k
  · subst h
    cases hk : rget m t with
    | none => simp [setSlot, hk]
    | some r => simp [rget_setSlot_self m t s r hk, hk]
  · simp [rget_setSlot_ne m k t s h]

theorem rset_self (m : RecMap) (k : Tok) (r : Record) (h : rget m k = some r) :
    rset m k r = m := by
  induction m with
  | nil => rw [rget_nil] at h; cases h
  | cons e rest ih =>
      obtain ⟨k', r'⟩ := e
      rw [rget_cons] at h
      by_cases hk : k' = k
      · rw [if_pos hk] at h
        injection h with h
        simp [rset, hk, h]
      · rw [if_neg hk] at h
        simp [rset, hk, ih h]

theorem rset_rset (m : RecMap) (k : Tok) (r₁ r₂ : Record) :
    rset (rset m k r₁) k r₂ = rset m k r₂ := by
  induction m with
  | nil => simp [rset]
  | cons e rest ih =>
      obtain ⟨k', r'⟩ := e
      by_cases hk : k' = k
      · simp [rset, hk]
      · simp [rset, hk, ih]

theorem rset_comm (m : RecMap) (k k' : Tok) (r r' : Record) (h : k ≠ k') :
    (rget m k).isSome → (rget m k').isSome →
    rset (rset m k r) k' r' = rset (rset m k' r') k r := by
  induction m with
  | nil => intro hk _; rw [rget_nil] at hk; cases hk
  | cons e rest ih =>
      intro hk hk'
      obtain ⟨k₀, r₀⟩ := e
      by_cases h1 : k₀ = k
      · subst h1
        simp [rset, h, Ne.symm h]
      · by_cases h2 : k₀ = k'
        · subst h2
          simp [rset, h1, Ne.symm h]
        · rw [rget_cons, if_neg h1] at hk
          rw [rget_cons, if_neg h2] at hk'
          simp [rset, h1, h2, ih hk hk']

theorem setSlot_setSlot (m : RecMap) (k : Tok) (s s' : Slot) :
    setSlot (setSlot m k s) k s' = setSlot m k s' := by
  cases hk : rget m k with
  | none => simp [setSlot, hk]
  | some r =>
      have h1 : setSlot m k s = rset m k { r with value := s } := by
        simp [setSlot, hk]
      have h2 : rget (rset m k { r with value := s }) k = some { r with value := s } :=
        rget_rset_self m k _
      rw [h1]
      have h3 : setSlot (rset m k { r with value := s }) k s' =
          rset (rset m k { r with value := s }) k { r with value := s' } := by
        simp [setSlot, h2]
      rw [h3, rset_rset]
      simp [setSlot, hk]

theorem setSlot_of_rget_none (m : RecMap) (k : Tok) (s : Slot) (h : rget m k = none) :
    setSlot m k s = m := by
  simp [setSlot, h]

theorem setSlot_of_rget_some (m : RecMap) (k : Tok) (s : Slot) (r : Record)
    (h : rget m k = some r) :
    setSlot m k s = rset m k { r with value := s } := by
  simp [setSlot, h]

theorem setSlot_comm (m : RecMap) (k k' : Tok) (s s' : Slot) (h : k ≠ k') :
    setSlot (setSlot m k s) k' s' = setSlot (setSlot m k' s') k s := by
  cases hk : rget m k with
  | none =>
      cases hk' : rget m k' with
      | none => simp [setSlot, hk, hk']
      | some r' =>
          have e1 : setSlot m k s = m := setSlot_of_rget_none m k s hk
          have e2 : rget (setSlot m k' s') k = none := by
            rw [rget_setSlot_ne m k' k s' h, hk]
          rw [e1, setSlot_of_rget_none _ k s e2]
  | some r =>
      cases hk' : rget m k' with
      | none =>
          have e1 : setSlot m k' s' = m := setSlot_of_rget_none m k' s' hk'
          have e2 : rget (setSlot m k s) k' = none := by
            rw [rget_setSlot_ne m k k' s (Ne.symm h), hk']
          rw [e1, setSlot_of_rget_none _ k' s' e2]
      | some r' =>
          have e2 : rget (setSlot m k s) k' = some r' := by
            rw [rget_setSlot_ne m k k' s (Ne.symm h), hk']
          have e2' : rget (setSlot m k' s') k = some r := by
            rw [rget_setSlot_ne m k' k s' h, hk]
          rw [setSlot_of_rget_some _ k' s' r' e2, setSlot_of_rget_some _ k s r e2',
            setSlot_of_rget_some m k s r hk, setSlot_of_rget_some m k' s' r' hk']
          exact rset_comm m k k' _ _ h (by simp [hk]) (by simp [hk'])

theorem setSlot_same (m : RecMap) (k : Tok) (r : Record) (h : rget m k = some r) :
    setSlot m k r.value = m := by
  have h1 : setSlot m k r.value = rset m k { r with value := r.value } := by
    simp [setSlot, h]
  have h2 : { r with value := r.value } = r := rfl
  rw [h1, h2]
  exact rset_self m k r h

/-! ## Step lemmas for the interpreter -/

theorem injGet_zero (env : Env) (c : Chain) (token : Tok) (nfv : NFV) :
    injGet env 0 c token nfv = (.fuelOut, c, []) := by
  simp [injGet]

theorem injGet_nil (env : Env) (fuel : Nat) (token : Tok) (nfv : NFV) :
    injGet env (fuel + 1) .nil token nfv = (nullInjectorGet token nfv, .nil, []) := by
  simp [injGet]

theorem injGet_cons_ok {env : Env} {fuel id : Nat} {recs recs' : RecMap}
    {parent parent' : Chain} {token : Tok} {nfv : NFV} {v : Val} {tr : List Ev}
    (h : tryResolveToken env fuel id token (rget recs token) recs parent nfv =
      (.ok v, recs', parent', tr)) :
    injGet env (fuel + 1) (.cons id recs parent) token nfv =
      (.ok v, .cons id recs' parent', tr) := by
  simp [injGet, h]

theorem injGet_cons_err {env : Env} {fuel id : Nat} {recs recs' : RecMap}
    {parent parent' : Chain} {token : Tok} {nfv : NFV} {e : JsError} {tr : List Ev}
    (h : tryResolveToken env fuel id token (rget recs token) recs parent nfv =
      (.err e, recs', parent', tr)) :
    injGet env (fuel + 1) (.cons id recs parent) token nfv =
      (.err (decorateErr e), .cons id recs' parent', tr) := by
  simp [injGet, h]

theorem injGet_cons_fuelOut {env : Env} {fuel id : Nat} {recs recs' : RecMap}
    {parent parent' : Chain} {token : Tok} {nfv : NFV} {tr : List Ev}
    (h : tryResolveToken env fuel id token (rget recs token) recs parent nfv =
      (.fuelOut, recs', parent', tr)) :
    injGet env (fuel + 1) (.cons id recs parent) token nfv =
      (.fuelOut, .cons id recs' parent', tr) := by
  simp [injGet, h]

theorem tryResolveToken_zero (env : Env) (selfId : Nat) (token : Tok)
    (rec? : Option Record) (recs : RecMap) (parent : Chain) (nfv : NFV) :
    tryResolveToken env 0 selfId token rec? recs parent nfv =
      (.fuelOut, recs, parent, []) := by
  simp [tryResolveToken]

theorem tryResolveToken_ok {env : Env} {fuel selfId : Nat} {token : Tok}
    {rec? : Option Record} {recs recs' : RecMap} {parent parent' : Chain}
    {nfv : NFV} {v : Val} {tr : List Ev}
    (h : resolveToken env fuel selfId token rec? recs parent nfv =
      (.ok v, recs', parent', tr)) :
    tryResolveToken env (fuel + 1) selfId token rec? recs parent nfv =
      (.ok v, recs', parent', tr) := by
  simp [tryResolveToken, h]

theorem tryResolveToken_err {env : Env} {fuel selfId : Nat} {token : Tok}
    {rec? : Option Record} {recs recs' : RecMap} {parent parent' : Chain}
    {nfv : NFV} {e : JsError} {tr : List Ev}
    (h : resolveToken env fuel selfId token rec? recs parent nfv =
      (.err e, recs', parent', tr)) :
    tryResolveToken env (fuel + 1) selfId token rec? recs parent nfv =
      (.err (pushPath token e), resetIfCircular rec? recs' token, parent', tr) := by
  simp [tryResolveToken, h]

theorem tryResolveToken_fuelOut {env : Env} {fuel selfId : Nat} {token : Tok}
    {rec? : Option Record} {recs recs' : RecMap} {parent parent' : Chain}
    {nfv : NFV} {tr : List Ev}
    (h : resolveToken env fuel selfId token rec? recs parent nfv =
      (.fuelOut, recs', parent', tr)) :
    tryResolveToken env (fuel + 1) selfId token rec? recs parent nfv =
      (.fuelOut, recs', parent', tr) := by
  simp [tryResolveToken, h]

theorem resolveToken_zero (env : Env) (selfId : Nat) (token : Tok)
    (rec? : Option Record) (recs : RecMap) (parent : Chain) (nfv : NFV) :
    resolveToken env 0 selfId token rec? recs parent nfv =
      (.fuelOut, recs, parent, []) := by
  simp [resolveToken]

theorem resolveToken_circ {env : Env} {fuel selfId : Nat} {token : Tok}
    {record : Record} {recs : RecMap} {parent : Chain} {nfv : NFV}
    (h : record.value = .circular) :
    resolveToken env (fuel + 1) selfId token (some record) recs parent nfv =
      (.err circularError, recs, parent, []) := by
  simp [resolveToken, h]

theorem resolveToken_val {env : Env} {fuel selfId : Nat} {token : Tok}
    {record : Record} {recs : RecMap} {parent : Chain} {nfv : NFV} {v : Val}
    (h : record.value = .val v) :
    resolveToken env (fuel + 1) selfId token (some record) recs parent nfv =
      (.ok v, recs, parent, []) := by
  simp [resolveToken, h]

theorem resolveToken_empty_ok {env : Env} {fuel selfId : Nat} {token : Tok}
    {record : Record} {recs recs₂ : RecMap} {parent parent₂ : Chain} {nfv : NFV}
    {args : List Val} {tr : List Ev}
    (h : record.value = .empty)
    (hd : resolveDeps env fuel selfId record.deps (setSlot recs token .circular) parent =
      (.ok args, recs₂, parent₂, tr)) :
    resolveToken env (fuel + 1) selfId token (some record) recs parent nfv =
      (.ok (applyFn env record.fn args),
       setSlot recs₂ token (.val (applyFn env record.fn args)), parent₂,
       tr ++ [(selfId, token)]) := by
  simp [resolveToken, h, hd]

theorem resolveToken_empty_err {env : Env} {fuel selfId : Nat} {token : Tok}
    {record : Record} {recs recs₂ : RecMap} {parent parent₂ : Chain} {nfv : NFV}
    {e : JsError} {tr : List Ev}
    (h : record.value = .empty)
    (hd : resolveDeps env fuel selfId record.deps (setSlot recs token .circular) parent =
      (.err e, recs₂, parent₂, tr)) :
    resolveToken env (fuel + 1) selfId token (some record) recs parent nfv =
      (.err e, recs₂, parent₂, tr) := by
  simp [resolveToken, h, hd]

theorem resolveToken_empty_fuelOut {env : Env} {fuel selfId : Nat} {token : Tok}
    {record : Record} {recs recs₂ : RecMap} {parent parent₂ : Chain} {nfv : NFV}
    {tr : List Ev}
    (h : record.value = .empty)
    (hd : resolveDeps env fuel selfId record.deps (setSlot recs token .circular) parent =
      (.fuelOut, recs₂, parent₂, tr)) :
    resolveToken env (fuel + 1) selfId token (some record) recs parent nfv =
      (.fuelOut, recs₂, parent₂, tr) := by
  simp [resolveToken, h, hd]

theorem resolveToken_none {env : Env} {fuel selfId : Nat} {token : Tok}
    {recs : RecMap} {parent parent' : Chain} {nfv : NFV} {o : Out Val} {tr : List Ev}
    (h : injGet env fuel parent token nfv = (o, parent', tr)) :
    resolveToken env (fuel + 1) selfId token none recs parent nfv =
      (o, recs, parent', tr) := by
  simp [resolveToken, h]

theorem resolveDeps_zero (env : Env) (selfId : Nat) (ds : List DepRec)
    (recs : RecMap) (parent : Chain) :
    resolveDeps env 0 selfId ds recs parent = (.fuelOut, recs, parent, []) := by
  simp [resolveDeps]

theorem resolveDeps_nil (env : Env) (fuel selfId : Nat) (recs : RecMap)
    (parent : Chain) :
    resolveDeps env (fuel + 1) selfId [] recs parent = (.ok [], recs, parent, []) := by
  simp [resolveDeps]

theorem resolveDeps_cons (env : Env) (fuel selfId : Nat) (d : DepRec)
    (ds : List DepRec) (recs : RecMap) (parent : Chain) :
    resolveDeps env (fuel + 1) selfId (d :: ds) recs parent =
      match tryResolveToken env fuel selfId d.token (depRec recs d) recs
          (if depToNull recs d then Chain.nil else parent) (depNfv d) with
      | (.ok v, recs₁, parRet, tr₁) =>
          let parent₁ := if depToNull recs d then parent else parRet
          match resolveDeps env fuel selfId ds recs₁ parent₁ with
          | (.ok vs, recs₂, parent₂, tr₂) => (.ok (v :: vs), recs₂, parent₂, tr₁ ++ tr₂)
          | (.err e, recs₂, parent₂, tr₂) => (.err e, recs₂, parent₂, tr₁ ++ tr₂)
          | (.fuelOut, recs₂, parent₂, tr₂) => (.fuelOut, recs₂, parent₂, tr₁ ++ tr₂)
      | (.err e, recs₁, parRet, tr₁) =>
          (.err e, recs₁, if depToNull recs d then parent else parRet, tr₁)
      | (.fuelOut, recs₁, parRet, tr₁) =>
          (.fuelOut, recs₁, if depToNull recs d then parent else parRet, tr₁) := by
  simp only [resolveDeps, depRec, depNfv, depToNull]

theorem resolveDeps_cons_ok {env : Env} {fuel selfId : Nat} {d : DepRec}
    {ds : List DepRec} {recs recs₁ recs₂ : RecMap} {parent parRet parent₂ : Chain}
    {v : Val} {vs : List Val} {tr₁ tr₂ : List Ev}
    (htry : tryResolveToken env fuel selfId d.token (depRec recs d) recs
      (if depToNull recs d then Chain.nil else parent) (depNfv d) =
      (.ok v, recs₁, parRet, tr₁))
    (hrest : resolveDeps env fuel selfId ds recs₁
      (if depToNull recs d then parent else parRet) = (.ok vs, recs₂, parent₂, tr₂)) :
    resolveDeps env (fuel + 1) selfId (d :: ds) recs parent =
      (.ok (v :: vs), recs₂, parent₂, tr₁ ++ tr₂) := by
  rw [resolveDeps_cons, htry]
  simp [hrest]

theorem resolveDeps_cons_restErr {env : Env} {fuel selfId : Nat} {d : DepRec}
    {ds : List DepRec} {recs recs₁ recs₂ : RecMap} {parent parRet parent₂ : Chain}
    {v : Val} {e : JsError} {tr₁ tr₂ : List Ev}
    (htry : tryResolveToken env fuel selfId d.token (depRec recs d) recs
      (if depToNull recs d then Chain.nil else parent) (depNfv d) =
      (.ok v, recs₁, parRet, tr₁))
    (hrest : resolveDeps env fuel selfId ds recs₁
      (if depToNull recs d then parent else parRet) = (.err e, recs₂, parent₂, tr₂)) :
    resolveDeps env (fuel + 1) selfId (d :: ds) recs parent =
      (.err e, recs₂, parent₂, tr₁ ++ tr₂) := by
  rw [resolveDeps_cons, htry]
  simp [hrest]

theorem resolveDeps_cons_restFuelOut {env : Env} {fuel selfId : Nat} {d : DepRec}
    {ds : List DepRec} {recs recs₁ recs₂ : RecMap} {parent parRet parent₂ : Chain}
    {v : Val} {tr₁ tr₂ : List Ev}
    (htry : tryResolveToken env fuel selfId d.token (depRec recs d) recs
      (if depToNull recs d then Chain.nil else parent) (depNfv d) =
      (.ok v, recs₁, parRet, tr₁))
    (hrest : resolveDeps env fuel selfId ds recs₁
      (if depToNull recs d then parent else parRet) = (.fuelOut, recs₂, parent₂, tr₂)) :
    resolveDeps env (fuel + 1) selfId (d :: ds) recs parent =
      (.fuelOut, recs₂, parent₂, tr₁ ++ tr₂) := by
  rw [resolveDeps_cons, htry]
  simp [hrest]

theorem resolveDeps_cons_err {env : Env} {fuel selfId : Nat} {d : DepRec}
    {ds : List DepRec} {recs recs₁ : RecMap} {parent parRet : Chain}
    {e : JsError} {tr₁ : List Ev}
    (htry : tryResolveToken env fuel selfId d.token (depRec recs d) recs
      (if depToNull recs d then Chain.nil else parent) (depNfv d) =
      (.err e, recs₁, parRet, tr₁)) :
    resolveDeps env (fuel + 1) selfId (d :: ds) recs parent =
      (.err e, recs₁, if depToNull recs d then parent else parRet, tr₁) := by
  rw [resolveDeps_cons, htry]

theorem resolveDeps_cons_fuelOut {env : Env} {fuel selfId : Nat} {d : DepRec}
    {ds : List DepRec} {recs recs₁ : RecMap} {parent parRet : Chain} {tr₁ : List Ev}
    (htry : tryResolveToken env fuel selfId d.token (depRec recs d) recs
      (if depToNull recs d then Chain.nil else parent) (depNfv d) =
      (.fuelOut, recs₁, parRet, tr₁)) :
    resolveDeps env (fuel + 1) selfId (d :: ds) recs parent =
      (.fuelOut, recs₁, if depToNull recs d then parent else parRet, tr₁) := by
  rw [resolveDeps_cons, htry]

/-! ## Small facts about the catch-block helpers -/

theorem decorateErr_kind (e : JsError) : (decorateErr e).kind = e.kind := rfl

theorem pushPath_kind (t : Tok) (e : JsError) : (pushPath t e).kind = e.kind := rfl

theorem resetIfCircular_none (recs : RecMap) (token : Tok) :
    resetIfCircular none recs token = recs := by
  simp [resetIfCircular]

theorem decorateErr_wrapCount (e : JsError) :
    (decorateErr e).wrapCount = e.wrapCount + 1 := rfl

theorem pushPath_wrapCount (t : Tok) (e : JsError) :
    (pushPath t e).wrapCount = e.wrapCount := rfl

/-! ## Resolution of a token absent from the whole chain -/

/-- If a token is absent from every table along the chain and the
`notFoundValue` is `undefined` or the throw sentinel, `get` throws an error
originating at the null injector's `NullInjectorError` throw, and the chain
is unchanged with no invocation. -/
theorem injGet_absent_throw (env : Env) :
    ∀ (c : Chain) (fuel : Nat) (t : Tok) (nfv : NFV),
    absentIn c t → (nfv = .val .undef ∨ nfv = .throwSent) → 3 * c.len + 1 ≤ fuel →
    ∃ e : JsError, injGet env fuel c t nfv = (.err e, c, []) ∧ e.kind = .notFound := by
  intro c
  induction c with
  | nil =>
      intro fuel t nfv _ hn hf
      obtain ⟨f, rfl⟩ : ∃ f, fuel = f + 1 := ⟨fuel - 1, by omega⟩
      refine ⟨{ kind := .notFound,
                msg := "NullInjectorError: No provider for " ++ stringifyTok t ++ "!" },
              ?_, rfl⟩
      rw [injGet_nil]
      rcases hn with rfl | rfl <;> rfl
  | cons id recs parent ih =>
      intro fuel t nfv habs hn hf
      obtain ⟨hnone, habs'⟩ := habs
      have hf' : 3 * parent.len + 4 ≤ fuel := by
        simp only [Chain.len] at hf; omega
      obtain ⟨f, rfl⟩ : ∃ f, fuel = f + 3 := ⟨fuel - 3, by omega⟩
      obtain ⟨e, hp, hk⟩ := ih f t nfv habs' hn (by omega)
      have h1 : resolveToken env (f + 1) id t (rget recs t) recs parent nfv =
          (.err e, recs, parent, []) := by
        rw [hnone]; exact resolveToken_none hp
      have h2 := tryResolveToken_err h1
      have hreset : resetIfCircular (rget recs t) recs t = recs := by
        rw [hnone]; exact resetIfCircular_none recs t
      rw [hreset] at h2
      exact ⟨decorateErr (pushPath t e), injGet_cons_err h2,
             by rw [decorateErr_kind, pushPath_kind, hk]⟩

/-- If a token is absent from every table along the chain and an ordinary
value is supplied as `notFoundValue`, `get` returns that value unchanged,
with no state change and no invocation. -/
theorem injGet_absent_val (env : Env) :
    ∀ (c : Chain) (fuel : Nat) (t : Tok) (v : Val), v ≠ .undef →
    absentIn c t → 3 * c.len + 1 ≤ fuel →
    injGet env fuel c t (.val v) = (.ok v, c, []) := by
  intro c
  induction c with
  | nil =>
      intro fuel t v hv _ hf
      obtain ⟨f, rfl⟩ : ∃ f, fuel = f + 1 := ⟨fuel - 1, by omega⟩
      rw [injGet_nil]
      simp [nullInjectorGet, hv]
  | cons id recs parent ih =>
      intro fuel t v hv habs hf
      obtain ⟨hnone, habs'⟩ := habs
      have hf' : 3 * parent.len + 4 ≤ fuel := by
        simp only [Chain.len] at hf; omega
      obtain ⟨f, rfl⟩ : ∃ f, fuel = f + 3 := ⟨fuel - 3, by omega⟩
      have hp := ih f t v hv habs' (by omega)
      have h1 : resolveToken env (f + 1) id t (rget recs t) recs parent (.val v) =
          (.ok v, recs, parent, []) := by
        rw [hnone]; exact resolveToken_none hp
      exact injGet_cons_ok (tryResolveToken_ok h1)

/-- A dependency entry carrying the `Optional` flag (with default scope
bits) on a token absent from the requesting injector and its whole parent
chain resolves to `null`: the record's function is invoked with `null` in
that argument position instead of a throw. -/
theorem injGet_optionalDep {env : Env} {fuel id : Nat} {recs : RecMap}
    {parent : Chain} {P t : Tok} {rP : Record} {nfv : NFV}
    (hP : rget recs P = some rP)
    (hval : rP.value = .empty)
    (hdeps : rP.deps = [⟨t, ⟨true, true, true⟩⟩])
    (hne : t ≠ P)
    (hnone : rget recs t = none)
    (habs : absentIn parent t)
    (hfuel : 3 * parent.len + 1 ≤ fuel) :
    injGet env (fuel + 6) (.cons id recs parent) P nfv =
      (.ok (applyFn env rP.fn [.null]),
       .cons id (setSlot (setSlot recs P .circular) P
         (.val (applyFn env rP.fn [.null]))) parent,
       [(id, P)]) := by
  have hrt : rget (setSlot recs P .circular) t = none := by
    rw [rget_setSlot_ne recs P t .circular hne, hnone]
  have hdep : depRec (setSlot recs P .circular) ⟨t, ⟨true, true, true⟩⟩ = none := by
    simp [depRec, hrt]
  have htnull : depToNull (setSlot recs P .circular) ⟨t, ⟨true, true, true⟩⟩ = false := by
    simp [depToNull]
  have habsv : injGet env fuel parent t (.val .null) = (.ok .null, parent, []) :=
    injGet_absent_val env parent fuel t .null (by decide) habs hfuel
  have htry0 : tryResolveToken env (fuel + 2) id t none (setSlot recs P .circular)
      parent (.val .null) = (.ok .null, setSlot recs P .circular, parent, []) :=
    tryResolveToken_ok (resolveToken_none habsv)
  have htry : tryResolveToken env (fuel + 2) id
      (DepRec.token ⟨t, ⟨true, true, true⟩⟩)
      (depRec (setSlot recs P .circular) ⟨t, ⟨true, true, true⟩⟩)
      (setSlot recs P .circular)
      (if depToNull (setSlot recs P .circular) ⟨t, ⟨true, true, true⟩⟩ then Chain.nil
       else parent)
      (depNfv ⟨t, ⟨true, true, true⟩⟩) =
      (.ok .null, setSlot recs P .circular, parent, []) := by
    rw [hdep, htnull]
    exact htry0
  have hrest : resolveDeps env (fuel + 2) id [] (setSlot recs P .circular)
      (if depToNull (setSlot recs P .circular) ⟨t, ⟨true, true, true⟩⟩ then parent
       else parent) = (.ok [], setSlot recs P .circular, parent, []) := by
    rw [if_neg (by rw [htnull]; exact Bool.false_ne_true)]
    exact resolveDeps_nil env (fuel + 1) id _ parent
  have hds : resolveDeps env (fuel + 3) id rP.deps (setSlot recs P .circular) parent =
      (.ok [.null], setSlot recs P .circular, parent, []) := by
    rw [hdeps]
    simpa using resolveDeps_cons_ok htry hrest
  have hrt2 : resolveToken env (fuel + 4) id P (some rP) recs parent nfv =
      (.ok (applyFn env rP.fn [.null]),
       setSlot (setSlot recs P .circular) P (.val (applyFn env rP.fn [.null])),
       parent, [] ++ [(id, P)]) := resolveToken_empty_ok hval hds
  have htry2 : tryResolveToken env (fuel + 5) id P (rget recs P) recs parent nfv =
      (.ok (applyFn env rP.fn [.null]),
       setSlot (setSlot recs P .circular) P (.val (applyFn env rP.fn [.null])),
       parent, [(id, P)]) := by
    rw [hP]
    simpa using tryResolveToken_ok hrt2
  exact injGet_cons_ok htry2

/-! ## Cached reads -/

/-- A record whose slot holds a resolved value is returned as-is by
`resolveToken`, with no state change and no invocation. -/
theorem injGet_cached {env : Env} {fuel id : Nat} {recs : RecMap}
    {parent : Chain} {token : Tok} {nfv : NFV} {r : Record} {v : Val}
    (hr : rget recs token = some r) (hv : r.value = .val v) :
    injGet env (fuel + 3) (.cons id recs parent) token nfv =
      (.ok v, .cons id recs parent, []) := by
  have h1 : resolveToken env (fuel + 1) id token (rget recs token) recs parent nfv =
      (.ok v, recs, parent, []) := by
    rw [hr]; exact resolveToken_val hv
  exact injGet_cons_ok (tryResolveToken_ok h1)

/-! ## Error decoration counts within a single injector -/

theorem nullInjectorGet_err {t : Tok} {nfv : NFV} {e : JsError}
    (h : nullInjectorGet t nfv = .err e) :
    e.wrapCount = 0 ∧ e.kind = .notFound ∧ e.tempPath = none := by
  cases nfv with
  | throwSent =>
      simp only [nullInjectorGet] at h
      cases h
      exact ⟨rfl, rfl, rfl⟩
  | val v =>
      by_cases hv : v = .undef
      · subst hv
        simp only [nullInjectorGet] at h
        cases h
        exact ⟨rfl, rfl, rfl⟩
      · simp [nullInjectorGet, hv] at h

/-- Resolution that starts with the terminal null injector as parent never
touches any other injector: the returned parent chain is again `nil`. -/
theorem nilParent_preserved (env : Env) : ∀ fuel : Nat,
    (∀ token nfv, (injGet env fuel .nil token nfv).2.1 = .nil)
  ∧ (∀ selfId token rec? recs nfv,
      (resolveToken env fuel selfId token rec? recs .nil nfv).2.2.1 = .nil)
  ∧ (∀ selfId token rec? recs nfv,
      (tryResolveToken env fuel selfId token rec? recs .nil nfv).2.2.1 = .nil)
  ∧ (∀ selfId ds recs, (resolveDeps env fuel selfId ds recs .nil).2.2.1 = .nil) := by
  intro fuel
  induction fuel with
  | zero =>
      refine ⟨fun token nfv => ?_, fun selfId token rec? recs nfv => ?_,
              fun selfId token rec? recs nfv => ?_, fun selfId ds recs => ?_⟩
      · rw [injGet_zero]
      · rw [resolveToken_zero]
      · rw [tryResolveToken_zero]
      · rw [resolveDeps_zero]
  | succ fuel ih =>
      obtain ⟨ihG, ihR, ihT, ihD⟩ := ih
      refine ⟨fun token nfv => ?_, fun selfId token rec? recs nfv => ?_,
              fun selfId token rec? recs nfv => ?_, fun selfId ds recs => ?_⟩
      · rw [injGet_nil]
      · cases rec? with
        | none =>
            rcases hg : injGet env fuel .nil token nfv with ⟨o, p', tr⟩
            rw [resolveToken_none hg]
            have := ihG token nfv
            rw [hg] at this
            exact this
        | some record =>
            rcases hv : record.value with _ | _ | v
            · rcases hd : resolveDeps env fuel selfId record.deps
                (setSlot recs token .circular) .nil with ⟨o, r2, p2, tr2⟩
              have hnil : p2 = .nil := by
                have := ihD selfId record.deps (setSlot recs token .circular)
                rw [hd] at this
                exact this
              cases o with
              | ok args => rw [resolveToken_empty_ok hv hd]; exact hnil
              | err e => rw [resolveToken_empty_err hv hd]; exact hnil
              | fuelOut => rw [resolveToken_empty_fuelOut hv hd]; exact hnil
            · rw [resolveToken_circ hv]
            · rw [resolveToken_val hv]
      · rcases hr : resolveToken env fuel selfId token rec? recs .nil nfv
          with ⟨o, r', p', tr⟩
        have hnil : p' = .nil := by
          have := ihR selfId token rec? recs nfv
          rw [hr] at this
          exact this
        cases o with
        | ok v => rw [tryResolveToken_ok hr]; exact hnil
        | err e => rw [tryResolveToken_err hr]; exact hnil
        | fuelOut => rw [tryResolveToken_fuelOut hr]; exact hnil
      · cases ds with
        | nil => rw [resolveDeps_nil]
        | cons d ds =>
            rcases htry : tryResolveToken env fuel selfId d.token (depRec recs d) recs
              (if depToNull recs d then Chain.nil else Chain.nil) (depNfv d)
              with ⟨o, r1, pRet, tr1⟩
            have hpr : pRet = .nil := by
              have := ihT selfId d.token (depRec recs d) recs (depNfv d)
              rw [ite_self] at htry
              rw [htry] at this
              exact this
            cases o with
            | ok v =>
                rcases hrest : resolveDeps env fuel selfId ds r1 Chain.nil
                  with ⟨o2, r2, p2, tr2⟩
                have h2 : p2 = .nil := by
                  have := ihD selfId ds r1
                  rw [hrest] at this
                  exact this
                have hrest' : resolveDeps env fuel selfId ds r1
                    (if depToNull recs d then Chain.nil else pRet) = (o2, r2, p2, tr2) := by
                  rw [hpr, ite_self]; exact hrest
                cases o2 with
                | ok vs => rw [resolveDeps_cons_ok htry hrest']; exact h2
                | err e2 => rw [resolveDeps_cons_restErr htry hrest']; exact h2
                | fuelOut => rw [resolveDeps_cons_restFuelOut htry hrest']; exact h2
            | err e =>
                rw [resolveDeps_cons_err htry, hpr, ite_self]
            | fuelOut =>
                rw [resolveDeps_cons_fuelOut htry, hpr, ite_self]

/-- Within a single injector over the null injector (no `StaticInjector`
parent), every error escaping `resolveToken`, `tryResolveToken`, the
dependency loop, or the null injector itself is still undecorated: its
message has never been rewritten by a `StaticInjector.get` catch block. -/
theorem wrapCount_zero_nilParent (env : Env) : ∀ fuel : Nat,
    (∀ token nfv e c' tr,
      injGet env fuel .nil token nfv = (.err e, c', tr) → e.wrapCount = 0)
  ∧ (∀ selfId token rec? recs nfv e recs' p' tr,
      resolveToken env fuel selfId token rec? recs .nil nfv = (.err e, recs', p', tr) →
      e.wrapCount = 0)
  ∧ (∀ selfId token rec? recs nfv e recs' p' tr,
      tryResolveToken env fuel selfId token rec? recs .nil nfv = (.err e, recs', p', tr) →
      e.wrapCount = 0)
  ∧ (∀ selfId ds recs e recs' p' tr,
      resolveDeps env fuel selfId ds recs .nil = (.err e, recs', p', tr) →
      e.wrapCount = 0) := by
  intro fuel
  induction fuel with
  | zero =>
      refine ⟨fun token nfv e c' tr h => ?_, fun selfId token rec? recs nfv e r' p' tr h => ?_,
              fun selfId token rec? recs nfv e r' p' tr h => ?_,
              fun selfId ds recs e r' p' tr h => ?_⟩
      · rw [injGet_zero] at h; simp at h
      · rw [resolveToken_zero] at h; simp at h
      · rw [tryResolveToken_zero] at h; simp at h
      · rw [resolveDeps_zero] at h; simp at h
  | succ fuel ih =>
      obtain ⟨ihG, ihR, ihT, ihD⟩ := ih
      have ⟨nilG, nilR, nilT, nilD⟩ := nilParent_preserved env fuel
      refine ⟨fun token nfv e c' tr h => ?_, fun selfId token rec? recs nfv e r' p' tr h => ?_,
              fun selfId token rec? recs nfv e r' p' tr h => ?_,
              fun selfId ds recs e r' p' tr h => ?_⟩
      · rw [injGet_nil] at h
        have h1 : nullInjectorGet token nfv = .err e := congrArg (fun x => x.1) h
        exact (nullInjectorGet_err h1).1
      · cases rec? with
        | none =>
            rcases hg : injGet env fuel .nil token nfv with ⟨o, p0, tr0⟩
            rw [resolveToken_none hg] at h
            have ho : o = .err e := congrArg (fun x => x.1) h
            subst ho
            exact ihG token nfv e p0 tr0 hg
        | some record =>
            rcases hv : record.value with _ | _ | v
            · rcases hd : resolveDeps env fuel selfId record.deps
                (setSlot recs token .circular) .nil with ⟨o, r2, p2, tr2⟩
              cases o with
              | ok args => rw [resolveToken_empty_ok hv hd] at h; simp at h
              | err e2 =>
                  rw [resolveToken_empty_err hv hd] at h
                  have : e2 = e := by
                    have := congrArg (fun x => x.1) h
                    simpa using this
                  subst this
                  exact ihD selfId record.deps (setSlot recs token .circular) e2 r2 p2 tr2 hd
              | fuelOut => rw [resolveToken_empty_fuelOut hv hd] at h; simp at h
            · rw [resolveToken_circ hv] at h
              have : circularError = e := by
                have := congrArg (fun x => x.1) h
                simpa using this
              rw [← this]
              rfl
            · rw [resolveToken_val hv] at h; simp at h
      · rcases hr : resolveToken env fuel selfId token rec? recs .nil nfv
          with ⟨o, r0, p0, tr0⟩
        cases o with
        | ok v => rw [tryResolveToken_ok hr] at h; simp at h
        | err e0 =>
            rw [tryResolveToken_err hr] at h
            have he : pushPath token e0 = e := by
              have := congrArg (fun x => x.1) h
              simpa using this
            rw [← he, pushPath_wrapCount]
            exact ihR selfId token rec? recs nfv e0 r0 p0 tr0 hr
        | fuelOut => rw [tryResolveToken_fuelOut hr] at h; simp at h
      · cases ds with
        | nil => rw [resolveDeps_nil] at h; simp at h
        | cons d ds =>
            rcases htry : tryResolveToken env fuel selfId d.token (depRec recs d) recs
              (if depToNull recs d then Chain.nil else Chain.nil) (depNfv d)
              with ⟨o, r1, pRet, tr1⟩
            have htry0 : tryResolveToken env fuel selfId d.token (depRec recs d) recs
                Chain.nil (depNfv d) = (o, r1, pRet, tr1) := by
              rw [← htry, ite_self]
            have hpr : pRet = .nil := by
              have := nilT selfId d.token (depRec recs d) recs (depNfv d)
              rw [htry0] at this
              exact this
            cases o with
            | ok v =>
                rcases hrest : resolveDeps env fuel selfId ds r1 Chain.nil
                  with ⟨o2, r2, p2, tr2⟩
                have hrest' : resolveDeps env fuel selfId ds r1
                    (if depToNull recs d then Chain.nil else pRet) = (o2, r2, p2, tr2) := by
                  rw [hpr, ite_self]; exact hrest
                cases o2 with
                | ok vs => rw [resolveDeps_cons_ok htry hrest'] at h; simp at h
                | err e2 =>
                    rw [resolveDeps_cons_restErr htry hrest'] at h
                    have : e2 = e := by
                      have := congrArg (fun x => x.1) h
                      simpa using this
                    subst this
                    exact ihD selfId ds r1 e2 r2 p2 tr2 hrest
                | fuelOut => rw [resolveDeps_cons_restFuelOut htry hrest'] at h; simp at h
            | err e0 =>
                rw [resolveDeps_cons_err htry] at h
                have : e0 = e := by
                  have := congrArg (fun x => x.1) h
                  simpa using this
                subst this
                exact ihT selfId d.token (depRec recs d) recs (depNfv d) e0 r1 pRet tr1 htry0
            | fuelOut => rw [resolveDeps_cons_fuelOut htry] at h; simp at h

/-! ## Claim C4 -/

/-- C4 (amended: the fallback must also be distinct from `undefined`, see
the counterexample): for every token absent from the requesting injector
and its whole parent chain, `get(token)` with no second argument (i.e. with
the JS value `undefined`) throws an error originating at the
`NullInjectorError` throw; `get(token, fallback)` with a fallback distinct
from the throw sentinel and from `undefined` returns the fallback
unchanged; and a dependency entry declared with the `Optional` flag
resolves to `null` instead of throwing. -/
theorem claim_C4 :
    (∀ (env : Env) (c : Chain) (fuel : Nat) (t : Tok),
      absentIn c t → 3 * c.len + 1 ≤ fuel →
      ∃ e, injGet env fuel c t (.val .undef) = (.err e, c, []) ∧ e.kind = .notFound)
  ∧ (∀ (env : Env) (c : Chain) (fuel : Nat) (t : Tok) (v : Val),
      v ≠ .undef → absentIn c t → 3 * c.len + 1 ≤ fuel →
      injGet env fuel c t (.val v) = (.ok v, c, []))
  ∧ (∀ (env : Env) (fuel id : Nat) (recs : RecMap) (parent : Chain) (P t : Tok)
      (rP : Record) (nfv : NFV),
      rget recs P = some rP → rP.value = .empty →
      rP.deps = [⟨t, ⟨true, true, true⟩⟩] → t ≠ P → rget recs t = none →
      absentIn parent t → 3 * parent.len + 1 ≤ fuel →
      injGet env (fuel + 6) (.cons id recs parent) P nfv =
        (.ok (applyFn env rP.fn [.null]),
         .cons id (setSlot (setSlot recs P .circular) P
           (.val (applyFn env rP.fn [.null]))) parent,
         [(id, P)])) :=
  ⟨fun env c fuel t habs hf =>
      injGet_absent_throw env c fuel t (.val .undef) habs (Or.inl rfl) hf,
   fun env c fuel t v hv habs hf => injGet_absent_val env c fuel t v hv habs hf,
   fun _ _ _ _ _ _ _ _ _ hP hval hdeps hne hnone habs hf =>
      injGet_optionalDep hP hval hdeps hne hnone habs hf⟩

/-- C4, counterexample to the unamended fallback clause: `undefined` is a
fallback distinct from the throw sentinel, yet `get(token, undefined)` on
an injector without the token throws a not-found error instead of
returning `undefined`. -/
theorem claim_C4_counterexample :
    (injGet envW 4 (.cons 0 [] .nil) (.itok 0) (.val .undef)).1 ≠ .ok .undef ∧
    errKindOf (injGet envW 4 (.cons 0 [] .nil) (.itok 0) (.val .undef)).1 =
      some .notFound := by
  decide

/-- C4, witness: the three clauses at concrete inputs. -/
theorem claim_C4_witness :
    (∃ e, injGet envW 4 (.cons 0 [] .nil) (.itok 0) (.val .undef) =
        (.err e, .cons 0 [] .nil, []) ∧ e.kind = .notFound)
  ∧ injGet envW 4 (.cons 0 [] .nil) (.itok 0) (.val (.num 5)) =
      (.ok (.num 5), .cons 0 [] .nil, [])
  ∧ injGet envW 7
      (.cons 0 [(Tok.itok 1, ⟨.user 3, false, [⟨.itok 0, ⟨true, true, true⟩⟩], .empty⟩)] .nil)
      (.itok 1) .throwSent =
      (.ok (applyFn envW (Fn.user 3) [.null]),
       .cons 0 (setSlot (setSlot
           [(Tok.itok 1, ⟨.user 3, false, [⟨.itok 0, ⟨true, true, true⟩⟩], .empty⟩)]
           (Tok.itok 1) .circular) (Tok.itok 1)
           (.val (applyFn envW (Fn.user 3) [.null]))) .nil,
       [(0, Tok.itok 1)]) :=
  ⟨claim_C4.1 envW (.cons 0 [] .nil) 4 (.itok 0) (by decide) (by decide),
   claim_C4.2.1 envW (.cons 0 [] .nil) 4 (.itok 0) (.num 5) (by decide) (by decide)
     (by decide),
   claim_C4.2.2 envW 1 0
     [(Tok.itok 1, ⟨.user 3, false, [⟨.itok 0, ⟨true, true, true⟩⟩], .empty⟩)] .nil
     (.itok 1) (.itok 0) ⟨.user 3, false, [⟨.itok 0, ⟨true, true, true⟩⟩], .empty⟩
     .throwSent (by decide) rfl rfl (by decide) (by decide) trivial (by decide)⟩

/-! ## Build-time preservation of the pre-seeded `Injector` entry -/

theorem finishSet_injector {recs : RecMap} {token : Tok} {r : Record} {idx : Nat}
    {recs' : RecMap} {idx' : Nat} (hne : token ≠ .injector)
    (h : finishSet recs token r idx = .ok (recs', idx')) :
    rget recs' .injector = rget recs .injector := by
  unfold finishSet at h
  rcases hg : rget recs token with _ | existing
  · rw [hg] at h
    cases h
    exact rget_rset_ne recs token .injector r (Ne.symm hne)
  · rw [hg] at h
    by_cases hf : existing.fn = .multi
    · simp [hf] at h
    · simp only [hf, if_neg] at h
      simp at h
      obtain ⟨h1, -⟩ := h
      rw [← h1]
      exact rget_rset_ne recs token .injector r (Ne.symm hne)

theorem processProvider_injector {p : Provider} {recs : RecMap} {idx : Nat}
    {recs' : RecMap} {idx' : Nat} (hne : p.provide ≠ .injector)
    (h : processProvider recs idx p = .ok (recs', idx')) :
    rget recs' .injector = rget recs .injector := by
  unfold processProvider at h
  rcases hrp : resolveProvider p with e | resolved
  · rw [hrp] at h; simp at h
  · rw [hrp] at h
    simp only at h
    by_cases hm : p.multi
    · rw [if_pos hm] at h
      rcases hg : rget recs p.provide with _ | mp
      · rw [hg] at h
        have hstep := finishSet_injector (fun hc => Tok.noConfusion hc) h
        rw [hstep]
        exact rget_rset_ne recs p.provide .injector _ (Ne.symm hne)
      · rw [hg] at h
        by_cases hf : mp.fn ≠ .multi
        · simp [hf] at h
        · simp only [hf, if_neg, if_false] at h
          have hstep := finishSet_injector (fun hc => Tok.noConfusion hc) h
          rw [hstep]
          exact rget_rset_ne recs p.provide .injector _ (Ne.symm hne)
    · rw [if_neg hm] at h
      exact finishSet_injector hne h

mutual

theorem processOne_injector : ∀ (pi : ProvInput) (recs : RecMap) (idx : Nat)
    (recs' : RecMap) (idx' : Nat), pi.noInj = true →
    processOne recs idx pi = .ok (recs', idx') →
    rget recs' .injector = rget recs .injector
  | .skip, recs, idx, recs', idx', _, h => by
      simp only [processOne] at h
      cases h
      rfl
  | .bareFn n, recs, idx, recs', idx', _, h => by
      simp [processOne] at h
  | .one p, recs, idx, recs', idx', hni, h => by
      simp only [processOne] at h
      exact processProvider_injector (by simpa [ProvInput.noInj] using hni) h
  | .many l, recs, idx, recs', idx', hni, h => by
      simp only [processOne] at h
      exact processMany_injector l recs idx recs' idx'
        (by simpa [ProvInput.noInj] using hni) h

theorem processMany_injector : ∀ (l : List ProvInput) (recs : RecMap) (idx : Nat)
    (recs' : RecMap) (idx' : Nat), ProvInput.noInjList l = true →
    processMany recs idx l = .ok (recs', idx') →
    rget recs' .injector = rget recs .injector
  | [], recs, idx, recs', idx', _, h => by
      simp only [processMany] at h
      cases h
      rfl
  | x :: xs, recs, idx, recs', idx', hni, h => by
      simp only [processMany] at h
      rcases hx : processOne recs idx x with e | r1
      · rw [hx] at h; simp at h
      · rw [hx] at h
        obtain ⟨recs₁, idx₁⟩ := r1
        simp only [ProvInput.noInjList, Bool.and_eq_true] at hni
        have h1 := processOne_injector x recs idx recs₁ idx₁ hni.1 hx
        have h2 := processMany_injector xs recs₁ idx₁ recs' idx' hni.2 h
        rw [h2, h1]

end

/-! ## Multi-provider table construction -/

theorem synthDeps_succ (idx n : Nat) :
    synthDeps idx (n + 1) = ⟨.prov idx, defaultOpts⟩ :: synthDeps (idx + 1) n := by
  unfold synthDeps
  rw [List.range_succ_eq_map]
  simp only [List.map_cons, List.map_map, Nat.add_zero]
  congr 1
  apply List.map_congr_left
  intro k _
  have h : idx + (k + 1) = idx + 1 + k := by omega
  simp only [Function.comp_apply, Nat.succ_eq_add_one, h]

theorem processMany_append (l1 l2 : List ProvInput) :
    ∀ (recs : RecMap) (idx : Nat),
    processMany recs idx (l1 ++ l2) =
      match processMany recs idx l1 with
      | .ok (r, i) => processMany r i l2
      | .error e => .error e := by
  induction l1 with
  | nil => intro recs idx; simp [processMany]
  | cons x xs ih =>
      intro recs idx
      simp only [List.cons_append, processMany]
      cases processOne recs idx x with
      | error e => rfl
      | ok r =>
          obtain ⟨r1, i1⟩ := r
          simp only
          exact ih r1 i1

theorem resolveProvider_multiValue (M : Tok) (v : Val) :
    resolveProvider (multiValueProvider M v) = .ok (valueRecord v) := rfl

theorem processProvider_multiValue {recs : RecMap} {idx : Nat} {M : Tok} {v : Val}
    {ds : List DepRec}
    (hM : rget recs M = some ⟨.multi, false, ds, .empty⟩)
    (hfresh : rget recs (.prov idx) = none) :
    processProvider recs idx (multiValueProvider M v) =
      .ok (rset (rset recs M ⟨.multi, false, ds ++ [⟨.prov idx, defaultOpts⟩], .empty⟩)
             (.prov idx) (valueRecord v), idx + 1) := by
  have hne : Tok.prov idx ≠ M := by
    intro h
    rw [h, hM] at hfresh
    cases hfresh
  unfold processProvider
  rw [resolveProvider_multiValue]
  have hmulti : (multiValueProvider M v).multi = true := rfl
  have hprov : (multiValueProvider M v).provide = M := rfl
  simp only [hmulti, hprov, if_true, hM]
  have hfn : ¬((⟨.multi, false, ds, .empty⟩ : Record).fn ≠ .multi) := by simp
  simp only [hfn, if_false, ite_false, if_neg, not_false_eq_true]
  unfold finishSet
  rw [rget_rset_ne _ _ _ _ hne, hfresh]

theorem processMany_multi (M : Tok) :
    ∀ (vs : List Val) (recs : RecMap) (idx : Nat) (ds : List DepRec),
    rget recs M = some ⟨.multi, false, ds, .empty⟩ →
    (∀ j, idx ≤ j → rget recs (.prov j) = none) →
    ∃ recs',
      processMany recs idx (multiProviders M vs) = .ok (recs', idx + vs.length) ∧
      rget recs' M = some ⟨.multi, false, ds ++ synthDeps idx vs.length, .empty⟩ ∧
      (∀ k, (hk : k < vs.length) →
        rget recs' (.prov (idx + k)) = some (valueRecord (vs.get ⟨k, hk⟩))) ∧
      (∀ t, t ≠ M → (∀ j, idx ≤ j → t ≠ .prov j) → rget recs' t = rget recs t) := by
  intro vs
  induction vs with
  | nil =>
      intro recs idx ds hM hfresh
      refine ⟨recs, by simp [multiProviders, processMany], ?_, ?_, fun t _ _ => rfl⟩
      · simpa [synthDeps] using hM
      · intro k hk
        exact absurd hk (Nat.not_lt_zero k)
  | cons v vs ih =>
      intro recs idx ds hM hfresh
      have hne : Tok.prov idx ≠ M := by
        intro h
        have hc := hfresh idx le_rfl
        rw [h, hM] at hc
        cases hc
      have hstep := processProvider_multiValue (v := v) hM (hfresh idx le_rfl)
      have hM1 : rget (rset (rset recs M
            ⟨.multi, false, ds ++ [⟨.prov idx, defaultOpts⟩], .empty⟩)
            (.prov idx) (valueRecord v)) M =
          some ⟨.multi, false, ds ++ [⟨.prov idx, defaultOpts⟩], .empty⟩ := by
        rw [rget_rset_ne _ _ _ _ (Ne.symm hne)]
        exact rget_rset_self _ _ _
      have hfresh1 : ∀ j, idx + 1 ≤ j →
          rget (rset (rset recs M
            ⟨.multi, false, ds ++ [⟨.prov idx, defaultOpts⟩], .empty⟩)
            (.prov idx) (valueRecord v)) (.prov j) = none := by
        intro j hj
        have hj1 : Tok.prov j ≠ Tok.prov idx := by
          intro h
          cases h
          omega
        have hj2 : Tok.prov j ≠ M := by
          intro h
          have hc := hfresh j (by omega)
          rw [h, hM] at hc
          cases hc
        rw [rget_rset_ne _ _ _ _ hj1, rget_rset_ne _ _ _ _ hj2]
        exact hfresh j (by omega)
      obtain ⟨recs', hrun, hM', hcons, hframe⟩ :=
        ih (rset (rset recs M ⟨.multi, false, ds ++ [⟨.prov idx, defaultOpts⟩], .empty⟩)
              (.prov idx) (valueRecord v)) (idx + 1)
           (ds ++ [⟨.prov idx, defaultOpts⟩]) hM1 hfresh1
      have hrun' : processMany recs idx (multiProviders M (v :: vs)) =
          .ok (recs', idx + (v :: vs).length) := by
        have h1 : processOne recs idx (.one (multiValueProvider M v)) =
            .ok (rset (rset recs M
              ⟨.multi, false, ds ++ [⟨.prov idx, defaultOpts⟩], .empty⟩)
              (.prov idx) (valueRecord v), idx + 1) := by
          simp only [processOne]
          exact hstep
        simp only [multiProviders, List.map_cons]
        rw [processMany, h1]
        simp only
        have hlen : idx + 1 + vs.length = idx + (v :: vs).length := by
          simp [List.length_cons]
          omega
        rw [← hlen]
        exact hrun
      refine ⟨recs', hrun', ?_, ?_, ?_⟩
      · rw [hM', List.length_cons, synthDeps_succ]
        simp [List.append_assoc]
      · intro k hk
        cases k with
        | zero =>
            have hp1 : ∀ j, idx + 1 ≤ j → Tok.prov idx ≠ Tok.prov j := by
              intro j hj h
              cases h
              omega
            rw [Nat.add_zero, hframe (Tok.prov idx) hne hp1]
            rw [rget_rset_self]
            rfl
        | succ k =>
            have hk' : k < vs.length := by
              simpa [List.length_cons] using hk
            have h1 := hcons k hk'
            have h2 : idx + 1 + k = idx + (k + 1) := by omega
            rw [h2] at h1
            exact h1
      · intro t htM htprov
        rw [hframe t htM (fun j hj => htprov j (by omega))]
        rw [rget_rset_ne _ _ _ _ (htprov idx le_rfl), rget_rset_ne _ _ _ _ htM]

/-- The placeholder-creating first step: a `multi: true` value provider for
a token with no existing record installs the placeholder (collect-varargs
function, one synthetic dependency entry) and registers its own record
under the synthetic token. -/
theorem processProvider_multiValue_init {recs : RecMap} {idx : Nat} {M : Tok} {v : Val}
    (hM : rget recs M = none) (hMp : M ≠ .prov idx)
    (hfresh : rget recs (.prov idx) = none) :
    processProvider recs idx (multiValueProvider M v) =
      .ok (rset (rset recs M ⟨.multi, false, [⟨.prov idx, defaultOpts⟩], .empty⟩)
             (.prov idx) (valueRecord v), idx + 1) := by
  unfold processProvider
  rw [resolveProvider_multiValue]
  have hmulti : (multiValueProvider M v).multi = true := rfl
  have hprov : (multiValueProvider M v).provide = M := rfl
  simp only [hmulti, hprov, if_true, hM]
  unfold finishSet
  rw [rget_rset_ne _ _ _ _ (Ne.symm hMp), hfresh]

/-- When every dependency entry has default flags and its token is bound to
an already-resolved record, the dependency loop returns the cached values,
in declaration order, with no state change and no invocation. -/
theorem resolveDeps_allCached (env : Env) (selfId : Nat) (recs : RecMap) :
    ∀ {ds : List DepRec} {vs : List Val},
    List.Forall₂ (fun (d : DepRec) (v : Val) =>
      d.options = defaultOpts ∧ ∃ r, rget recs d.token = some r ∧ r.value = .val v) ds vs →
    ∀ (parent : Chain) (fuel : Nat), 3 * ds.length + 1 ≤ fuel →
    resolveDeps env fuel selfId ds recs parent = (.ok vs, recs, parent, []) := by
  intro ds vs hall
  induction hall with
  | nil =>
      intro parent fuel hf
      obtain ⟨f, rfl⟩ : ∃ f, fuel = f + 1 := ⟨fuel - 1, by omega⟩
      exact resolveDeps_nil env f selfId recs parent
  | cons hd hrest ih =>
      rename_i d v ds' vs'
      intro parent fuel hf
      obtain ⟨hopts, r, hr, hv⟩ := hd
      obtain ⟨f, rfl⟩ : ∃ f, fuel = f + 3 := ⟨fuel - 3, by
        simp only [List.length_cons] at hf; omega⟩
      have hdep : depRec recs d = some r := by
        simp [depRec, hopts, defaultOpts, hr]
      have htnull : depToNull recs d = false := by
        simp [depToNull, hdep]
      have htry : tryResolveToken env (f + 2) selfId d.token (depRec recs d) recs
          (if depToNull recs d then Chain.nil else parent) (depNfv d) =
          (.ok v, recs, parent, []) := by
        rw [hdep, htnull]
        simp only [Bool.false_eq_true, if_false]
        exact tryResolveToken_ok (resolveToken_val hv)
      have hrest' : resolveDeps env (f + 2) selfId ds' recs
          (if depToNull recs d then parent else parent) = (.ok vs', recs, parent, []) := by
        rw [ite_self]
        exact ih parent (f + 2) (by simp only [List.length_cons] at hf; omega)
      simpa using resolveDeps_cons_ok htry hrest'

theorem resolveProvider_value (M : Tok) (w : Val) :
    resolveProvider { provide := M, useValue := some w } = .ok (valueRecord w) := rfl

/-- A non-multi value provider on a token bound to a multi placeholder is a
mixed-provider build error. -/
theorem processProvider_value_mixErr {recs : RecMap} {idx : Nat} {M : Tok} {w : Val}
    {r : Record} (hg : rget recs M = some r) (hf : r.fn = .multi) :
    processProvider recs idx { provide := M, useValue := some w } =
      .error (.mixedMulti M) := by
  unfold processProvider
  rw [resolveProvider_value]
  simp only
  rw [if_neg (by simp)]
  unfold finishSet
  rw [hg]
  simp [hf]

/-- A non-multi value provider on an unbound token registers its record. -/
theorem processProvider_value_none {recs : RecMap} {idx : Nat} {M : Tok} {w : Val}
    (hg : rget recs M = none) :
    processProvider recs idx { provide := M, useValue := some w } =
      .ok (rset recs M (valueRecord w), idx + 1) := by
  unfold processProvider
  rw [resolveProvider_value]
  simp only
  rw [if_neg (by simp)]
  unfold finishSet
  rw [hg]

/-- A `multi: true` provider on a token bound to a non-multi record is a
mixed-provider build error. -/
theorem processProvider_multi_mixErr {recs : RecMap} {idx : Nat} {M : Tok} {v : Val}
    {r : Record} (hg : rget recs M = some r) (hf : r.fn ≠ .multi) :
    processProvider recs idx (multiValueProvider M v) = .error (.mixedMulti M) := by
  unfold processProvider
  rw [resolveProvider_multiValue]
  have hmulti : (multiValueProvider M v).multi = true := rfl
  have hprov : (multiValueProvider M v).provide = M := rfl
  simp only [hmulti, hprov, if_true, hg]
  simp [hf]

/-- The table built from a non-empty list of multi value providers: the
placeholder under `M` lists one synthetic default-flag entry per provider
in declaration order, each synthetic token is bound to the corresponding
value record, and the pre-seeded `Injector` entry is intact. -/
theorem processMany_multi_full {id : Nat} {M : Tok} (v : Val) (vs : List Val)
    (hMi : M ≠ .injector) (hMp : ∀ j, M ≠ .prov j) :
    ∃ recs,
      processMany [(Tok.injector, preseedRecord id)] 0 (multiProviders M (v :: vs)) =
        .ok (recs, (v :: vs).length) ∧
      rget recs M = some ⟨.multi, false, synthDeps 0 (v :: vs).length, .empty⟩ ∧
      (∀ k, (hk : k < (v :: vs).length) →
        rget recs (.prov k) = some (valueRecord ((v :: vs).get ⟨k, hk⟩))) ∧
      rget recs .injector = some (preseedRecord id) := by
  have hM0 : rget [(Tok.injector, preseedRecord id)] M = none := by
    rw [rget_cons, if_neg (Ne.symm hMi), rget_nil]
  have hfresh0 : ∀ j : Nat, rget [(Tok.injector, preseedRecord id)] (.prov j) = none := by
    intro j
    rw [rget_cons, if_neg (fun h => Tok.noConfusion h), rget_nil]
  have hinit := processProvider_multiValue_init (v := v) hM0 (hMp 0) (hfresh0 0)
  have hM1 : rget (rset (rset [(Tok.injector, preseedRecord id)] M
        ⟨.multi, false, [⟨.prov 0, defaultOpts⟩], .empty⟩)
        (.prov 0) (valueRecord v)) M =
      some ⟨.multi, false, [⟨.prov 0, defaultOpts⟩], .empty⟩ := by
    rw [rget_rset_ne _ _ _ _ (hMp 0)]
    exact rget_rset_self _ _ _
  have hfresh1 : ∀ j, 1 ≤ j →
      rget (rset (rset [(Tok.injector, preseedRecord id)] M
        ⟨.multi, false, [⟨.prov 0, defaultOpts⟩], .empty⟩)
        (.prov 0) (valueRecord v)) (.prov j) = none := by
    intro j hj
    have hj1 : Tok.prov j ≠ Tok.prov 0 := by
      intro h
      cases h
      omega
    rw [rget_rset_ne _ _ _ _ hj1, rget_rset_ne _ _ _ _ (Ne.symm (hMp j))]
    exact hfresh0 j
  obtain ⟨recs', hrun, hM', hcons, hframe⟩ :=
    processMany_multi M vs
      (rset (rset [(Tok.injector, preseedRecord id)] M
        ⟨.multi, false, [⟨.prov 0, defaultOpts⟩], .empty⟩)
        (.prov 0) (valueRecord v)) 1 [⟨.prov 0, defaultOpts⟩] hM1 hfresh1
  refine ⟨recs', ?_, ?_, ?_, ?_⟩
  · have h1 : processOne [(Tok.injector, preseedRecord id)] 0
        (.one (multiValueProvider M v)) =
        .ok (rset (rset [(Tok.injector, preseedRecord id)] M
          ⟨.multi, false, [⟨.prov 0, defaultOpts⟩], .empty⟩)
          (.prov 0) (valueRecord v), 1) := by
      simp only [processOne]
      exact hinit
    simp only [multiProviders, List.map_cons]
    rw [processMany, h1]
    simp only
    have hlen : 1 + vs.length = (v :: vs).length := by
      simp [List.length_cons]; omega
    rw [← hlen]
    exact hrun
  · rw [hM', List.length_cons, synthDeps_succ]
    simp
  · intro k hk
    cases k with
    | zero =>
        have hp1 : ∀ j, 1 ≤ j → Tok.prov 0 ≠ Tok.prov j := by
          intro j hj h
          cases h
          omega
        rw [hframe (Tok.prov 0) (Ne.symm (hMp 0)) hp1, rget_rset_self]
        rfl
    | succ k =>
        have hk' : k < vs.length := by simpa [List.length_cons] using hk
        have h1 := hcons k hk'
        have h2 : 1 + k = k + 1 := by omega
        rw [h2] at h1
        exact h1
  · have hp1 : ∀ j, 1 ≤ j → Tok.injector ≠ Tok.prov j :=
      fun j _ h => Tok.noConfusion h
    rw [hframe Tok.injector (Ne.symm hMi) hp1,
        rget_rset_ne _ _ _ _ (fun h => Tok.noConfusion h),
        rget_rset_ne _ _ _ _ (Ne.symm hMi), rget_cons, if_pos rfl]

/-! ## Claim C3 -/

/-- C3: for `n ≥ 1` providers registered with `multi: true` for the same
token `M` (an ordinary token, not the `Injector` token and not a provider
object), `get(M)` returns the array of the `n` resolved constituent values
in declaration order of the flattened provider list; and registering a
non-multi provider under `M` after the multi ones — or registering the
multi ones after a non-multi provider — raises the mixed-multi-provider
build error. -/
theorem claim_C3 :
    (∀ (env : Env) (fuel id : Nat) (M : Tok) (v : Val) (vs : List Val)
      (parent : Chain) (nfv : NFV) (recs : RecMap),
      M ≠ .injector → (∀ j, M ≠ .prov j) →
      mkRecords id (multiProviders M (v :: vs)) = .ok recs →
      3 * (v :: vs).length + 1 ≤ fuel →
      injGet env (fuel + 3) (.cons id recs parent) M nfv =
        (.ok (.arr (v :: vs)),
         .cons id (setSlot (setSlot recs M .circular) M (.val (.arr (v :: vs)))) parent,
         [(id, M)]))
  ∧ (∀ (id : Nat) (M : Tok) (v : Val) (vs : List Val) (w : Val),
      M ≠ .injector → (∀ j, M ≠ .prov j) →
      mkRecords id (multiProviders M (v :: vs) ++
        [.one { provide := M, useValue := some w }]) = .error (.mixedMulti M))
  ∧ (∀ (id : Nat) (M : Tok) (v : Val) (vs : List Val) (w : Val),
      M ≠ .injector →
      mkRecords id (.one { provide := M, useValue := some w } ::
        multiProviders M (v :: vs)) = .error (.mixedMulti M)) := by
  refine ⟨?_, ?_, ?_⟩
  · intro env fuel id M v vs parent nfv recs hMi hMp hmk hf
    obtain ⟨recs', hrun, hM', hcons, hinj⟩ := @processMany_multi_full id M v vs hMi hMp
    have hrecs : recs' = recs := by
      unfold mkRecords at hmk
      rw [hrun] at hmk
      simp only at hmk
      injection hmk
    subst hrecs
    have hall : List.Forall₂ (fun (d : DepRec) (v' : Val) =>
        d.options = defaultOpts ∧
        ∃ r, rget (setSlot recs' M .circular) d.token = some r ∧ r.value = .val v')
        (synthDeps 0 (v :: vs).length) (v :: vs) := by
      apply List.forall₂_of_length_eq_of_get
      · simp [synthDeps]
      · intro i h₁ h₂
        have hget : (synthDeps 0 (v :: vs).length).get ⟨i, h₁⟩ =
            ⟨.prov i, defaultOpts⟩ := by
          simp [synthDeps, List.getElem_map, List.getElem_range]
        rw [hget]
        refine ⟨rfl, valueRecord ((v :: vs).get ⟨i, h₂⟩), ?_, rfl⟩
        rw [rget_setSlot_ne _ _ _ _ (Ne.symm (hMp i))]
        exact hcons i h₂
    have hds : resolveDeps env fuel id (synthDeps 0 (v :: vs).length)
        (setSlot recs' M .circular) parent =
        (.ok (v :: vs), setSlot recs' M .circular, parent, []) :=
      resolveDeps_allCached env id (setSlot recs' M .circular) hall parent fuel
        (by simpa [synthDeps] using hf)
    have hres : resolveToken env (fuel + 1) id M (rget recs' M) recs' parent nfv =
        (.ok (.arr (v :: vs)),
         setSlot (setSlot recs' M .circular) M (.val (.arr (v :: vs))), parent,
         [(id, M)]) := by
      rw [hM']
      have h0 : resolveToken env (fuel + 1) id M
          (some (⟨.multi, false, synthDeps 0 (v :: vs).length, .empty⟩ : Record))
          recs' parent nfv =
          (.ok (applyFn env Fn.multi (v :: vs)),
           setSlot (setSlot recs' M .circular) M
             (.val (applyFn env Fn.multi (v :: vs))),
           parent, [] ++ [(id, M)]) :=
        resolveToken_empty_ok rfl hds
      simpa using h0
    exact injGet_cons_ok (tryResolveToken_ok hres)
  · intro id M v vs w hMi hMp
    obtain ⟨recs', hrun, hM', -, -⟩ := @processMany_multi_full id M v vs hMi hMp
    unfold mkRecords
    rw [processMany_append, hrun]
    simp only
    rw [processMany]
    have h1 : processOne recs' (v :: vs).length
        (.one { provide := M, useValue := some w }) = .error (.mixedMulti M) := by
      simp only [processOne]
      exact processProvider_value_mixErr hM' rfl
    rw [h1]
  · intro id M v vs w hMi
    have hM0 : rget [(Tok.injector, preseedRecord id)] M = none := by
      rw [rget_cons, if_neg (Ne.symm hMi), rget_nil]
    have h1 : processOne [(Tok.injector, preseedRecord id)] 0
        (.one { provide := M, useValue := some w }) =
        .ok (rset [(Tok.injector, preseedRecord id)] M (valueRecord w), 1) := by
      simp only [processOne]
      exact processProvider_value_none hM0
    have h2 : processOne (rset [(Tok.injector, preseedRecord id)] M (valueRecord w)) 1
        (.one (multiValueProvider M v)) = .error (.mixedMulti M) := by
      simp only [processOne]
      exact processProvider_multi_mixErr (rget_rset_self _ _ _) (by simp [valueRecord])
    unfold mkRecords
    rw [processMany, h1]
    simp only [multiProviders, List.map_cons]
    rw [processMany, h2]

/-- C3, witness: three multi value providers `[1, 2, 3]` under `itok 5`
aggregate, in declaration order, to the array `[1, 2, 3]`; a fourth
non-multi registration afterwards — or a non-multi registration before the
multi ones — is a mixed-multi build error. -/
theorem claim_C3_witness :
    injGet envW 13
      (.cons 0 [(Tok.injector, preseedRecord 0),
        (Tok.itok 5, ⟨.multi, false,
          [⟨.prov 0, defaultOpts⟩, ⟨.prov 1, defaultOpts⟩, ⟨.prov 2, defaultOpts⟩],
          .empty⟩),
        (Tok.prov 0, valueRecord (.num 1)),
        (Tok.prov 1, valueRecord (.num 2)),
        (Tok.prov 2, valueRecord (.num 3))] .nil)
      (.itok 5) (.val .undef) =
      (.ok (.arr [.num 1, .num 2, .num 3]),
       .cons 0 (setSlot (setSlot
          [(Tok.injector, preseedRecord 0),
           (Tok.itok 5, ⟨.multi, false,
             [⟨.prov 0, defaultOpts⟩, ⟨.prov 1, defaultOpts⟩, ⟨.prov 2, defaultOpts⟩],
             .empty⟩),
           (Tok.prov 0, valueRecord (.num 1)),
           (Tok.prov 1, valueRecord (.num 2)),
           (Tok.prov 2, valueRecord (.num 3))]
          (.itok 5) .circular) (.itok 5)
          (.val (.arr [.num 1, .num 2, .num 3]))) .nil,
       [(0, Tok.itok 5)])
  ∧ mkRecords 0 (multiProviders (.itok 5) [.num 1, .num 2, .num 3] ++
      [.one { provide := .itok 5, useValue := some (.num 9) }]) =
      .error (.mixedMulti (.itok 5))
  ∧ mkRecords 0 (.one { provide := .itok 5, useValue := some (.num 9) } ::
      multiProviders (.itok 5) [.num 1, .num 2, .num 3]) =
      .error (.mixedMulti (.itok 5)) :=
  ⟨claim_C3.1 envW 10 0 (.itok 5) (.num 1) [.num 2, .num 3] .nil (.val .undef)
     [(Tok.injector, preseedRecord 0),
      (Tok.itok 5, ⟨.multi, false,
        [⟨.prov 0, defaultOpts⟩, ⟨.prov 1, defaultOpts⟩, ⟨.prov 2, defaultOpts⟩],
        .empty⟩),
      (Tok.prov 0, valueRecord (.num 1)),
      (Tok.prov 1, valueRecord (.num 2)),
      (Tok.prov 2, valueRecord (.num 3))]
     (by decide) (fun j h => Tok.noConfusion h) (by decide) (by decide),
   claim_C3.2.1 0 (.itok 5) (.num 1) [.num 2, .num 3] (.num 9) (by decide)
     (fun j h => Tok.noConfusion h),
   claim_C3.2.2 0 (.itok 5) (.num 1) [.num 2, .num 3] (.num 9) (by decide)⟩

/-! ## Claim C8 -/

/-- C8, counterexample to the unamended claim: a provider list may itself
register a provider under the `Injector` token, overwriting the pre-seeded
entry, after which `get(Injector)` returns the provided value instead of
the owning injector. -/
theorem claim_C8_counterexample :
    mkRecords 7 [.one { provide := Tok.injector, useValue := some (.num 42) }] =
      .ok [(Tok.injector, ⟨.ident, false, [], .val (.num 42)⟩)]
  ∧ (injGet envW 9 (.cons 7 [(Tok.injector, ⟨.ident, false, [], .val (.num 42)⟩)] .nil)
      Tok.injector (.val .undef)).1 = .ok (.num 42)
  ∧ (injGet envW 9 (.cons 7 [(Tok.injector, ⟨.ident, false, [], .val (.num 42)⟩)] .nil)
      Tok.injector (.val .undef)).1 ≠ .ok (.injRef 7) := by
  decide

/-- C8 (amended: provided the flattened provider list does not itself
register a provider under the `Injector` token): the constructed table
contains the pre-seeded entry under the `Injector` token — identity
function, no dependencies, value already resolved to the owning injector —
so `get(Injector)` on that injector returns the injector itself, with no
invocation and no state change. -/
theorem claim_C8 :
    (∀ (id : Nat) (P : List ProvInput) (recs : RecMap),
      ProvInput.noInjList P = true → mkRecords id P = .ok recs →
      rget recs Tok.injector = some (preseedRecord id))
  ∧ (∀ (env : Env) (fuel id : Nat) (P : List ProvInput) (parent : Chain)
      (recs : RecMap) (nfv : NFV),
      ProvInput.noInjList P = true → mkRecords id P = .ok recs →
      injGet env (fuel + 3) (.cons id recs parent) Tok.injector nfv =
        (.ok (.injRef id), .cons id recs parent, [])) := by
  have hbase : ∀ (id : Nat) (P : List ProvInput) (recs : RecMap),
      ProvInput.noInjList P = true → mkRecords id P = .ok recs →
      rget recs Tok.injector = some (preseedRecord id) := by
    intro id P recs hni hmk
    unfold mkRecords at hmk
    rcases hpm : processMany [(Tok.injector, preseedRecord id)] 0 P with e | r
    · rw [hpm] at hmk; simp at hmk
    · rw [hpm] at hmk
      obtain ⟨recs₁, idx₁⟩ := r
      simp only at hmk
      have h2 : recs₁ = recs := by injection hmk
      rw [← h2]
      have h3 := processMany_injector P [(Tok.injector, preseedRecord id)] 0 recs₁ idx₁ hni hpm
      rw [h3, rget_cons]
      simp
  refine ⟨hbase, fun env fuel id P parent recs nfv hni hmk => ?_⟩
  exact injGet_cached (hbase id P recs hni hmk) rfl

/-- C8, witness: a built injector with one ordinary provider returns itself
under the `Injector` token. -/
theorem claim_C8_witness :
    rget [(Tok.injector, preseedRecord 3),
          (Tok.itok 0, ⟨.ident, false, [], .val (.num 7)⟩)] Tok.injector =
      some (preseedRecord 3)
  ∧ injGet envW 9
      (.cons 3 [(Tok.injector, preseedRecord 3),
                (Tok.itok 0, ⟨.ident, false, [], .val (.num 7)⟩)] .nil)
      Tok.injector (.val .undef) =
      (.ok (.injRef 3),
       .cons 3 [(Tok.injector, preseedRecord 3),
                (Tok.itok 0, ⟨.ident, false, [], .val (.num 7)⟩)] .nil,
       []) :=
  ⟨claim_C8.1 3 [.one { provide := .itok 0, useValue := some (.num 7) }]
      [(Tok.injector, preseedRecord 3), (Tok.itok 0, ⟨.ident, false, [], .val (.num 7)⟩)]
      (by decide) (by decide),
   claim_C8.2 envW 6 3 [.one { provide := .itok 0, useValue := some (.num 7) }] .nil
      [(Tok.injector, preseedRecord 3), (Tok.itok 0, ⟨.ident, false, [], .val (.num 7)⟩)]
      (.val .undef) (by decide) (by decide)⟩

/-! ## Slot-reading helper lemmas -/

theorem slotAt_cons (id : Nat) (recs : RecMap) (parent : Chain) (i : Nat) (t : Tok) :
    slotAt (.cons id recs parent) i t = slotE id recs parent i t := rfl

theorem slotE_self (selfId : Nat) (recs : RecMap) (parent : Chain) (t : Tok) :
    slotE selfId recs parent selfId t = slotOf recs t := by
  simp [slotE]

theorem slotE_other {selfId i : Nat} (h : i ≠ selfId) (recs : RecMap) (parent : Chain)
    (t : Tok) : slotE selfId recs parent i t = slotAt parent i t := by
  simp [slotE, h]

theorem slotOf_setSlot_not_circ (m : RecMap) (k : Tok) (v : Val) :
    slotOf (setSlot m k (.val v)) k ≠ some .circular := by
  cases hk : rget m k with
  | none => simp [setSlot, hk, slotOf]
  | some r =>
      rw [slotOf_setSlot_self m k _ r hk]
      simp

theorem recOk_rget (recs : RecMap) (token : Tok) : RecOk recs token (rget recs token) :=
  fun _ h => h

theorem recOk_depRec (recs : RecMap) (d : DepRec) : RecOk recs d.token (depRec recs d) := by
  intro r h
  unfold depRec at h
  by_cases hc : d.options.checkSelf
  · rw [if_pos hc] at h; exact h
  · rw [if_neg hc] at h; cases h

/-! ## Circular-slot discipline -/

/-- The in-progress (`CIRCULAR`) discipline of the resolution engine, by
mutual induction over the interpreter:

* no `get`, `tryResolveToken` or dependency-loop call that terminates
  leaves a slot in the `CIRCULAR` state that was not already `CIRCULAR`
  when the call began (`tryResolveToken`'s catch block resets the slot its
  frame marked);
* `resolveToken` can additionally leave only its own slot marked, and only
  when it throws;
* on a normal (`ok`) return, slots that were `CIRCULAR` at entry are still
  `CIRCULAR` (resets happen only on throw paths). -/
theorem circPost (env : Env) : ∀ fuel : Nat,
    (∀ c token nfv o c' tr, injGet env fuel c token nfv = (o, c', tr) →
      o ≠ .fuelOut →
      (∀ i t, slotAt c' i t = some .circular → slotAt c i t = some .circular) ∧
      (∀ v, o = .ok v → ∀ i t, slotAt c i t = some .circular →
        slotAt c' i t = some .circular))
  ∧ (∀ selfId token rec? recs parent nfv o recs' parent' tr,
      RecOk recs token rec? →
      resolveToken env fuel selfId token rec? recs parent nfv = (o, recs', parent', tr) →
      o ≠ .fuelOut →
      (∀ i t, slotE selfId recs' parent' i t = some .circular →
        slotE selfId recs parent i t = some .circular ∨
        (rec?.isSome = true ∧ i = selfId ∧ t = token ∧ ∃ e, o = .err e)) ∧
      (∀ v, o = .ok v → ∀ i t, slotE selfId recs parent i t = some .circular →
        slotE selfId recs' parent' i t = some .circular))
  ∧ (∀ selfId token rec? recs parent nfv o recs' parent' tr,
      RecOk recs token rec? →
      tryResolveToken env fuel selfId token rec? recs parent nfv =
        (o, recs', parent', tr) →
      o ≠ .fuelOut →
      (∀ i t, slotE selfId recs' parent' i t = some .circular →
        slotE selfId recs parent i t = some .circular) ∧
      (∀ v, o = .ok v → ∀ i t, slotE selfId recs parent i t = some .circular →
        slotE selfId recs' parent' i t = some .circular))
  ∧ (∀ selfId ds recs parent o recs' parent' tr,
      resolveDeps env fuel selfId ds recs parent = (o, recs', parent', tr) →
      o ≠ .fuelOut →
      (∀ i t, slotE selfId recs' parent' i t = some .circular →
        slotE selfId recs parent i t = some .circular) ∧
      (∀ vs, o = .ok vs → ∀ i t, slotE selfId recs parent i t = some .circular →
        slotE selfId recs' parent' i t = some .circular)) := by
  intro fuel
  induction fuel with
  | zero =>
      refine ⟨?_, ?_, ?_, ?_⟩
      · intro c token nfv o c' tr h hno
        rw [injGet_zero] at h
        obtain ⟨ho, -, -⟩ : o = Out.fuelOut ∧ c' = c ∧ tr = [] := by
          simpa [Prod.ext_iff] using h.symm
        exact absurd ho hno
      · intro selfId token rec? recs parent nfv o recs' parent' tr _ h hno
        rw [resolveToken_zero] at h
        obtain ⟨ho, -, -, -⟩ : o = Out.fuelOut ∧ recs' = recs ∧ parent' = parent ∧
            tr = [] := by
          simpa [Prod.ext_iff] using h.symm
        exact absurd ho hno
      · intro selfId token rec? recs parent nfv o recs' parent' tr _ h hno
        rw [tryResolveToken_zero] at h
        obtain ⟨ho, -, -, -⟩ : o = Out.fuelOut ∧ recs' = recs ∧ parent' = parent ∧
            tr = [] := by
          simpa [Prod.ext_iff] using h.symm
        exact absurd ho hno
      · intro selfId ds recs parent o recs' parent' tr h hno
        rw [resolveDeps_zero] at h
        obtain ⟨ho, -, -, -⟩ : o = Out.fuelOut ∧ recs' = recs ∧ parent' = parent ∧
            tr = [] := by
          simpa [Prod.ext_iff] using h.symm
        exact absurd ho hno
  | succ fuel ih =>
      obtain ⟨ihG, ihR, ihT, ihD⟩ := ih
      refine ⟨?_, ?_, ?_, ?_⟩
      -- injGet
      · intro c token nfv o c' tr h hno
        cases c with
        | nil =>
            rw [injGet_nil] at h
            obtain ⟨-, hc, -⟩ : o = nullInjectorGet token nfv ∧ c' = Chain.nil ∧
                tr = [] := by
              simpa [Prod.ext_iff] using h.symm
            subst hc
            exact ⟨fun i t hh => hh, fun v _ i t hh => hh⟩
        | cons id recs parent =>
            rcases ht : tryResolveToken env fuel id token (rget recs token) recs parent
              nfv with ⟨o₀, recs₁, par₁, tr₁⟩
            have hT := ihT id token (rget recs token) recs parent nfv o₀ recs₁ par₁ tr₁
              (recOk_rget recs token) ht
            cases o₀ with
            | ok v =>
                rw [injGet_cons_ok ht] at h
                obtain ⟨ho, hc, -⟩ : o = Out.ok v ∧ c' = Chain.cons id recs₁ par₁ ∧
                    tr = tr₁ := by
                  simpa [Prod.ext_iff] using h.symm
                subst ho; subst hc
                obtain ⟨hB, hB2⟩ := hT (by simp)
                refine ⟨?_, ?_⟩
                · intro i t hh
                  rw [slotAt_cons] at hh ⊢
                  exact hB i t hh
                · intro v' _ i t hh
                  rw [slotAt_cons] at hh ⊢
                  exact hB2 v rfl i t hh
            | err e =>
                rw [injGet_cons_err ht] at h
                obtain ⟨ho, hc, -⟩ : o = Out.err (decorateErr e) ∧
                    c' = Chain.cons id recs₁ par₁ ∧ tr = tr₁ := by
                  simpa [Prod.ext_iff] using h.symm
                subst ho; subst hc
                obtain ⟨hB, -⟩ := hT (by simp)
                refine ⟨?_, fun v hv => by cases hv⟩
                intro i t hh
                rw [slotAt_cons] at hh ⊢
                exact hB i t hh
            | fuelOut =>
                rw [injGet_cons_fuelOut ht] at h
                obtain ⟨ho, -, -⟩ : o = Out.fuelOut ∧ c' = Chain.cons id recs₁ par₁ ∧
                    tr = tr₁ := by
                  simpa [Prod.ext_iff] using h.symm
                exact absurd ho hno
      -- resolveToken
      · intro selfId token rec? recs parent nfv o recs' parent' tr hrok h hno
        cases rec? with
        | none =>
            rcases hg : injGet env fuel parent token nfv with ⟨o₀, par₀, tr₀⟩
            rw [resolveToken_none hg] at h
            obtain ⟨ho, hr, hp, -⟩ : o = o₀ ∧ recs' = recs ∧ parent' = par₀ ∧
                tr = tr₀ := by
              simpa [Prod.ext_iff] using h.symm
            subst ho; subst hr; subst hp
            have hG := ihG parent token nfv o parent' tr₀ hg hno
            refine ⟨?_, ?_⟩
            · intro i t hh
              by_cases hi : i = selfId
              · rw [hi] at hh ⊢
                rw [slotE_self] at hh ⊢
                exact Or.inl hh
              · rw [slotE_other hi] at hh ⊢
                exact Or.inl (hG.1 i t hh)
            · intro v hv i t hh
              by_cases hi : i = selfId
              · rw [hi] at hh ⊢
                rwa [slotE_self] at hh ⊢
              · rw [slotE_other hi] at hh ⊢
                exact hG.2 v hv i t hh
        | some record =>
            have hrec : rget recs token = some record := hrok record rfl
            rcases hval : record.value with _ | _ | v
            -- empty
            · rcases hd : resolveDeps env fuel selfId record.deps
                (setSlot recs token .circular) parent with ⟨o₂, recs₂, par₂, trd⟩
              have hD := ihD selfId record.deps (setSlot recs token .circular) parent
                o₂ recs₂ par₂ trd hd
              cases o₂ with
              | ok args =>
                  rw [resolveToken_empty_ok hval hd] at h
                  obtain ⟨ho, hr, hp, -⟩ : o = Out.ok (applyFn env record.fn args) ∧
                      recs' = setSlot recs₂ token (.val (applyFn env record.fn args)) ∧
                      parent' = par₂ ∧ tr = trd ++ [(selfId, token)] := by
                    simpa [Prod.ext_iff] using h.symm
                  subst ho; subst hr; subst hp
                  obtain ⟨hB, hB2⟩ := hD (by simp)
                  refine ⟨?_, ?_⟩
                  · intro i t hh
                    by_cases hi : i = selfId
                    · rw [hi] at hh ⊢
                      rw [slotE_self] at hh ⊢
                      by_cases htk : t = token
                      · rw [htk] at hh
                        exact absurd hh (slotOf_setSlot_not_circ recs₂ token _)
                      · rw [slotOf_setSlot_ne _ _ _ _ htk] at hh
                        have h2 := hB selfId t (by rw [slotE_self]; exact hh)
                        rw [slotE_self, slotOf_setSlot_ne _ _ _ _ htk] at h2
                        exact Or.inl h2
                    · rw [slotE_other hi] at hh ⊢
                      have h2 := hB i t (by rw [slotE_other hi]; exact hh)
                      rw [slotE_other hi] at h2
                      exact Or.inl h2
                  · intro v' _ i t hh
                    by_cases hi : i = selfId
                    · rw [hi] at hh ⊢
                      rw [slotE_self] at hh ⊢
                      by_cases htk : t = token
                      · rw [htk] at hh
                        have hse : slotOf recs token = some Slot.empty := by
                          simp [slotOf, hrec, hval]
                        rw [hse] at hh
                        simp at hh
                      · have h1 : slotE selfId (setSlot recs token .circular) parent
                            selfId t = some .circular := by
                          rw [slotE_self, slotOf_setSlot_ne _ _ _ _ htk]
                          exact hh
                        have h2 := hB2 args rfl selfId t h1
                        rw [slotE_self] at h2
                        rw [slotOf_setSlot_ne _ _ _ _ htk]
                        exact h2
                    · rw [slotE_other hi] at hh ⊢
                      have h1 : slotE selfId (setSlot recs token .circular) parent i t =
                          some .circular := by
                        rw [slotE_other hi]
                        exact hh
                      have h2 := hB2 args rfl i t h1
                      rwa [slotE_other hi] at h2
              | err e =>
                  rw [resolveToken_empty_err hval hd] at h
                  obtain ⟨ho, hr, hp, -⟩ : o = Out.err e ∧ recs' = recs₂ ∧
                      parent' = par₂ ∧ tr = trd := by
                    simpa [Prod.ext_iff] using h.symm
                  subst ho; subst hr; subst hp
                  obtain ⟨hB, -⟩ := hD (by simp)
                  refine ⟨?_, fun v hv => by cases hv⟩
                  intro i t hh
                  by_cases hi : i = selfId
                  · rw [hi] at hh ⊢
                    by_cases htk : t = token
                    · rw [htk] at hh ⊢
                      exact Or.inr ⟨rfl, rfl, rfl, e, rfl⟩
                    · rw [slotE_self] at hh ⊢
                      have h2 := hB selfId t (by rw [slotE_self]; exact hh)
                      rw [slotE_self, slotOf_setSlot_ne _ _ _ _ htk] at h2
                      exact Or.inl h2
                  · rw [slotE_other hi] at hh ⊢
                    have h2 := hB i t (by rw [slotE_other hi]; exact hh)
                    rw [slotE_other hi] at h2
                    exact Or.inl h2
              | fuelOut =>
                  rw [resolveToken_empty_fuelOut hval hd] at h
                  obtain ⟨ho, -, -, -⟩ : o = Out.fuelOut ∧ recs' = recs₂ ∧
                      parent' = par₂ ∧ tr = trd := by
                    simpa [Prod.ext_iff] using h.symm
                  exact absurd ho hno
            -- circular
            · rw [resolveToken_circ hval] at h
              obtain ⟨ho, hr, hp, -⟩ : o = Out.err circularError ∧ recs' = recs ∧
                  parent' = parent ∧ tr = [] := by
                simpa [Prod.ext_iff] using h.symm
              subst ho; subst hr; subst hp
              exact ⟨fun i t hh => Or.inl hh, fun v hv => by cases hv⟩
            -- val
            · rw [resolveToken_val hval] at h
              obtain ⟨ho, hr, hp, -⟩ : o = Out.ok v ∧ recs' = recs ∧
                  parent' = parent ∧ tr = [] := by
                simpa [Prod.ext_iff] using h.symm
              subst ho; subst hr; subst hp
              exact ⟨fun i t hh => Or.inl hh, fun v' _ i t hh => hh⟩
      -- tryResolveToken
      · intro selfId token rec? recs parent nfv o recs' parent' tr hrok h hno
        rcases hr : resolveToken env fuel selfId token rec? recs parent nfv
          with ⟨o₀, recs₀, par₀, tr₀⟩
        have hR := ihR selfId token rec? recs parent nfv o₀ recs₀ par₀ tr₀ hrok hr
        cases o₀ with
        | ok v =>
            rw [tryResolveToken_ok hr] at h
            obtain ⟨ho, hrr, hp, -⟩ : o = Out.ok v ∧ recs' = recs₀ ∧
                parent' = par₀ ∧ tr = tr₀ := by
              simpa [Prod.ext_iff] using h.symm
            subst ho; subst hrr; subst hp
            obtain ⟨hB, hB2⟩ := hR (by simp)
            refine ⟨?_, fun v' _ i t hh => hB2 v rfl i t hh⟩
            intro i t hh
            rcases hB i t hh with hcirc | ⟨-, -, -, e, he⟩
            · exact hcirc
            · cases he
        | err e =>
            rw [tryResolveToken_err hr] at h
            obtain ⟨ho, hrr, hp, -⟩ : o = Out.err (pushPath token e) ∧
                recs' = resetIfCircular rec? recs₀ token ∧
                parent' = par₀ ∧ tr = tr₀ := by
              simpa [Prod.ext_iff] using h.symm
            subst ho; subst hrr; subst hp
            obtain ⟨hB, -⟩ := hR (by simp)
            refine ⟨?_, fun v hv => by cases hv⟩
            intro i t hh
            unfold resetIfCircular at hh
            by_cases hcond : rec?.isSome = true ∧ slotOf recs₀ token = some Slot.circular
            · rw [if_pos hcond] at hh
              by_cases hi : i = selfId
              · rw [hi] at hh ⊢
                rw [slotE_self] at hh
                by_cases htk : t = token
                · rw [htk] at hh
                  rcases hg : rget recs₀ token with _ | r0
                  · unfold setSlot at hh
                    rw [hg] at hh
                    unfold slotOf at hh
                    rw [hg] at hh
                    cases hh
                  · rw [slotOf_setSlot_self recs₀ token .empty r0 hg] at hh
                    cases hh
                · rw [slotOf_setSlot_ne _ _ _ _ htk] at hh
                  rcases hB selfId t (by rw [slotE_self]; exact hh)
                    with hcirc | ⟨-, -, htk2, -⟩
                  · exact hcirc
                  · exact absurd htk2 htk
              · rw [slotE_other hi] at hh
                rcases hB i t (by rw [slotE_other hi]; exact hh)
                  with hcirc | ⟨-, hi2, -, -⟩
                · exact hcirc
                · exact absurd hi2 hi
            · rw [if_neg hcond] at hh
              rcases hB i t hh with hcirc | ⟨hsome, hi2, htk2, -⟩
              · exact hcirc
              · refine absurd ⟨hsome, ?_⟩ hcond
                rw [hi2, htk2] at hh
                rw [slotE_self] at hh
                exact hh
        | fuelOut =>
            rw [tryResolveToken_fuelOut hr] at h
            obtain ⟨ho, -, -, -⟩ : o = Out.fuelOut ∧ recs' = recs₀ ∧
                parent' = par₀ ∧ tr = tr₀ := by
              simpa [Prod.ext_iff] using h.symm
            exact absurd ho hno
      -- resolveDeps
      · intro selfId ds recs parent o recs' parent' tr h hno
        cases ds with
        | nil =>
            rw [resolveDeps_nil] at h
            obtain ⟨ho, hr, hp, -⟩ : o = Out.ok [] ∧ recs' = recs ∧
                parent' = parent ∧ tr = [] := by
              simpa [Prod.ext_iff] using h.symm
            subst ho; subst hr; subst hp
            exact ⟨fun i t hh => hh, fun vs _ i t hh => hh⟩
        | cons d ds =>
            rcases ht : tryResolveToken env fuel selfId d.token (depRec recs d) recs
              (if depToNull recs d then Chain.nil else parent) (depNfv d)
              with ⟨o₀, recs₁, pRet, tr₁⟩
            have hT := ihT selfId d.token (depRec recs d) recs
              (if depToNull recs d then Chain.nil else parent) (depNfv d)
              o₀ recs₁ pRet tr₁ (recOk_depRec recs d) ht
            have hlift : o₀ ≠ .fuelOut →
                (∀ i t, slotE selfId recs₁
                    (if depToNull recs d then parent else pRet) i t = some .circular →
                  slotE selfId recs parent i t = some .circular) ∧
                (∀ v, o₀ = .ok v → ∀ i t,
                  slotE selfId recs parent i t = some .circular →
                  slotE selfId recs₁
                    (if depToNull recs d then parent else pRet) i t =
                    some .circular) := by
              intro hno₀
              obtain ⟨hB, hB2⟩ := hT hno₀
              by_cases hnull : depToNull recs d = true
              · rw [if_pos hnull] at hB hB2 ⊢
                refine ⟨?_, ?_⟩
                · intro i t hh
                  by_cases hi : i = selfId
                  · rw [hi] at hh ⊢
                    rw [slotE_self] at hh ⊢
                    have h2 := hB selfId t (by rw [slotE_self]; exact hh)
                    rwa [slotE_self] at h2
                  · rwa [slotE_other hi] at hh ⊢
                · intro v hv i t hh
                  by_cases hi : i = selfId
                  · rw [hi] at hh ⊢
                    rw [slotE_self] at hh ⊢
                    have h2 := hB2 v hv selfId t (by rw [slotE_self]; exact hh)
                    rwa [slotE_self] at h2
                  · rwa [slotE_other hi] at hh ⊢
              · rw [if_neg hnull] at hB hB2 ⊢
                exact ⟨hB, hB2⟩
            cases o₀ with
            | ok v =>
                rcases hrest : resolveDeps env fuel selfId ds recs₁
                  (if depToNull recs d then parent else pRet)
                  with ⟨o₂, recs₂, par₂, tr₂⟩
                have hD := ihD selfId ds recs₁
                  (if depToNull recs d then parent else pRet) o₂ recs₂ par₂ tr₂ hrest
                obtain ⟨hB1, hB21⟩ := hlift (by simp)
                cases o₂ with
                | ok vs =>
                    rw [resolveDeps_cons_ok ht hrest] at h
                    obtain ⟨ho, hr, hp, -⟩ : o = Out.ok (v :: vs) ∧ recs' = recs₂ ∧
                        parent' = par₂ ∧ tr = tr₁ ++ tr₂ := by
                      simpa [Prod.ext_iff] using h.symm
                    subst ho; subst hr; subst hp
                    obtain ⟨hB2', hB22⟩ := hD (by simp)
                    exact ⟨fun i t hh => hB1 i t (hB2' i t hh),
                           fun vs' _ i t hh => hB22 vs rfl i t (hB21 v rfl i t hh)⟩
                | err e =>
                    rw [resolveDeps_cons_restErr ht hrest] at h
                    obtain ⟨ho, hr, hp, -⟩ : o = Out.err e ∧ recs' = recs₂ ∧
                        parent' = par₂ ∧ tr = tr₁ ++ tr₂ := by
                      simpa [Prod.ext_iff] using h.symm
                    subst ho; subst hr; subst hp
                    obtain ⟨hB2', -⟩ := hD (by simp)
                    exact ⟨fun i t hh => hB1 i t (hB2' i t hh), fun vs hv => by cases hv⟩
                | fuelOut =>
                    rw [resolveDeps_cons_restFuelOut ht hrest] at h
                    obtain ⟨ho, -, -, -⟩ : o = Out.fuelOut ∧ recs' = recs₂ ∧
                        parent' = par₂ ∧ tr = tr₁ ++ tr₂ := by
                      simpa [Prod.ext_iff] using h.symm
                    exact absurd ho hno
            | err e =>
                rw [resolveDeps_cons_err ht] at h
                obtain ⟨ho, hr, hp, -⟩ : o = Out.err e ∧ recs' = recs₁ ∧
                    parent' = (if depToNull recs d then parent else pRet) ∧
                    tr = tr₁ := by
                  simpa [Prod.ext_iff] using h.symm
                subst ho; subst hr; subst hp
                obtain ⟨hB1, -⟩ := hlift (by simp)
                exact ⟨fun i t hh => hB1 i t hh, fun vs hv => by cases hv⟩
            | fuelOut =>
                rw [resolveDeps_cons_fuelOut ht] at h
                obtain ⟨ho, -, -, -⟩ : o = Out.fuelOut ∧ recs' = recs₁ ∧
                    (parent' = if depToNull recs d = true then parent else pRet) ∧
                    tr = tr₁ := by
                  simpa [Prod.ext_iff] using h.symm
                exact absurd ho hno

/-! ## Declaration-order dependency resolution -/

theorem resolveDeps_toSeq (env : Env) (selfId : Nat) :
    ∀ (fuel : Nat) (ds : List DepRec) (recs : RecMap) (parent : Chain) (vs : List Val)
      (recs' : RecMap) (parent' : Chain) (tr : List Ev),
    resolveDeps env fuel selfId ds recs parent = (.ok vs, recs', parent', tr) →
    SeqResolves env selfId fuel ds recs parent vs recs' parent' tr := by
  intro fuel
  induction fuel with
  | zero =>
      intro ds recs parent vs recs' parent' tr h
      rw [resolveDeps_zero] at h
      simp at h
  | succ fuel ih =>
      intro ds recs parent vs recs' parent' tr h
      cases ds with
      | nil =>
          rw [resolveDeps_nil] at h
          simp only [Prod.mk.injEq, Out.ok.injEq] at h
          obtain ⟨hv, hr, hp, ht⟩ := h
          subst hv; subst hr; subst hp; subst ht
          exact .nil fuel recs parent
      | cons d ds =>
          rcases htry : tryResolveToken env fuel selfId d.token (depRec recs d) recs
            (if depToNull recs d then Chain.nil else parent) (depNfv d)
            with ⟨o, r1, pRet, tr1⟩
          cases o with
          | ok v =>
              rcases hrest : resolveDeps env fuel selfId ds r1
                (if depToNull recs d then parent else pRet) with ⟨o2, r2, p2, tr2⟩
              cases o2 with
              | ok vs2 =>
                  rw [resolveDeps_cons_ok htry hrest] at h
                  simp only [Prod.mk.injEq, Out.ok.injEq] at h
                  obtain ⟨hv, hr, hp, ht⟩ := h
                  subst hv; subst hr; subst hp; subst ht
                  exact .cons fuel d ds recs parent v r1 pRet tr1 vs2 r2 p2 tr2 htry
                    (ih ds r1 _ vs2 r2 p2 tr2 hrest)
              | err e2 => rw [resolveDeps_cons_restErr htry hrest] at h; simp at h
              | fuelOut => rw [resolveDeps_cons_restFuelOut htry hrest] at h; simp at h
          | err e => rw [resolveDeps_cons_err htry] at h; simp at h
          | fuelOut => rw [resolveDeps_cons_fuelOut htry] at h; simp at h

theorem seq_toResolveDeps (env : Env) (selfId : Nat) :
    ∀ {fuel : Nat} {ds : List DepRec} {recs : RecMap} {parent : Chain} {vs : List Val}
      {recs' : RecMap} {parent' : Chain} {tr : List Ev},
    SeqResolves env selfId fuel ds recs parent vs recs' parent' tr →
    resolveDeps env fuel selfId ds recs parent = (.ok vs, recs', parent', tr) := by
  intro fuel ds recs parent vs recs' parent' tr h
  induction h with
  | nil fuel recs parent => exact resolveDeps_nil env fuel selfId recs parent
  | cons fuel d ds recs parent v recs₁ parRet tr₁ vs recs₂ parent₂ tr₂ htry hseq ih =>
      exact resolveDeps_cons_ok htry ih

theorem resolveToken_invokes (env : Env) :
    ∀ {fuel selfId : Nat} {token : Tok} {record : Record} {recs : RecMap}
      {parent : Chain} {nfv : NFV} {v : Val} {recs' : RecMap} {parent' : Chain}
      {tr : List Ev},
    record.value = .empty →
    resolveToken env (fuel + 1) selfId token (some record) recs parent nfv =
      (.ok v, recs', parent', tr) →
    ∃ vs recs₂ parent₂ trd,
      SeqResolves env selfId fuel record.deps (setSlot recs token .circular) parent vs
        recs₂ parent₂ trd ∧
      v = applyFn env record.fn vs ∧ recs' = setSlot recs₂ token (.val v) ∧
      parent' = parent₂ ∧ tr = trd ++ [(selfId, token)] := by
  intro fuel selfId token record recs parent nfv v recs' parent' tr hempty h
  rcases hd : resolveDeps env fuel selfId record.deps (setSlot recs token .circular)
    parent with ⟨o, r2, p2, trd⟩
  cases o with
  | ok args =>
      rw [resolveToken_empty_ok hempty hd] at h
      simp only [Prod.mk.injEq, Out.ok.injEq] at h
      obtain ⟨hv, hr, hp, ht⟩ := h
      refine ⟨args, r2, p2, trd, resolveDeps_toSeq env selfId fuel record.deps _ parent
        args r2 p2 trd hd, hv.symm, ?_, hp.symm, ht.symm⟩
      rw [← hr, ← hv]
  | err e => rw [resolveToken_empty_err hempty hd] at h; simp at h
  | fuelOut => rw [resolveToken_empty_fuelOut hempty hd] at h; simp at h

/-! ## Claim C7 -/

/-- C7: within one `get` call, a record's dependency entries are resolved
strictly in declaration order — the dependency loop is exactly the
left-to-right sequential composition `SeqResolves`, whose values and traces
are collected in declaration order — and the resolved values are passed to
the record's constructor or factory as arguments in that same order. -/
theorem claim_C7 :
    (∀ (env : Env) (selfId fuel : Nat) (ds : List DepRec) (recs : RecMap)
      (parent : Chain) (vs : List Val) (recs' : RecMap) (parent' : Chain) (tr : List Ev),
      resolveDeps env fuel selfId ds recs parent = (.ok vs, recs', parent', tr) ↔
      SeqResolves env selfId fuel ds recs parent vs recs' parent' tr)
  ∧ (∀ (env : Env) (fuel selfId : Nat) (token : Tok) (record : Record) (recs : RecMap)
      (parent : Chain) (nfv : NFV) (v : Val) (recs' : RecMap) (parent' : Chain)
      (tr : List Ev),
      record.value = .empty →
      resolveToken env (fuel + 1) selfId token (some record) recs parent nfv =
        (.ok v, recs', parent', tr) →
      ∃ vs recs₂ parent₂ trd,
        SeqResolves env selfId fuel record.deps (setSlot recs token .circular) parent vs
          recs₂ parent₂ trd ∧
        v = applyFn env record.fn vs ∧ recs' = setSlot recs₂ token (.val v) ∧
        parent' = parent₂ ∧ tr = trd ++ [(selfId, token)]) :=
  ⟨fun env selfId fuel ds recs parent vs recs' parent' tr =>
      ⟨resolveDeps_toSeq env selfId fuel ds recs parent vs recs' parent' tr,
       seq_toResolveDeps env selfId⟩,
   fun _ _ _ _ _ _ _ _ _ _ _ _ hempty h => resolveToken_invokes _ hempty h⟩

/-- C7, witness: two cached dependencies resolve in declaration order to
`[4, 5]`, and a record invocation receives exactly those arguments. -/
theorem claim_C7_witness :
    SeqResolves envW 0 7 [⟨.itok 1, defaultOpts⟩, ⟨.itok 2, defaultOpts⟩]
      [(Tok.itok 1, valueRecord (.num 4)), (Tok.itok 2, valueRecord (.num 5))] .nil
      [.num 4, .num 5]
      [(Tok.itok 1, valueRecord (.num 4)), (Tok.itok 2, valueRecord (.num 5))] .nil []
  ∧ ∃ vs recs₂ parent₂ trd,
      SeqResolves envW 0 8 (Record.deps ⟨.user 2, false,
          [⟨.itok 1, defaultOpts⟩, ⟨.itok 2, defaultOpts⟩], .empty⟩)
        (setSlot [(Tok.itok 0, ⟨.user 2, false,
            [⟨.itok 1, defaultOpts⟩, ⟨.itok 2, defaultOpts⟩], .empty⟩),
          (Tok.itok 1, valueRecord (.num 4)), (Tok.itok 2, valueRecord (.num 5))]
          (.itok 0) .circular) .nil vs recs₂ parent₂ trd ∧
      applyFn envW (Fn.user 2) [.num 4, .num 5] =
        applyFn envW (Record.fn ⟨.user 2, false,
          [⟨.itok 1, defaultOpts⟩, ⟨.itok 2, defaultOpts⟩], .empty⟩) vs ∧
      setSlot (setSlot [(Tok.itok 0, ⟨.user 2, false,
          [⟨.itok 1, defaultOpts⟩, ⟨.itok 2, defaultOpts⟩], .empty⟩),
        (Tok.itok 1, valueRecord (.num 4)), (Tok.itok 2, valueRecord (.num 5))]
        (.itok 0) .circular) (.itok 0) (.val (applyFn envW (Fn.user 2) [.num 4, .num 5])) =
        setSlot recs₂ (.itok 0) (.val (applyFn envW (Fn.user 2) [.num 4, .num 5])) ∧
      Chain.nil = parent₂ ∧
      ([] : List Ev) ++ [(0, Tok.itok 0)] = trd ++ [(0, Tok.itok 0)] :=
  ⟨(claim_C7.1 envW 0 7 [⟨.itok 1, defaultOpts⟩, ⟨.itok 2, defaultOpts⟩]
      [(Tok.itok 1, valueRecord (.num 4)), (Tok.itok 2, valueRecord (.num 5))] .nil
      [.num 4, .num 5]
      [(Tok.itok 1, valueRecord (.num 4)), (Tok.itok 2, valueRecord (.num 5))] .nil
      []).mp (by decide),
   claim_C7.2 envW 8 0 (.itok 0)
     ⟨.user 2, false, [⟨.itok 1, defaultOpts⟩, ⟨.itok 2, defaultOpts⟩], .empty⟩
     [(Tok.itok 0, ⟨.user 2, false,
         [⟨.itok 1, defaultOpts⟩, ⟨.itok 2, defaultOpts⟩], .empty⟩),
      (Tok.itok 1, valueRecord (.num 4)), (Tok.itok 2, valueRecord (.num 5))]
     .nil .throwSent (applyFn envW (Fn.user 2) [.num 4, .num 5]) _ _ _ rfl (by decide)⟩

/-! ## Claim C6 -/

/-- C6, counterexample: when resolution of a failing top-level `get`
delegates to a parent `StaticInjector`'s `get`, the error is decorated by
the catch block of BOTH `get` frames — here a token absent from a
two-injector chain yields a doubly-wrapped error, not a singly-wrapped
one. -/
theorem claim_C6_counterexample :
    wrapCountOf (injGet envW 9 (.cons 1 [] (.cons 0 [] .nil)) (.itok 0)
      (.val .undef)).1 = some 2 ∧
    wrapCountOf (injGet envW 9 (.cons 1 [] (.cons 0 [] .nil)) (.itok 0)
      (.val .undef)).1 ≠ some 1 := by
  decide

/-- C6 (amended): the token-path decoration is applied exactly once per
`StaticInjector.get` frame an error escapes.  Within a single injector
whose parent is the terminal null injector, a failing top-level `get`
decorates the error exactly once, at its own (outermost) frame — the
recursive `tryResolveToken` frames only accumulate the token path and never
rewrite the message; but each delegation to a parent `StaticInjector.get`
adds one further decoration. -/
theorem claim_C6 :
    ∀ (env : Env) (fuel id : Nat) (recs : RecMap) (token : Tok) (nfv : NFV)
      (e : JsError) (c' : Chain) (tr : List Ev),
    injGet env fuel (.cons id recs .nil) token nfv = (.err e, c', tr) →
    e.wrapCount = 1 := by
  intro env fuel id recs token nfv e c' tr h
  cases fuel with
  | zero => rw [injGet_zero] at h; simp at h
  | succ fuel =>
      rcases ht : tryResolveToken env fuel id token (rget recs token) recs .nil nfv
        with ⟨o, r', p', tr'⟩
      cases o with
      | ok v => rw [injGet_cons_ok ht] at h; simp at h
      | err e0 =>
          rw [injGet_cons_err ht] at h
          have he : decorateErr e0 = e := by
            have := congrArg (fun x => x.1) h
            simpa using this
          rw [← he, decorateErr_wrapCount]
          have h0 : e0.wrapCount = 0 :=
            (wrapCount_zero_nilParent env fuel).2.2.1 id token (rget recs token)
              recs nfv e0 r' p' tr' ht
          rw [h0]
      | fuelOut => rw [injGet_cons_fuelOut ht] at h; simp at h

/-- C6, witness: a failing `get` on a concrete single injector produces an
error wrapped exactly once. -/
theorem claim_C6_witness :
    ∃ e c' tr, injGet envW 5 (Chain.cons 0 [] .nil) (.itok 0) (.val .undef) =
      (.err e, c', tr) ∧ e.wrapCount = 1 := by
  have hk : errKindOf (injGet envW 5 (Chain.cons 0 [] .nil) (.itok 0) (.val .undef)).1 =
      some .notFound := by decide
  rcases h : injGet envW 5 (Chain.cons 0 [] .nil) (.itok 0) (.val .undef)
    with ⟨o, c', tr⟩
  cases o with
  | err e =>
      exact ⟨e, c', tr, rfl, claim_C6 envW 5 0 [] (.itok 0) (.val .undef) e c' tr h⟩
  | ok v => rw [h] at hk; simp [errKindOf] at hk
  | fuelOut => rw [h] at hk; simp [errKindOf] at hk

/-! ## Claim C5 -/

/-- C5: a dependency entry whose `SkipSelf` modifier cleared the
`CheckSelf` bit never inspects the requesting injector's own table: even
when the child injector owns a record for the token, resolution delegates
to the parent chain and yields the parent's value, and the child's own
record for that token is left untouched.  The first clause ties the flag
pattern to the `SkipSelf` modifier in `computeDeps`. -/
theorem claim_C5 :
    (∀ T : Tok, compileRawDep (.anns [.skipSelf, .tok T]) = ⟨T, ⟨false, false, true⟩⟩)
  ∧ (∀ (env : Env) (fuel id : Nat) (recs : RecMap) (parent parent' : Chain)
      (P T : Tok) (rP rT : Record) (nfv : NFV) (vp : Val) (trp : List Ev),
      rget recs P = some rP → rP.value = .empty →
      rP.deps = [⟨T, ⟨false, false, true⟩⟩] →
      T ≠ P →
      rget recs T = some rT →
      injGet env fuel parent T .throwSent = (.ok vp, parent', trp) →
      injGet env (fuel + 6) (.cons id recs parent) P nfv =
        (.ok (applyFn env rP.fn [vp]),
         .cons id (setSlot (setSlot recs P .circular) P
           (.val (applyFn env rP.fn [vp]))) parent',
         trp ++ [(id, P)])
      ∧ rget (setSlot (setSlot recs P .circular) P
          (.val (applyFn env rP.fn [vp]))) T = some rT) := by
  constructor
  · intro T; rfl
  · intro env fuel id recs parent parent' P T rP rT nfv vp trp
    intro hP hval hdeps hne hT hparent
    have hdep : depRec (setSlot recs P .circular) ⟨T, ⟨false, false, true⟩⟩ = none := by
      simp [depRec]
    have htnull : depToNull (setSlot recs P .circular) ⟨T, ⟨false, false, true⟩⟩ = false := by
      simp [depToNull]
    have htry0 : tryResolveToken env (fuel + 2) id T none (setSlot recs P .circular)
        parent .throwSent = (.ok vp, setSlot recs P .circular, parent', trp) :=
      tryResolveToken_ok (resolveToken_none hparent)
    have htry : tryResolveToken env (fuel + 2) id
        (DepRec.token ⟨T, ⟨false, false, true⟩⟩)
        (depRec (setSlot recs P .circular) ⟨T, ⟨false, false, true⟩⟩)
        (setSlot recs P .circular)
        (if depToNull (setSlot recs P .circular) ⟨T, ⟨false, false, true⟩⟩ then Chain.nil
         else parent)
        (depNfv ⟨T, ⟨false, false, true⟩⟩) =
        (.ok vp, setSlot recs P .circular, parent', trp) := by
      rw [hdep, htnull]
      exact htry0
    have hrest : resolveDeps env (fuel + 2) id [] (setSlot recs P .circular)
        (if depToNull (setSlot recs P .circular) ⟨T, ⟨false, false, true⟩⟩ then parent
         else parent') = (.ok [], setSlot recs P .circular, parent', []) := by
      rw [if_neg (by rw [htnull]; exact Bool.false_ne_true)]
      exact resolveDeps_nil env (fuel + 1) id _ parent'
    have hds : resolveDeps env (fuel + 3) id rP.deps (setSlot recs P .circular) parent =
        (.ok [vp], setSlot recs P .circular, parent', trp) := by
      rw [hdeps]
      simpa using resolveDeps_cons_ok htry hrest
    have hrt2 : resolveToken env (fuel + 4) id P (some rP) recs parent nfv =
        (.ok (applyFn env rP.fn [vp]),
         setSlot (setSlot recs P .circular) P (.val (applyFn env rP.fn [vp])),
         parent', trp ++ [(id, P)]) := resolveToken_empty_ok hval hds
    have htry2 : tryResolveToken env (fuel + 5) id P (rget recs P) recs parent nfv =
        (.ok (applyFn env rP.fn [vp]),
         setSlot (setSlot recs P .circular) P (.val (applyFn env rP.fn [vp])),
         parent', trp ++ [(id, P)]) := by
      rw [hP]
      exact tryResolveToken_ok hrt2
    refine ⟨injGet_cons_ok htry2, ?_⟩
    rw [rget_setSlot_ne _ P T _ hne, rget_setSlot_ne _ P T _ hne]
    exact hT

/-- C5, witness: child owns `T = itok 6` with value `10`, the parent
provides `20`; the `SkipSelf` dependency resolves to `20` and the child's
own record still holds `10`. -/
theorem claim_C5_witness :
    compileRawDep (.anns [.skipSelf, .tok (.itok 6)]) =
      ⟨.itok 6, ⟨false, false, true⟩⟩
  ∧ (injGet envW 10
      (.cons 0 [(Tok.itok 7, ⟨.user 1, false, [⟨.itok 6, ⟨false, false, true⟩⟩], .empty⟩),
                (Tok.itok 6, ⟨.ident, false, [], .val (.num 10)⟩)]
        (.cons 1 [(Tok.itok 6, ⟨.ident, false, [], .val (.num 20)⟩)] .nil))
      (.itok 7) .throwSent =
      (.ok (applyFn envW (Fn.user 1) [.num 20]),
       .cons 0 (setSlot (setSlot
          [(Tok.itok 7, ⟨.user 1, false, [⟨.itok 6, ⟨false, false, true⟩⟩], .empty⟩),
           (Tok.itok 6, ⟨.ident, false, [], .val (.num 10)⟩)]
          (Tok.itok 7) .circular) (Tok.itok 7)
          (.val (applyFn envW (Fn.user 1) [.num 20])))
        (.cons 1 [(Tok.itok 6, ⟨.ident, false, [], .val (.num 20)⟩)] .nil),
       [(0, Tok.itok 7)])
    ∧ rget (setSlot (setSlot
          [(Tok.itok 7, ⟨.user 1, false, [⟨.itok 6, ⟨false, false, true⟩⟩], .empty⟩),
           (Tok.itok 6, ⟨.ident, false, [], .val (.num 10)⟩)]
          (Tok.itok 7) .circular) (Tok.itok 7)
          (.val (applyFn envW (Fn.user 1) [.num 20])))
        (Tok.itok 6) = some ⟨.ident, false, [], .val (.num 10)⟩) :=
  ⟨claim_C5.1 (.itok 6),
   claim_C5.2 envW 4 0
     [(Tok.itok 7, ⟨.user 1, false, [⟨.itok 6, ⟨false, false, true⟩⟩], .empty⟩),
      (Tok.itok 6, ⟨.ident, false, [], .val (.num 10)⟩)]
     (.cons 1 [(Tok.itok 6, ⟨.ident, false, [], .val (.num 20)⟩)] .nil)
     (.cons 1 [(Tok.itok 6, ⟨.ident, false, [], .val (.num 20)⟩)] .nil)
     (.itok 7) (.itok 6)
     ⟨.user 1, false, [⟨.itok 6, ⟨false, false, true⟩⟩], .empty⟩
     ⟨.ident, false, [], .val (.num 10)⟩
     .throwSent (.num 20) []
     (by decide) rfl rfl (by decide) (by decide) (by decide)⟩

/-! ## Claim C9 -/

/-- C9: for every token absent from the whole injector chain, calling
`get(token, undefined)` — passing `undefined` explicitly — still throws the
not-found error rather than returning `undefined`: the terminal null
injector's parameter default reinstates the throw sentinel when the
propagated `notFoundValue` is `undefined`, so an explicit `undefined`
fallback behaves exactly like the sentinel. -/
theorem claim_C9 :
    (∀ t : Tok, nullInjectorGet t (.val .undef) = nullInjectorGet t .throwSent)
  ∧ (∀ t : Tok, ∃ e, nullInjectorGet t (.val .undef) = .err e ∧ e.kind = .notFound)
  ∧ (∀ (env : Env) (c : Chain) (fuel : Nat) (t : Tok),
      absentIn c t → 3 * c.len + 1 ≤ fuel →
      ∃ e, injGet env fuel c t (.val .undef) = (.err e, c, []) ∧ e.kind = .notFound) :=
  ⟨fun _ => rfl,
   fun _ => ⟨_, rfl, rfl⟩,
   fun env c fuel t habs hf =>
      injGet_absent_throw env c fuel t (.val .undef) habs (Or.inl rfl) hf⟩

/-- C9, witness: the clauses at concrete inputs (a two-level chain for the
chain clause). -/
theorem claim_C9_witness :
    nullInjectorGet (.itok 3) (.val .undef) = nullInjectorGet (.itok 3) .throwSent
  ∧ (∃ e, nullInjectorGet (.itok 3) (.val .undef) = .err e ∧ e.kind = .notFound)
  ∧ (∃ e, injGet envW 7 (.cons 1 [] (.cons 0 [] .nil)) (.itok 3) (.val .undef) =
      (.err e, .cons 1 [] (.cons 0 [] .nil), []) ∧ e.kind = .notFound) :=
  ⟨claim_C9.1 (.itok 3),
   claim_C9.2.1 (.itok 3),
   claim_C9.2.2 envW (.cons 1 [] (.cons 0 [] .nil)) 7 (.itok 3) (by decide) (by decide)⟩

/-- A record map with no `CIRCULAR` entry has no `CIRCULAR` slot under any
lookup. -/
theorem recMap_noCirc_slots {m : RecMap} (h : m.noCirc) (t : Tok) :
    slotOf m t ≠ some Slot.circular := by
  intro hc
  unfold slotOf at hc
  cases hg : rget m t with
  | none => rw [hg] at hc; cases hc
  | some r =>
      rw [hg] at hc
      have hv : r.value = Slot.circular := by simpa using hc
      unfold rget at hg
      cases hf : m.find? (fun e => e.1 = t) with
      | none => rw [hf] at hg; cases hg
      | some e =>
          rw [hf] at hg
          have he : e.2 = r := by simpa using hg
          exact h e (List.mem_of_find?_eq_some hf) (by rw [he]; exact hv)

/-- A chain with no `CIRCULAR` record has no `CIRCULAR` slot at any
injector identity and token. -/
theorem chain_noCirc_slots : ∀ (c : Chain), c.noCirc →
    ∀ i t, slotAt c i t ≠ some Slot.circular := by
  intro c
  induction c with
  | nil => intro _ i t; simp [slotAt]
  | cons id recs parent ih =>
      intro h i t
      simp only [slotAt]
      by_cases hi : i = id
      · rw [if_pos hi]; exact recMap_noCirc_slots h.1 t
      · rw [if_neg hi]; exact ih h.2 i t

/-- C10: after every top-level `get` call that completes — returning a value
or throwing an error of either kind, never by exhaustion of the embedding's
technical recursion bound — no record reachable in the resulting chain is
left in the in-progress `CIRCULAR` state, provided none was in that state
before the call: the in-progress marker never outlives the top-level call
that set it. -/
theorem claim_C10 : ∀ (env : Env) (fuel : Nat) (c : Chain) (token : Tok)
    (nfv : NFV) (o : Out Val) (c' : Chain) (tr : List Ev),
    injGet env fuel c token nfv = (o, c', tr) → o ≠ .fuelOut → c.noCirc →
    ∀ i t, slotAt c' i t ≠ some Slot.circular :=
  fun env fuel c token nfv o c' tr h hno hnc i t hcirc =>
    chain_noCirc_slots c hnc i t
      (((circPost env fuel).1 c token nfv o c' tr h hno).1 i t hcirc)

/-- C10, witness: a direct two-token cycle; the top-level `get` throws (so
the outcome is an error, not fuel exhaustion) and the resulting chain has
no `CIRCULAR` slot anywhere. -/
theorem claim_C10_witness :
    ∃ o c' tr,
      injGet envW 12
        (Chain.cons 0
          [(Tok.itok 3, ⟨Fn.user 0, false, [⟨Tok.itok 4, defaultOpts⟩], Slot.empty⟩),
           (Tok.itok 4, ⟨Fn.user 0, false, [⟨Tok.itok 3, defaultOpts⟩], Slot.empty⟩)]
          .nil)
        (Tok.itok 3) .throwSent = (o, c', tr) ∧
      o ≠ Out.fuelOut ∧ ∀ i t, slotAt c' i t ≠ some Slot.circular := by
  have hk : errKindOf (injGet envW 12
      (Chain.cons 0
        [(Tok.itok 3, ⟨Fn.user 0, false, [⟨Tok.itok 4, defaultOpts⟩], Slot.empty⟩),
         (Tok.itok 4, ⟨Fn.user 0, false, [⟨Tok.itok 3, defaultOpts⟩], Slot.empty⟩)]
        .nil)
      (Tok.itok 3) .throwSent).1 = some ErrKind.circular := by decide
  rcases h : injGet envW 12
      (Chain.cons 0
        [(Tok.itok 3, ⟨Fn.user 0, false, [⟨Tok.itok 4, defaultOpts⟩], Slot.empty⟩),
         (Tok.itok 4, ⟨Fn.user 0, false, [⟨Tok.itok 3, defaultOpts⟩], Slot.empty⟩)]
        .nil)
      (Tok.itok 3) .throwSent with ⟨o, c', tr⟩
  rw [h] at hk
  have hk2 : errKindOf o = some ErrKind.circular := hk
  have hno : o ≠ Out.fuelOut := by
    intro hfo
    rw [hfo] at hk2
    simp [errKindOf] at hk2
  exact ⟨o, c', tr, rfl, hno,
    claim_C10 envW 12
      (Chain.cons 0
        [(Tok.itok 3, ⟨Fn.user 0, false, [⟨Tok.itok 4, defaultOpts⟩], Slot.empty⟩),
         (Tok.itok 4, ⟨Fn.user 0, false, [⟨Tok.itok 3, defaultOpts⟩], Slot.empty⟩)]
        .nil)
      (Tok.itok 3) .throwSent o c' tr h hno (by decide)⟩

/-- C2: for the canonical direct dependency cycle (token `A`'s unresolved
record depends on `B`, whose unresolved record depends back on `A`),
`get(A)` throws an error of kind `CircularDependencyError`, and the failed
attempt resets every in-progress `CIRCULAR` slot back to `EMPTY`
(Unresolved): the resulting chain is exactly the original chain, with the
slots of both `A` and `B` again Unresolved.  Consequently a subsequent get
of any token whose record is unresolved with no dependencies — in
particular one unrelated to the cycle — still succeeds on that same chain,
resolving and caching its value (no record is permanently wedged). -/
theorem claim_C2 :
    (∀ (env : Env) (fuel id : Nat) (recs : RecMap) (parent : Chain)
       (A B : Tok) (nfv : NFV) (rA rB : Record),
       rget recs A = some rA → rA.value = .empty →
       rA.deps = [⟨B, defaultOpts⟩] →
       rget recs B = some rB → rB.value = .empty →
       rB.deps = [⟨A, defaultOpts⟩] →
       A ≠ B →
       ∃ e, injGet env (fuel + 9) (.cons id recs parent) A nfv =
           (.err e, .cons id recs parent, []) ∧
         e.kind = ErrKind.circular ∧
         slotOf recs A = some Slot.empty ∧ slotOf recs B = some Slot.empty)
  ∧ (∀ (env : Env) (fuel id : Nat) (recs : RecMap) (parent : Chain)
       (C : Tok) (nfv : NFV) (rC : Record),
       rget recs C = some rC → rC.value = .empty → rC.deps = [] →
       injGet env (fuel + 4) (.cons id recs parent) C nfv =
         (.ok (applyFn env rC.fn []),
          .cons id (setSlot (setSlot recs C Slot.circular) C
            (.val (applyFn env rC.fn []))) parent,
          [(id, C)])) := by
  constructor
  · intro env fuel id recs parent A B nfv rA rB hA hvA hdA hB hvB hdB hAB
    have hS1B : rget (setSlot recs A Slot.circular) B = some rB := by
      rw [rget_setSlot_ne recs A B Slot.circular (Ne.symm hAB), hB]
    have hS2A : rget (setSlot (setSlot recs A Slot.circular) B Slot.circular) A =
        some { rA with value := Slot.circular } := by
      rw [rget_setSlot_ne (setSlot recs A Slot.circular) B A Slot.circular hAB]
      exact rget_setSlot_self recs A Slot.circular rA hA
    have hreset1 : resetIfCircular (some { rA with value := Slot.circular })
        (setSlot (setSlot recs A Slot.circular) B Slot.circular) A =
        setSlot (setSlot (setSlot recs A Slot.circular) B Slot.circular) A
          Slot.empty := by
      simp [resetIfCircular, slotOf, hS2A]
    have hS3B : rget (setSlot (setSlot (setSlot recs A Slot.circular) B
        Slot.circular) A Slot.empty) B = some { rB with value := Slot.circular } := by
      rw [rget_setSlot_ne (setSlot (setSlot recs A Slot.circular) B Slot.circular)
        A B Slot.empty (Ne.symm hAB)]
      exact rget_setSlot_self (setSlot recs A Slot.circular) B Slot.circular rB hS1B
    have hreset2 : resetIfCircular (some rB)
        (setSlot (setSlot (setSlot recs A Slot.circular) B Slot.circular) A
          Slot.empty) B =
        setSlot (setSlot (setSlot (setSlot recs A Slot.circular) B Slot.circular)
          A Slot.empty) B Slot.empty := by
      simp [resetIfCircular, slotOf, hS3B]
    have hS4A : rget (setSlot (setSlot (setSlot (setSlot recs A Slot.circular) B
        Slot.circular) A Slot.empty) B Slot.empty) A =
        some { rA with value := Slot.empty } := by
      rw [rget_setSlot_ne (setSlot (setSlot (setSlot recs A Slot.circular) B
        Slot.circular) A Slot.empty) B A Slot.empty hAB]
      exact rget_setSlot_self (setSlot (setSlot recs A Slot.circular) B
        Slot.circular) A Slot.empty { rA with value := Slot.circular } hS2A
    have hreset3 : resetIfCircular (some rA)
        (setSlot (setSlot (setSlot (setSlot recs A Slot.circular) B Slot.circular)
          A Slot.empty) B Slot.empty) A =
        setSlot (setSlot (setSlot (setSlot recs A Slot.circular) B Slot.circular)
          A Slot.empty) B Slot.empty := by
      simp [resetIfCircular, slotOf, hS4A]
    have e1 : setSlot (setSlot recs A Slot.circular) A Slot.empty = recs := by
      rw [setSlot_setSlot, ← hvA]
      exact setSlot_same recs A rA hA
    have e2 : setSlot (setSlot (setSlot recs A Slot.circular) B Slot.circular) A
        Slot.empty = setSlot recs B Slot.circular := by
      rw [setSlot_comm (setSlot recs A Slot.circular) B A Slot.circular Slot.empty
        (Ne.symm hAB), e1]
    have e3 : setSlot (setSlot (setSlot (setSlot recs A Slot.circular) B
        Slot.circular) A Slot.empty) B Slot.empty = recs := by
      rw [e2, setSlot_setSlot, ← hvB]
      exact setSlot_same recs B rB hB
    have h1 : resolveToken env (fuel + 1) id A
        (some { rA with value := Slot.circular })
        (setSlot (setSlot recs A Slot.circular) B Slot.circular) parent
        .throwSent =
        (.err circularError,
         setSlot (setSlot recs A Slot.circular) B Slot.circular, parent, []) :=
      resolveToken_circ rfl
    have h2 : tryResolveToken env (fuel + 2) id A
        (some { rA with value := Slot.circular })
        (setSlot (setSlot recs A Slot.circular) B Slot.circular) parent
        .throwSent =
        (.err (pushPath A circularError),
         setSlot (setSlot (setSlot recs A Slot.circular) B Slot.circular) A
           Slot.empty, parent, []) := by
      have h2a := tryResolveToken_err h1
      rw [hreset1] at h2a
      exact h2a
    have htry1 : tryResolveToken env (fuel + 2) id A
        (depRec (setSlot (setSlot recs A Slot.circular) B Slot.circular)
          ⟨A, defaultOpts⟩)
        (setSlot (setSlot recs A Slot.circular) B Slot.circular)
        (if depToNull (setSlot (setSlot recs A Slot.circular) B Slot.circular)
          ⟨A, defaultOpts⟩ then Chain.nil else parent)
        (depNfv ⟨A, defaultOpts⟩) =
        (.err (pushPath A circularError),
         setSlot (setSlot (setSlot recs A Slot.circular) B Slot.circular) A
           Slot.empty, parent, []) := by
      have hdr : depRec (setSlot (setSlot recs A Slot.circular) B Slot.circular)
          ⟨A, defaultOpts⟩ = some { rA with value := Slot.circular } := by
        simp [depRec, defaultOpts, hS2A]
      have hdt : depToNull (setSlot (setSlot recs A Slot.circular) B Slot.circular)
          ⟨A, defaultOpts⟩ = false := by
        simp [depToNull, hdr]
      rw [hdr, hdt]
      simpa [depNfv, defaultOpts] using h2
    have h3 : resolveDeps env (fuel + 3) id [(⟨A, defaultOpts⟩ : DepRec)]
        (setSlot (setSlot recs A Slot.circular) B Slot.circular) parent =
        (.err (pushPath A circularError),
         setSlot (setSlot (setSlot recs A Slot.circular) B Slot.circular) A
           Slot.empty,
         if depToNull (setSlot (setSlot recs A Slot.circular) B Slot.circular)
           ⟨A, defaultOpts⟩ then parent else parent, []) :=
      resolveDeps_cons_err htry1
    rw [ite_self] at h3
    have h4 : resolveToken env (fuel + 4) id B (some rB)
        (setSlot recs A Slot.circular) parent .throwSent =
        (.err (pushPath A circularError),
         setSlot (setSlot (setSlot recs A Slot.circular) B Slot.circular) A
           Slot.empty, parent, []) :=
      resolveToken_empty_err hvB (by rw [hdB]; exact h3)
    have h5 : tryResolveToken env (fuel + 5) id B (some rB)
        (setSlot recs A Slot.circular) parent .throwSent =
        (.err (pushPath B (pushPath A circularError)),
         setSlot (setSlot (setSlot (setSlot recs A Slot.circular) B Slot.circular)
           A Slot.empty) B Slot.empty, parent, []) := by
      have h5a := tryResolveToken_err h4
      rw [hreset2] at h5a
      exact h5a
    have htry2 : tryResolveToken env (fuel + 5) id B
        (depRec (setSlot recs A Slot.circular) ⟨B, defaultOpts⟩)
        (setSlot recs A Slot.circular)
        (if depToNull (setSlot recs A Slot.circular) ⟨B, defaultOpts⟩ then
          Chain.nil else parent)
        (depNfv ⟨B, defaultOpts⟩) =
        (.err (pushPath B (pushPath A circularError)),
         setSlot (setSlot (setSlot (setSlot recs A Slot.circular) B Slot.circular)
           A Slot.empty) B Slot.empty, parent, []) := by
      have hdr : depRec (setSlot recs A Slot.circular) ⟨B, defaultOpts⟩ =
          some rB := by
        simp [depRec, defaultOpts, hS1B]
      have hdt : depToNull (setSlot recs A Slot.circular) ⟨B, defaultOpts⟩ =
          false := by
        simp [depToNull, hdr]
      rw [hdr, hdt]
      simpa [depNfv, defaultOpts] using h5
    have h6 : resolveDeps env (fuel + 6) id [(⟨B, defaultOpts⟩ : DepRec)]
        (setSlot recs A Slot.circular) parent =
        (.err (pushPath B (pushPath A circularError)),
         setSlot (setSlot (setSlot (setSlot recs A Slot.circular) B Slot.circular)
           A Slot.empty) B Slot.empty,
         if depToNull (setSlot recs A Slot.circular) ⟨B, defaultOpts⟩ then parent
           else parent, []) :=
      resolveDeps_cons_err htry2
    rw [ite_self] at h6
    have h7 : resolveToken env (fuel + 7) id A (some rA) recs parent nfv =
        (.err (pushPath B (pushPath A circularError)),
         setSlot (setSlot (setSlot (setSlot recs A Slot.circular) B Slot.circular)
           A Slot.empty) B Slot.empty, parent, []) :=
      resolveToken_empty_err hvA (by rw [hdA]; exact h6)
    have h8 : tryResolveToken env (fuel + 8) id A (some rA) recs parent nfv =
        (.err (pushPath A (pushPath B (pushPath A circularError))), recs,
         parent, []) := by
      have h8a := tryResolveToken_err h7
      rw [hreset3, e3] at h8a
      exact h8a
    have h9 : injGet env (fuel + 9) (.cons id recs parent) A nfv =
        (.err (decorateErr (pushPath A (pushPath B (pushPath A circularError)))),
         .cons id recs parent, []) :=
      injGet_cons_err (by rw [hA]; exact h8)
    exact ⟨decorateErr (pushPath A (pushPath B (pushPath A circularError))), h9,
      rfl, by simp [slotOf, hA, hvA], by simp [slotOf, hB, hvB]⟩
  · intro env fuel id recs parent C nfv rC hC hvC hdC
    have hnil : resolveDeps env (fuel + 1) id rC.deps
        (setSlot recs C Slot.circular) parent =
        (.ok [], setSlot recs C Slot.circular, parent, []) := by
      rw [hdC]
      exact resolveDeps_nil env fuel id (setSlot recs C Slot.circular) parent
    have h1 : resolveToken env (fuel + 2) id C (some rC) recs parent nfv =
        (.ok (applyFn env rC.fn []),
         setSlot (setSlot recs C Slot.circular) C (.val (applyFn env rC.fn [])),
         parent, [(id, C)]) := by
      have h1a : resolveToken env (fuel + 2) id C (some rC) recs parent nfv =
          (.ok (applyFn env rC.fn []),
           setSlot (setSlot recs C Slot.circular) C (.val (applyFn env rC.fn [])),
           parent, [] ++ [(id, C)]) :=
        resolveToken_empty_ok hvC hnil
      rw [List.nil_append] at h1a
      exact h1a
    have h2 : tryResolveToken env (fuel + 3) id C (some rC) recs parent nfv =
        (.ok (applyFn env rC.fn []),
         setSlot (setSlot recs C Slot.circular) C (.val (applyFn env rC.fn [])),
         parent, [(id, C)]) :=
      tryResolveToken_ok h1
    exact injGet_cons_ok (by rw [hC]; exact h2)

/-- C2, witness: the cycle `itok 3 ↔ itok 4` on a three-record table; the
failed `get(itok 3)` throws a circular error leaving the chain unchanged,
and the subsequent unrelated `get(itok 5)` on the same chain succeeds. -/
theorem claim_C2_witness :
    (∃ e, injGet envW 9
        (Chain.cons 0
          [(Tok.itok 3, ⟨Fn.user 0, false, [⟨Tok.itok 4, defaultOpts⟩], Slot.empty⟩),
           (Tok.itok 4, ⟨Fn.user 0, false, [⟨Tok.itok 3, defaultOpts⟩], Slot.empty⟩),
           (Tok.itok 5, ⟨Fn.user 7, false, [], Slot.empty⟩)] .nil)
        (Tok.itok 3) .throwSent =
        (.err e,
         Chain.cons 0
          [(Tok.itok 3, ⟨Fn.user 0, false, [⟨Tok.itok 4, defaultOpts⟩], Slot.empty⟩),
           (Tok.itok 4, ⟨Fn.user 0, false, [⟨Tok.itok 3, defaultOpts⟩], Slot.empty⟩),
           (Tok.itok 5, ⟨Fn.user 7, false, [], Slot.empty⟩)] .nil, []) ∧
      e.kind = ErrKind.circular ∧
      slotOf
        [(Tok.itok 3, ⟨Fn.user 0, false, [⟨Tok.itok 4, defaultOpts⟩], Slot.empty⟩),
         (Tok.itok 4, ⟨Fn.user 0, false, [⟨Tok.itok 3, defaultOpts⟩], Slot.empty⟩),
         (Tok.itok 5, ⟨Fn.user 7, false, [], Slot.empty⟩)]
        (Tok.itok 3) = some Slot.empty ∧
      slotOf
        [(Tok.itok 3, ⟨Fn.user 0, false, [⟨Tok.itok 4, defaultOpts⟩], Slot.empty⟩),
         (Tok.itok 4, ⟨Fn.user 0, false, [⟨Tok.itok 3, defaultOpts⟩], Slot.empty⟩),
         (Tok.itok 5, ⟨Fn.user 7, false, [], Slot.empty⟩)]
        (Tok.itok 4) = some Slot.empty)
  ∧ injGet envW 4
      (Chain.cons 0
        [(Tok.itok 3, ⟨Fn.user 0, false, [⟨Tok.itok 4, defaultOpts⟩], Slot.empty⟩),
         (Tok.itok 4, ⟨Fn.user 0, false, [⟨Tok.itok 3, defaultOpts⟩], Slot.empty⟩),
         (Tok.itok 5, ⟨Fn.user 7, false, [], Slot.empty⟩)] .nil)
      (Tok.itok 5) .throwSent =
      (.ok (applyFn envW (Fn.user 7) []),
       Chain.cons 0
        (setSlot
          (setSlot
            [(Tok.itok 3, ⟨Fn.user 0, false, [⟨Tok.itok 4, defaultOpts⟩], Slot.empty⟩),
             (Tok.itok 4, ⟨Fn.user 0, false, [⟨Tok.itok 3, defaultOpts⟩], Slot.empty⟩),
             (Tok.itok 5, ⟨Fn.user 7, false, [], Slot.empty⟩)]
            (Tok.itok 5) Slot.circular)
          (Tok.itok 5) (.val (applyFn envW (Fn.user 7) []))) .nil,
       [(0, Tok.itok 5)]) :=
  ⟨claim_C2.1 envW 0 0
     [(Tok.itok 3, ⟨Fn.user 0, false, [⟨Tok.itok 4, defaultOpts⟩], Slot.empty⟩),
      (Tok.itok 4, ⟨Fn.user 0, false, [⟨Tok.itok 3, defaultOpts⟩], Slot.empty⟩),
      (Tok.itok 5, ⟨Fn.user 7, false, [], Slot.empty⟩)] .nil
     (Tok.itok 3) (Tok.itok 4) .throwSent
     ⟨Fn.user 0, false, [⟨Tok.itok 4, defaultOpts⟩], Slot.empty⟩
     ⟨Fn.user 0, false, [⟨Tok.itok 3, defaultOpts⟩], Slot.empty⟩
     (by decide) rfl rfl (by decide) rfl rfl (by decide),
   claim_C2.2 envW 0 0
     [(Tok.itok 3, ⟨Fn.user 0, false, [⟨Tok.itok 4, defaultOpts⟩], Slot.empty⟩),
      (Tok.itok 4, ⟨Fn.user 0, false, [⟨Tok.itok 3, defaultOpts⟩], Slot.empty⟩),
      (Tok.itok 5, ⟨Fn.user 7, false, [], Slot.empty⟩)] .nil
     (Tok.itok 5) .throwSent
     ⟨Fn.user 7, false, [], Slot.empty⟩ (by decide) rfl rfl⟩

theorem wf_cons_elim {id : Nat} {recs : RecMap} {parent : Chain}
    (h : (Chain.cons id recs parent).wf = true) :
    id ∉ parent.ids ∧ parent.wf = true := by
  simp only [Chain.wf, Bool.and_eq_true, Bool.not_eq_true'] at h
  refine ⟨?_, h.2⟩
  have h1 := h.1
  simp at h1
  exact h1

theorem wf_cons_intro {id : Nat} {recs : RecMap} {parent : Chain}
    (h1 : id ∉ parent.ids) (h2 : parent.wf = true) :
    (Chain.cons id recs parent).wf = true := by
  simp only [Chain.wf]
  simp [h1, h2]

theorem wf_cons_congr {id : Nat} {recs recs' : RecMap} {parent parent' : Chain}
    (hids : parent'.ids = parent.ids) (hwf : parent'.wf = parent.wf) :
    (Chain.cons id recs' parent').wf = (Chain.cons id recs parent).wf := by
  simp only [Chain.wf, hids, hwf]

theorem ids_cons (id : Nat) (recs : RecMap) (parent : Chain) :
    (Chain.cons id recs parent).ids = id :: parent.ids := rfl

theorem err_not_ok {α : Type} {e : JsError} {v₀ : α} {P : Prop}
    (h : (Out.err e : Out α) = Out.ok v₀) : P := by cases h

theorem fuelOut_not_ok {α : Type} {v₀ : α} {P : Prop}
    (h : (Out.fuelOut : Out α) = Out.ok v₀) : P := by cases h

/-- State transport through the resolution engine, by mutual induction over
the interpreter:

* a slot holding a resolved value keeps that exact value through any call
  (resolved values are never overwritten or reset);
* on a normal return, a slot that ends Unresolved (`EMPTY`) was already
  Unresolved before the call (errors are the only source of resets);
* the injector identities of the threaded parent chain, its
  well-formedness, and the key set of the record map are all preserved. -/
theorem statePost (env : Env) : ∀ fuel : Nat,
    (∀ c token nfv o c' tr, injGet env fuel c token nfv = (o, c', tr) →
      (∀ i t v, slotAt c i t = some (.val v) → slotAt c' i t = some (.val v)) ∧
      (∀ v₀, o = .ok v₀ → ∀ i t, slotAt c' i t = some .empty →
        slotAt c i t = some .empty) ∧
      c'.ids = c.ids ∧ c'.wf = c.wf)
  ∧ (∀ selfId token rec? recs parent nfv o recs' parent' tr,
      RecOk recs token rec? →
      resolveToken env fuel selfId token rec? recs parent nfv =
        (o, recs', parent', tr) →
      (∀ i t v, slotE selfId recs parent i t = some (.val v) →
        slotE selfId recs' parent' i t = some (.val v)) ∧
      (∀ v₀, o = .ok v₀ → ∀ i t, slotE selfId recs' parent' i t = some .empty →
        slotE selfId recs parent i t = some .empty) ∧
      parent'.ids = parent.ids ∧ parent'.wf = parent.wf ∧
      (∀ t, (rget recs' t).isSome = (rget recs t).isSome))
  ∧ (∀ selfId token rec? recs parent nfv o recs' parent' tr,
      RecOk recs token rec? →
      tryResolveToken env fuel selfId token rec? recs parent nfv =
        (o, recs', parent', tr) →
      (∀ i t v, slotE selfId recs parent i t = some (.val v) →
        slotE selfId recs' parent' i t = some (.val v)) ∧
      (∀ v₀, o = .ok v₀ → ∀ i t, slotE selfId recs' parent' i t = some .empty →
        slotE selfId recs parent i t = some .empty) ∧
      parent'.ids = parent.ids ∧ parent'.wf = parent.wf ∧
      (∀ t, (rget recs' t).isSome = (rget recs t).isSome))
  ∧ (∀ selfId ds recs parent o recs' parent' tr,
      resolveDeps env fuel selfId ds recs parent = (o, recs', parent', tr) →
      (∀ i t v, slotE selfId recs parent i t = some (.val v) →
        slotE selfId recs' parent' i t = some (.val v)) ∧
      (∀ vs₀, o = .ok vs₀ → ∀ i t, slotE selfId recs' parent' i t = some .empty →
        slotE selfId recs parent i t = some .empty) ∧
      parent'.ids = parent.ids ∧ parent'.wf = parent.wf ∧
      (∀ t, (rget recs' t).isSome = (rget recs t).isSome)) := by
  intro fuel
  induction fuel with
  | zero =>
      refine ⟨?_, ?_, ?_, ?_⟩
      · intro c token nfv o c' tr h
        rw [injGet_zero] at h
        obtain ⟨-, hc, -⟩ : o = Out.fuelOut ∧ c' = c ∧ tr = [] := by
          simpa [Prod.ext_iff] using h.symm
        subst hc
        exact ⟨fun i t v hh => hh, fun v₀ _ i t hh => hh, rfl, rfl⟩
      · intro selfId token rec? recs parent nfv o recs' parent' tr _ h
        rw [resolveToken_zero] at h
        obtain ⟨-, hr, hp, -⟩ : o = Out.fuelOut ∧ recs' = recs ∧
            parent' = parent ∧ tr = [] := by
          simpa [Prod.ext_iff] using h.symm
        subst hr; subst hp
        exact ⟨fun i t v hh => hh, fun v₀ _ i t hh => hh, rfl, rfl, fun t => rfl⟩
      · intro selfId token rec? recs parent nfv o recs' parent' tr _ h
        rw [tryResolveToken_zero] at h
        obtain ⟨-, hr, hp, -⟩ : o = Out.fuelOut ∧ recs' = recs ∧
            parent' = parent ∧ tr = [] := by
          simpa [Prod.ext_iff] using h.symm
        subst hr; subst hp
        exact ⟨fun i t v hh => hh, fun v₀ _ i t hh => hh, rfl, rfl, fun t => rfl⟩
      · intro selfId ds recs parent o recs' parent' tr h
        rw [resolveDeps_zero] at h
        obtain ⟨-, hr, hp, -⟩ : o = Out.fuelOut ∧ recs' = recs ∧
            parent' = parent ∧ tr = [] := by
          simpa [Prod.ext_iff] using h.symm
        subst hr; subst hp
        exact ⟨fun i t v hh => hh, fun v₀ _ i t hh => hh, rfl, rfl, fun t => rfl⟩
  | succ fuel ih =>
      obtain ⟨ihG, ihR, ihT, ihD⟩ := ih
      refine ⟨?_, ?_, ?_, ?_⟩
      -- injGet
      · intro c token nfv o c' tr h
        cases c with
        | nil =>
            rw [injGet_nil] at h
            obtain ⟨-, hc, -⟩ : o = nullInjectorGet token nfv ∧ c' = Chain.nil ∧
                tr = [] := by
              simpa [Prod.ext_iff] using h.symm
            subst hc
            exact ⟨fun i t v hh => hh, fun v₀ _ i t hh => hh, rfl, rfl⟩
        | cons id recs parent =>
            rcases ht : tryResolveToken env fuel id token (rget recs token) recs
              parent nfv with ⟨o₀, recs₁, par₁, tr₁⟩
            obtain ⟨hVS, hD, hids, hwf, -⟩ := ihT id token (rget recs token) recs
              parent nfv o₀ recs₁ par₁ tr₁ (recOk_rget recs token) ht
            have hS : (Chain.cons id recs₁ par₁).ids =
                (Chain.cons id recs parent).ids ∧
                (Chain.cons id recs₁ par₁).wf = (Chain.cons id recs parent).wf := by
              constructor
              · simp only [Chain.ids, hids]
              · exact wf_cons_congr hids hwf
            cases o₀ with
            | ok v =>
                rw [injGet_cons_ok ht] at h
                obtain ⟨ho, hc, -⟩ : o = Out.ok v ∧ c' = Chain.cons id recs₁ par₁ ∧
                    tr = tr₁ := by
                  simpa [Prod.ext_iff] using h.symm
                subst ho; subst hc
                refine ⟨?_, ?_, hS.1, hS.2⟩
                · intro i t v' hh
                  rw [slotAt_cons] at hh ⊢
                  exact hVS i t v' hh
                · intro v₀ hv i t hh
                  rw [slotAt_cons] at hh ⊢
                  injection hv with hv
                  exact hD v rfl i t hh
            | err e =>
                rw [injGet_cons_err ht] at h
                obtain ⟨ho, hc, -⟩ : o = Out.err (decorateErr e) ∧
                    c' = Chain.cons id recs₁ par₁ ∧ tr = tr₁ := by
                  simpa [Prod.ext_iff] using h.symm
                subst ho; subst hc
                refine ⟨?_, fun v₀ hv => err_not_ok hv, hS.1, hS.2⟩
                intro i t v' hh
                rw [slotAt_cons] at hh ⊢
                exact hVS i t v' hh
            | fuelOut =>
                rw [injGet_cons_fuelOut ht] at h
                obtain ⟨ho, hc, -⟩ : o = Out.fuelOut ∧
                    c' = Chain.cons id recs₁ par₁ ∧ tr = tr₁ := by
                  simpa [Prod.ext_iff] using h.symm
                subst ho; subst hc
                refine ⟨?_, fun v₀ hv => fuelOut_not_ok hv, hS.1, hS.2⟩
                intro i t v' hh
                rw [slotAt_cons] at hh ⊢
                exact hVS i t v' hh
      -- resolveToken
      · intro selfId token rec? recs parent nfv o recs' parent' tr hrok h
        cases rec? with
        | none =>
            rcases hg : injGet env fuel parent token nfv with ⟨o₀, par₀, tr₀⟩
            rw [resolveToken_none hg] at h
            obtain ⟨ho, hr, hp, -⟩ : o = o₀ ∧ recs' = recs ∧ parent' = par₀ ∧
                tr = tr₀ := by
              simpa [Prod.ext_iff] using h.symm
            subst ho; subst hr; subst hp
            obtain ⟨hVS, hD, hids, hwf⟩ := ihG parent token nfv o parent' tr₀ hg
            refine ⟨?_, ?_, hids, hwf, fun t => rfl⟩
            · intro i t v hh
              by_cases hi : i = selfId
              · rw [hi] at hh ⊢
                rw [slotE_self] at hh ⊢
                exact hh
              · rw [slotE_other hi] at hh ⊢
                exact hVS i t v hh
            · intro v₀ hv i t hh
              by_cases hi : i = selfId
              · rw [hi] at hh ⊢
                rw [slotE_self] at hh ⊢
                exact hh
              · rw [slotE_other hi] at hh ⊢
                exact hD v₀ hv i t hh
        | some record =>
            have hrec : rget recs token = some record := hrok record rfl
            rcases hval : record.value with _ | _ | v
            -- empty
            · have hse : slotOf recs token = some Slot.empty := by
                simp [slotOf, hrec, hval]
              rcases hd : resolveDeps env fuel selfId record.deps
                (setSlot recs token .circular) parent with ⟨o₂, recs₂, par₂, trd⟩
              obtain ⟨hVS, hD, hids, hwf, hK⟩ := ihD selfId record.deps
                (setSlot recs token .circular) parent o₂ recs₂ par₂ trd hd
              have hKfull : ∀ t, (rget recs₂ t).isSome = (rget recs t).isSome := by
                intro t
                rw [hK t, isSome_rget_setSlot]
              cases o₂ with
              | ok args =>
                  rw [resolveToken_empty_ok hval hd] at h
                  obtain ⟨ho, hr, hp, -⟩ : o = Out.ok (applyFn env record.fn args) ∧
                      recs' = setSlot recs₂ token
                        (.val (applyFn env record.fn args)) ∧
                      parent' = par₂ ∧ tr = trd ++ [(selfId, token)] := by
                    simpa [Prod.ext_iff] using h.symm
                  subst ho; subst hr; subst hp
                  refine ⟨?_, ?_, hids, hwf, ?_⟩
                  · intro i t v hh
                    by_cases hi : i = selfId
                    · rw [hi] at hh ⊢
                      rw [slotE_self] at hh ⊢
                      by_cases htk : t = token
                      · rw [htk, hse] at hh
                        simp at hh
                      · rw [slotOf_setSlot_ne _ _ _ _ htk]
                        have h1 : slotE selfId (setSlot recs token .circular)
                            parent selfId t = some (.val v) := by
                          rw [slotE_self, slotOf_setSlot_ne _ _ _ _ htk]
                          exact hh
                        have h2 := hVS selfId t v h1
                        rwa [slotE_self] at h2
                    · rw [slotE_other hi] at hh ⊢
                      have h1 : slotE selfId (setSlot recs token .circular)
                          parent i t = some (.val v) := by
                        rw [slotE_other hi]
                        exact hh
                      have h2 := hVS i t v h1
                      rwa [slotE_other hi] at h2
                  · intro v₀ hv i t hh
                    by_cases hi : i = selfId
                    · rw [hi] at hh ⊢
                      rw [slotE_self] at hh ⊢
                      by_cases htk : t = token
                      · rw [htk] at hh
                        rcases hg2 : rget recs₂ token with _ | r2
                        · rw [setSlot_of_rget_none recs₂ token _ hg2] at hh
                          simp [slotOf, hg2] at hh
                        · rw [slotOf_setSlot_self recs₂ token _ r2 hg2] at hh
                          simp at hh
                      · rw [slotOf_setSlot_ne _ _ _ _ htk] at hh
                        have h2 := hD args rfl selfId t
                          (by rw [slotE_self]; exact hh)
                        rw [slotE_self, slotOf_setSlot_ne _ _ _ _ htk] at h2
                        exact h2
                    · rw [slotE_other hi] at hh ⊢
                      have h2 := hD args rfl i t
                        (by rw [slotE_other hi]; exact hh)
                      rwa [slotE_other hi] at h2
                  · intro t
                    rw [isSome_rget_setSlot, hKfull t]
              | err e =>
                  rw [resolveToken_empty_err hval hd] at h
                  obtain ⟨ho, hr, hp, -⟩ : o = Out.err e ∧ recs' = recs₂ ∧
                      parent' = par₂ ∧ tr = trd := by
                    simpa [Prod.ext_iff] using h.symm
                  subst ho; subst hr; subst hp
                  refine ⟨?_, fun v₀ hv => err_not_ok hv, hids, hwf, hKfull⟩
                  intro i t v hh
                  by_cases hi : i = selfId
                  · rw [hi] at hh ⊢
                    rw [slotE_self] at hh ⊢
                    by_cases htk : t = token
                    · rw [htk, hse] at hh
                      simp at hh
                    · have h1 : slotE selfId (setSlot recs token .circular)
                          parent selfId t = some (.val v) := by
                        rw [slotE_self, slotOf_setSlot_ne _ _ _ _ htk]
                        exact hh
                      have h2 := hVS selfId t v h1
                      rwa [slotE_self] at h2
                  · rw [slotE_other hi] at hh ⊢
                    have h1 : slotE selfId (setSlot recs token .circular)
                        parent i t = some (.val v) := by
                      rw [slotE_other hi]
                      exact hh
                    have h2 := hVS i t v h1
                    rwa [slotE_other hi] at h2
              | fuelOut =>
                  rw [resolveToken_empty_fuelOut hval hd] at h
                  obtain ⟨ho, hr, hp, -⟩ : o = Out.fuelOut ∧ recs' = recs₂ ∧
                      parent' = par₂ ∧ tr = trd := by
                    simpa [Prod.ext_iff] using h.symm
                  subst ho; subst hr; subst hp
                  refine ⟨?_, fun v₀ hv => fuelOut_not_ok hv, hids, hwf, hKfull⟩
                  intro i t v hh
                  by_cases hi : i = selfId
                  · rw [hi] at hh ⊢
                    rw [slotE_self] at hh ⊢
                    by_cases htk : t = token
                    · rw [htk, hse] at hh
                      simp at hh
                    · have h1 : slotE selfId (setSlot recs token .circular)
                          parent selfId t = some (.val v) := by
                        rw [slotE_self, slotOf_setSlot_ne _ _ _ _ htk]
                        exact hh
                      have h2 := hVS selfId t v h1
                      rwa [slotE_self] at h2
                  · rw [slotE_other hi] at hh ⊢
                    have h1 : slotE selfId (setSlot recs token .circular)
                        parent i t = some (.val v) := by
                      rw [slotE_other hi]
                      exact hh
                    have h2 := hVS i t v h1
                    rwa [slotE_other hi] at h2
            -- circular
            · rw [resolveToken_circ hval] at h
              obtain ⟨ho, hr, hp, -⟩ : o = Out.err circularError ∧ recs' = recs ∧
                  parent' = parent ∧ tr = [] := by
                simpa [Prod.ext_iff] using h.symm
              subst ho; subst hr; subst hp
              exact ⟨fun i t v hh => hh, fun v₀ hv => err_not_ok hv, rfl, rfl,
                fun t => rfl⟩
            -- val
            · rw [resolveToken_val hval] at h
              obtain ⟨ho, hr, hp, -⟩ : o = Out.ok v ∧ recs' = recs ∧
                  parent' = parent ∧ tr = [] := by
                simpa [Prod.ext_iff] using h.symm
              subst ho; subst hr; subst hp
              exact ⟨fun i t v' hh => hh, fun v₀ _ i t hh => hh, rfl, rfl,
                fun t => rfl⟩
      -- tryResolveToken
      · intro selfId token rec? recs parent nfv o recs' parent' tr hrok h
        rcases hr : resolveToken env fuel selfId token rec? recs parent nfv
          with ⟨o₀, recs₀, par₀, tr₀⟩
        obtain ⟨hVS, hD, hids, hwf, hK⟩ := ihR selfId token rec? recs parent nfv
          o₀ recs₀ par₀ tr₀ hrok hr
        cases o₀ with
        | ok v =>
            rw [tryResolveToken_ok hr] at h
            obtain ⟨ho, hrr, hp, -⟩ : o = Out.ok v ∧ recs' = recs₀ ∧
                parent' = par₀ ∧ tr = tr₀ := by
              simpa [Prod.ext_iff] using h.symm
            subst ho; subst hrr; subst hp
            refine ⟨hVS, ?_, hids, hwf, hK⟩
            intro v₀ hv i t hh
            injection hv with hv
            exact hD v rfl i t hh
        | err e =>
            rw [tryResolveToken_err hr] at h
            obtain ⟨ho, hrr, hp, -⟩ : o = Out.err (pushPath token e) ∧
                recs' = resetIfCircular rec? recs₀ token ∧
                parent' = par₀ ∧ tr = tr₀ := by
              simpa [Prod.ext_iff] using h.symm
            subst ho; subst hrr; subst hp
            refine ⟨?_, fun v₀ hv => err_not_ok hv, hids, hwf, ?_⟩
            · intro i t v hh
              have h2 := hVS i t v hh
              unfold resetIfCircular
              by_cases hcond : rec?.isSome = true ∧
                  slotOf recs₀ token = some Slot.circular
              · rw [if_pos hcond]
                by_cases hi : i = selfId
                · rw [hi] at h2 ⊢
                  rw [slotE_self] at h2 ⊢
                  by_cases htk : t = token
                  · rw [htk] at h2
                    rw [hcond.2] at h2
                    cases h2
                  · rw [slotOf_setSlot_ne _ _ _ _ htk]
                    exact h2
                · rw [slotE_other hi] at h2 ⊢
                  exact h2
              · rw [if_neg hcond]
                exact h2
            · intro t
              unfold resetIfCircular
              by_cases hcond : rec?.isSome = true ∧
                  slotOf recs₀ token = some Slot.circular
              · rw [if_pos hcond, isSome_rget_setSlot]
                exact hK t
              · rw [if_neg hcond]
                exact hK t
        | fuelOut =>
            rw [tryResolveToken_fuelOut hr] at h
            obtain ⟨ho, hrr, hp, -⟩ : o = Out.fuelOut ∧ recs' = recs₀ ∧
                parent' = par₀ ∧ tr = tr₀ := by
              simpa [Prod.ext_iff] using h.symm
            subst ho; subst hrr; subst hp
            exact ⟨hVS, fun v₀ hv => fuelOut_not_ok hv, hids, hwf, hK⟩
      -- resolveDeps
      · intro selfId ds recs parent o recs' parent' tr h
        cases ds with
        | nil =>
            rw [resolveDeps_nil] at h
            obtain ⟨ho, hr, hp, -⟩ : o = Out.ok [] ∧ recs' = recs ∧
                parent' = parent ∧ tr = [] := by
              simpa [Prod.ext_iff] using h.symm
            subst ho; subst hr; subst hp
            exact ⟨fun i t v hh => hh, fun vs₀ _ i t hh => hh, rfl, rfl,
              fun t => rfl⟩
        | cons d ds =>
            rcases ht : tryResolveToken env fuel selfId d.token (depRec recs d) recs
              (if depToNull recs d then Chain.nil else parent) (depNfv d)
              with ⟨o₀, recs₁, pRet, tr₁⟩
            obtain ⟨hVS0, hD0, hids0, hwf0, hK0⟩ := ihT selfId d.token
              (depRec recs d) recs (if depToNull recs d then Chain.nil else parent)
              (depNfv d) o₀ recs₁ pRet tr₁ (recOk_depRec recs d) ht
            have hlift :
                (∀ i t v, slotE selfId recs parent i t = some (.val v) →
                  slotE selfId recs₁ (if depToNull recs d then parent else pRet)
                    i t = some (.val v)) ∧
                (∀ v₀, o₀ = .ok v₀ → ∀ i t,
                  slotE selfId recs₁ (if depToNull recs d then parent else pRet)
                    i t = some .empty →
                  slotE selfId recs parent i t = some .empty) ∧
                (if depToNull recs d then parent else pRet).ids = parent.ids ∧
                (if depToNull recs d then parent else pRet).wf = parent.wf := by
              by_cases hnull : depToNull recs d = true
              · rw [if_pos hnull] at hVS0 hD0 ⊢
                refine ⟨?_, ?_, rfl, rfl⟩
                · intro i t v hh
                  by_cases hi : i = selfId
                  · rw [hi] at hh ⊢
                    rw [slotE_self] at hh ⊢
                    have h2 := hVS0 selfId t v (by rw [slotE_self]; exact hh)
                    rwa [slotE_self] at h2
                  · rw [slotE_other hi] at hh ⊢
                    exact hh
                · intro v₀ hv i t hh
                  by_cases hi : i = selfId
                  · rw [hi] at hh ⊢
                    rw [slotE_self] at hh ⊢
                    have h2 := hD0 v₀ hv selfId t (by rw [slotE_self]; exact hh)
                    rwa [slotE_self] at h2
                  · rw [slotE_other hi] at hh ⊢
                    exact hh
              · rw [if_neg hnull] at hVS0 hD0 hids0 hwf0 ⊢
                exact ⟨hVS0, hD0, hids0, hwf0⟩
            obtain ⟨hVS1, hD1, hids1, hwf1⟩ := hlift
            cases o₀ with
            | ok v =>
                rcases hrest : resolveDeps env fuel selfId ds recs₁
                  (if depToNull recs d then parent else pRet)
                  with ⟨o₂, recs₂, par₂, tr₂⟩
                obtain ⟨hVS2, hD2, hids2, hwf2, hK2⟩ := ihD selfId ds recs₁
                  (if depToNull recs d then parent else pRet) o₂ recs₂ par₂ tr₂
                  hrest
                have hidsC : par₂.ids = parent.ids := by rw [hids2, hids1]
                have hwfC : par₂.wf = parent.wf := by rw [hwf2, hwf1]
                have hKC : ∀ t, (rget recs₂ t).isSome = (rget recs t).isSome := by
                  intro t
                  rw [hK2 t, hK0 t]
                cases o₂ with
                | ok vs =>
                    rw [resolveDeps_cons_ok ht hrest] at h
                    obtain ⟨ho, hr, hp, -⟩ : o = Out.ok (v :: vs) ∧ recs' = recs₂ ∧
                        parent' = par₂ ∧ tr = tr₁ ++ tr₂ := by
                      simpa [Prod.ext_iff] using h.symm
                    subst ho; subst hr; subst hp
                    refine ⟨fun i t w hh => hVS2 i t w (hVS1 i t w hh), ?_,
                      hidsC, hwfC, hKC⟩
                    intro vs₀ hv i t hh
                    exact hD1 v rfl i t (hD2 vs rfl i t hh)
                | err e =>
                    rw [resolveDeps_cons_restErr ht hrest] at h
                    obtain ⟨ho, hr, hp, -⟩ : o = Out.err e ∧ recs' = recs₂ ∧
                        parent' = par₂ ∧ tr = tr₁ ++ tr₂ := by
                      simpa [Prod.ext_iff] using h.symm
                    subst ho; subst hr; subst hp
                    exact ⟨fun i t w hh => hVS2 i t w (hVS1 i t w hh),
                      fun vs₀ hv => err_not_ok hv, hidsC, hwfC, hKC⟩
                | fuelOut =>
                    rw [resolveDeps_cons_restFuelOut ht hrest] at h
                    obtain ⟨ho, hr, hp, -⟩ : o = Out.fuelOut ∧ recs' = recs₂ ∧
                        parent' = par₂ ∧ tr = tr₁ ++ tr₂ := by
                      simpa [Prod.ext_iff] using h.symm
                    subst ho; subst hr; subst hp
                    exact ⟨fun i t w hh => hVS2 i t w (hVS1 i t w hh),
                      fun vs₀ hv => fuelOut_not_ok hv, hidsC, hwfC, hKC⟩
            | err e =>
                rw [resolveDeps_cons_err ht] at h
                obtain ⟨ho, hr, hp, -⟩ : o = Out.err e ∧ recs' = recs₁ ∧
                    parent' = (if depToNull recs d then parent else pRet) ∧
                    tr = tr₁ := by
                  simpa [Prod.ext_iff] using h.symm
                subst ho; subst hr; subst hp
                exact ⟨hVS1, fun vs₀ hv => err_not_ok hv, hids1, hwf1, hK0⟩
            | fuelOut =>
                rw [resolveDeps_cons_fuelOut ht] at h
                obtain ⟨ho, hr, hp, -⟩ : o = Out.fuelOut ∧ recs' = recs₁ ∧
                    (parent' = if depToNull recs d = true then parent else pRet) ∧
                    tr = tr₁ := by
                  simpa [Prod.ext_iff] using h.symm
                subst ho; subst hr; subst hp
                exact ⟨hVS1, fun vs₀ hv => fuelOut_not_ok hv, hids1, hwf1, hK0⟩

/-- Invocation-trace discipline of the resolution engine, by mutual
induction over the interpreter, on well-formed chains (distinct injector
identities):

* every invocation event in a call's trace names a record whose slot holds
  a resolved value in the call's final state;
* every invocation event names a record whose slot was Unresolved
  (`EMPTY`) in the call's initial state;
* no call's trace invokes the same record twice;
* every event names an injector identity of the call's chain. -/
theorem tracePost (env : Env) : ∀ fuel : Nat,
    (∀ c token nfv o c' tr, c.wf = true →
      injGet env fuel c token nfv = (o, c', tr) →
      (∀ ev ∈ tr, ∃ v, slotAt c' ev.1 ev.2 = some (.val v)) ∧
      (∀ ev ∈ tr, slotAt c ev.1 ev.2 = some .empty) ∧
      tr.Nodup ∧
      (∀ ev ∈ tr, ev.1 ∈ c.ids))
  ∧ (∀ selfId token rec? recs parent nfv o recs' parent' tr,
      RecOk recs token rec? → selfId ∉ parent.ids → parent.wf = true →
      resolveToken env fuel selfId token rec? recs parent nfv =
        (o, recs', parent', tr) →
      (∀ ev ∈ tr, ∃ v, slotE selfId recs' parent' ev.1 ev.2 = some (.val v)) ∧
      (∀ ev ∈ tr, slotE selfId recs parent ev.1 ev.2 = some .empty) ∧
      tr.Nodup ∧
      (∀ ev ∈ tr, ev.1 = selfId ∨ ev.1 ∈ parent.ids))
  ∧ (∀ selfId token rec? recs parent nfv o recs' parent' tr,
      RecOk recs token rec? → selfId ∉ parent.ids → parent.wf = true →
      tryResolveToken env fuel selfId token rec? recs parent nfv =
        (o, recs', parent', tr) →
      (∀ ev ∈ tr, ∃ v, slotE selfId recs' parent' ev.1 ev.2 = some (.val v)) ∧
      (∀ ev ∈ tr, slotE selfId recs parent ev.1 ev.2 = some .empty) ∧
      tr.Nodup ∧
      (∀ ev ∈ tr, ev.1 = selfId ∨ ev.1 ∈ parent.ids))
  ∧ (∀ selfId ds recs parent o recs' parent' tr,
      selfId ∉ parent.ids → parent.wf = true →
      resolveDeps env fuel selfId ds recs parent = (o, recs', parent', tr) →
      (∀ ev ∈ tr, ∃ v, slotE selfId recs' parent' ev.1 ev.2 = some (.val v)) ∧
      (∀ ev ∈ tr, slotE selfId recs parent ev.1 ev.2 = some .empty) ∧
      tr.Nodup ∧
      (∀ ev ∈ tr, ev.1 = selfId ∨ ev.1 ∈ parent.ids)) := by
  intro fuel
  induction fuel with
  | zero =>
      refine ⟨?_, ?_, ?_, ?_⟩
      · intro c token nfv o c' tr _ h
        rw [injGet_zero] at h
        obtain ⟨-, -, htr⟩ : o = Out.fuelOut ∧ c' = c ∧ tr = [] := by
          simpa [Prod.ext_iff] using h.symm
        subst htr
        exact ⟨fun ev hev => absurd hev (List.not_mem_nil ev),
          fun ev hev => absurd hev (List.not_mem_nil ev), List.nodup_nil,
          fun ev hev => absurd hev (List.not_mem_nil ev)⟩
      · intro selfId token rec? recs parent nfv o recs' parent' tr _ _ _ h
        rw [resolveToken_zero] at h
        obtain ⟨-, -, -, htr⟩ : o = Out.fuelOut ∧ recs' = recs ∧
            parent' = parent ∧ tr = [] := by
          simpa [Prod.ext_iff] using h.symm
        subst htr
        exact ⟨fun ev hev => absurd hev (List.not_mem_nil ev),
          fun ev hev => absurd hev (List.not_mem_nil ev), List.nodup_nil,
          fun ev hev => absurd hev (List.not_mem_nil ev)⟩
      · intro selfId token rec? recs parent nfv o recs' parent' tr _ _ _ h
        rw [tryResolveToken_zero] at h
        obtain ⟨-, -, -, htr⟩ : o = Out.fuelOut ∧ recs' = recs ∧
            parent' = parent ∧ tr = [] := by
          simpa [Prod.ext_iff] using h.symm
        subst htr
        exact ⟨fun ev hev => absurd hev (List.not_mem_nil ev),
          fun ev hev => absurd hev (List.not_mem_nil ev), List.nodup_nil,
          fun ev hev => absurd hev (List.not_mem_nil ev)⟩
      · intro selfId ds recs parent o recs' parent' tr _ _ h
        rw [resolveDeps_zero] at h
        obtain ⟨-, -, -, htr⟩ : o = Out.fuelOut ∧ recs' = recs ∧
            parent' = parent ∧ tr = [] := by
          simpa [Prod.ext_iff] using h.symm
        subst htr
        exact ⟨fun ev hev => absurd hev (List.not_mem_nil ev),
          fun ev hev => absurd hev (List.not_mem_nil ev), List.nodup_nil,
          fun ev hev => absurd hev (List.not_mem_nil ev)⟩
  | succ fuel ih =>
      obtain ⟨ihG, ihR, ihT, ihD⟩ := ih
      refine ⟨?_, ?_, ?_, ?_⟩
      -- injGet
      · intro c token nfv o c' tr hwf h
        cases c with
        | nil =>
            rw [injGet_nil] at h
            obtain ⟨-, -, htr⟩ : o = nullInjectorGet token nfv ∧ c' = Chain.nil ∧
                tr = [] := by
              simpa [Prod.ext_iff] using h.symm
            subst htr
            exact ⟨fun ev hev => absurd hev (List.not_mem_nil ev),
              fun ev hev => absurd hev (List.not_mem_nil ev), List.nodup_nil,
              fun ev hev => absurd hev (List.not_mem_nil ev)⟩
        | cons id recs parent =>
            obtain ⟨hnid, hpw⟩ := wf_cons_elim hwf
            rcases ht : tryResolveToken env fuel id token (rget recs token) recs
              parent nfv with ⟨o₀, recs₁, par₁, tr₁⟩
            obtain ⟨hC, hE, hN, hI⟩ := ihT id token (rget recs token) recs parent
              nfv o₀ recs₁ par₁ tr₁ (recOk_rget recs token) hnid hpw ht
            have hgoal :
                (∀ ev ∈ tr₁, ∃ v,
                  slotAt (Chain.cons id recs₁ par₁) ev.1 ev.2 = some (.val v)) ∧
                (∀ ev ∈ tr₁,
                  slotAt (Chain.cons id recs parent) ev.1 ev.2 = some .empty) ∧
                tr₁.Nodup ∧
                (∀ ev ∈ tr₁, ev.1 ∈ (Chain.cons id recs parent).ids) := by
              refine ⟨?_, ?_, hN, ?_⟩
              · intro ev hev
                rw [slotAt_cons]
                exact hC ev hev
              · intro ev hev
                rw [slotAt_cons]
                exact hE ev hev
              · intro ev hev
                rw [ids_cons]
                rcases hI ev hev with h1 | h1
                · exact List.mem_cons.mpr (Or.inl h1)
                · exact List.mem_cons.mpr (Or.inr h1)
            cases o₀ with
            | ok v =>
                rw [injGet_cons_ok ht] at h
                obtain ⟨-, hc, htr⟩ : o = Out.ok v ∧
                    c' = Chain.cons id recs₁ par₁ ∧ tr = tr₁ := by
                  simpa [Prod.ext_iff] using h.symm
                subst hc; subst htr
                exact hgoal
            | err e =>
                rw [injGet_cons_err ht] at h
                obtain ⟨-, hc, htr⟩ : o = Out.err (decorateErr e) ∧
                    c' = Chain.cons id recs₁ par₁ ∧ tr = tr₁ := by
                  simpa [Prod.ext_iff] using h.symm
                subst hc; subst htr
                exact hgoal
            | fuelOut =>
                rw [injGet_cons_fuelOut ht] at h
                obtain ⟨-, hc, htr⟩ : o = Out.fuelOut ∧
                    c' = Chain.cons id recs₁ par₁ ∧ tr = tr₁ := by
                  simpa [Prod.ext_iff] using h.symm
                subst hc; subst htr
                exact hgoal
      -- resolveToken
      · intro selfId token rec? recs parent nfv o recs' parent' tr hrok hnid hpw h
        cases rec? with
        | none =>
            rcases hg : injGet env fuel parent token nfv with ⟨o₀, par₀, tr₀⟩
            rw [resolveToken_none hg] at h
            obtain ⟨-, hr, hp, htr⟩ : o = o₀ ∧ recs' = recs ∧ parent' = par₀ ∧
                tr = tr₀ := by
              simpa [Prod.ext_iff] using h.symm
            subst hr; subst hp; subst htr
            obtain ⟨hC, hE, hN, hI⟩ := ihG parent token nfv o₀ parent' tr hpw hg
            have hne : ∀ ev ∈ tr, ev.1 ≠ selfId := by
              intro ev hev heq
              exact hnid (heq ▸ hI ev hev)
            refine ⟨?_, ?_, hN, fun ev hev => Or.inr (hI ev hev)⟩
            · intro ev hev
              rw [slotE_other (hne ev hev)]
              exact hC ev hev
            · intro ev hev
              rw [slotE_other (hne ev hev)]
              exact hE ev hev
        | some record =>
            have hrec : rget recs token = some record := hrok record rfl
            rcases hval : record.value with _ | _ | v
            -- empty
            · have hse : slotOf recs token = some Slot.empty := by
                simp [slotOf, hrec, hval]
              have hsc : slotOf (setSlot recs token .circular) token =
                  some Slot.circular :=
                slotOf_setSlot_self recs token .circular record hrec
              rcases hd : resolveDeps env fuel selfId record.deps
                (setSlot recs token .circular) parent with ⟨o₂, recs₂, par₂, trd⟩
              obtain ⟨dC, dE, dN, dI⟩ := ihD selfId record.deps
                (setSlot recs token .circular) parent o₂ recs₂ par₂ trd hnid hpw hd
              obtain ⟨-, -, -, -, stK⟩ := (statePost env fuel).2.2.2 selfId
                record.deps (setSlot recs token .circular) parent o₂ recs₂ par₂
                trd hd
              have hEback : ∀ ev ∈ trd,
                  slotE selfId recs parent ev.1 ev.2 = some .empty := by
                intro ev hev
                have h1 := dE ev hev
                by_cases hi : ev.1 = selfId
                · rw [hi] at h1 ⊢
                  rw [slotE_self] at h1 ⊢
                  by_cases htk : ev.2 = token
                  · rw [htk, hsc] at h1
                    cases h1
                  · rwa [slotOf_setSlot_ne _ _ _ _ htk] at h1
                · rw [slotE_other hi] at h1 ⊢
                  exact h1
              have hnotk : ∀ ev ∈ trd, ev ≠ ((selfId, token) : Ev) := by
                intro ev hev heq
                have h1 := dE ev hev
                rw [heq] at h1
                have h2 : slotE selfId (setSlot recs token .circular) parent
                    selfId token = some .empty := h1
                rw [slotE_self, hsc] at h2
                cases h2
              cases o₂ with
              | ok args =>
                  rw [resolveToken_empty_ok hval hd] at h
                  obtain ⟨-, hr, hp, htr⟩ : o = Out.ok (applyFn env record.fn args) ∧
                      recs' = setSlot recs₂ token
                        (.val (applyFn env record.fn args)) ∧
                      parent' = par₂ ∧ tr = trd ++ [(selfId, token)] := by
                    simpa [Prod.ext_iff] using h.symm
                  subst hr; subst hp; subst htr
                  have hg2 : ∃ r2, rget recs₂ token = some r2 := by
                    have hK : (rget recs₂ token).isSome = true := by
                      rw [stK token, isSome_rget_setSlot]
                      simp [hrec]
                    cases hg : rget recs₂ token with
                    | none => rw [hg] at hK; cases hK
                    | some r2 => exact ⟨r2, rfl⟩
                  obtain ⟨r2, hg2⟩ := hg2
                  have hfinaltok : slotOf (setSlot recs₂ token
                      (.val (applyFn env record.fn args))) token =
                      some (.val (applyFn env record.fn args)) :=
                    slotOf_setSlot_self recs₂ token _ r2 hg2
                  refine ⟨?_, ?_, ?_, ?_⟩
                  · intro ev hev
                    rcases List.mem_append.mp hev with hev | hev
                    · have h1 := dC ev hev
                      by_cases hi : ev.1 = selfId
                      · rw [hi] at h1 ⊢
                        rw [slotE_self] at h1 ⊢
                        by_cases htk : ev.2 = token
                        · rw [htk, hfinaltok]
                          exact ⟨applyFn env record.fn args, rfl⟩
                        · rw [slotOf_setSlot_ne _ _ _ _ htk]
                          exact h1
                      · rw [slotE_other hi] at h1 ⊢
                        exact h1
                    · have e1 : ev.1 = selfId := by
                        rw [List.mem_singleton.mp hev]
                      have e2 : ev.2 = token := by
                        rw [List.mem_singleton.mp hev]
                      rw [e1, e2, slotE_self, hfinaltok]
                      exact ⟨applyFn env record.fn args, rfl⟩
                  · intro ev hev
                    rcases List.mem_append.mp hev with hev | hev
                    · exact hEback ev hev
                    · have e1 : ev.1 = selfId := by
                        rw [List.mem_singleton.mp hev]
                      have e2 : ev.2 = token := by
                        rw [List.mem_singleton.mp hev]
                      rw [e1, e2, slotE_self]
                      exact hse
                  · rw [List.nodup_append]
                    refine ⟨dN, List.nodup_singleton _, ?_⟩
                    intro ev hev hev2
                    exact hnotk ev hev (List.mem_singleton.mp hev2)
                  · intro ev hev
                    rcases List.mem_append.mp hev with hev | hev
                    · exact dI ev hev
                    · exact Or.inl (by rw [List.mem_singleton.mp hev])
              | err e =>
                  rw [resolveToken_empty_err hval hd] at h
                  obtain ⟨-, hr, hp, htr⟩ : o = Out.err e ∧ recs' = recs₂ ∧
                      parent' = par₂ ∧ tr = trd := by
                    simpa [Prod.ext_iff] using h.symm
                  subst hr; subst hp; subst htr
                  exact ⟨dC, hEback, dN, dI⟩
              | fuelOut =>
                  rw [resolveToken_empty_fuelOut hval hd] at h
                  obtain ⟨-, hr, hp, htr⟩ : o = Out.fuelOut ∧ recs' = recs₂ ∧
                      parent' = par₂ ∧ tr = trd := by
                    simpa [Prod.ext_iff] using h.symm
                  subst hr; subst hp; subst htr
                  exact ⟨dC, hEback, dN, dI⟩
            -- circular
            · rw [resolveToken_circ hval] at h
              obtain ⟨-, hr, hp, htr⟩ : o = Out.err circularError ∧ recs' = recs ∧
                  parent' = parent ∧ tr = [] := by
                simpa [Prod.ext_iff] using h.symm
              subst hr; subst hp; subst htr
              exact ⟨fun ev hev => absurd hev (List.not_mem_nil ev),
                fun ev hev => absurd hev (List.not_mem_nil ev), List.nodup_nil,
                fun ev hev => absurd hev (List.not_mem_nil ev)⟩
            -- val
            · rw [resolveToken_val hval] at h
              obtain ⟨-, hr, hp, htr⟩ : o = Out.ok v ∧ recs' = recs ∧
                  parent' = parent ∧ tr = [] := by
                simpa [Prod.ext_iff] using h.symm
              subst hr; subst hp; subst htr
              exact ⟨fun ev hev => absurd hev (List.not_mem_nil ev),
                fun ev hev => absurd hev (List.not_mem_nil ev), List.nodup_nil,
                fun ev hev => absurd hev (List.not_mem_nil ev)⟩
      -- tryResolveToken
      · intro selfId token rec? recs parent nfv o recs' parent' tr hrok hnid hpw h
        rcases hr : resolveToken env fuel selfId token rec? recs parent nfv
          with ⟨o₀, recs₀, par₀, tr₀⟩
        obtain ⟨rC, rE, rN, rI⟩ := ihR selfId token rec? recs parent nfv o₀ recs₀
          par₀ tr₀ hrok hnid hpw hr
        cases o₀ with
        | ok v =>
            rw [tryResolveToken_ok hr] at h
            obtain ⟨-, hrr, hp, htr⟩ : o = Out.ok v ∧ recs' = recs₀ ∧
                parent' = par₀ ∧ tr = tr₀ := by
              simpa [Prod.ext_iff] using h.symm
            subst hrr; subst hp; subst htr
            exact ⟨rC, rE, rN, rI⟩
        | err e =>
            rw [tryResolveToken_err hr] at h
            obtain ⟨-, hrr, hp, htr⟩ : o = Out.err (pushPath token e) ∧
                recs' = resetIfCircular rec? recs₀ token ∧
                parent' = par₀ ∧ tr = tr₀ := by
              simpa [Prod.ext_iff] using h.symm
            subst hrr; subst hp; subst htr
            refine ⟨?_, rE, rN, rI⟩
            intro ev hev
            obtain ⟨v, hv⟩ := rC ev hev
            refine ⟨v, ?_⟩
            unfold resetIfCircular
            by_cases hcond : rec?.isSome = true ∧
                slotOf recs₀ token = some Slot.circular
            · rw [if_pos hcond]
              by_cases hi : ev.1 = selfId
              · rw [hi] at hv ⊢
                rw [slotE_self] at hv ⊢
                by_cases htk : ev.2 = token
                · rw [htk] at hv
                  rw [hcond.2] at hv
                  cases hv
                · rw [slotOf_setSlot_ne _ _ _ _ htk]
                  exact hv
              · rw [slotE_other hi] at hv ⊢
                exact hv
            · rw [if_neg hcond]
              exact hv
        | fuelOut =>
            rw [tryResolveToken_fuelOut hr] at h
            obtain ⟨-, hrr, hp, htr⟩ : o = Out.fuelOut ∧ recs' = recs₀ ∧
                parent' = par₀ ∧ tr = tr₀ := by
              simpa [Prod.ext_iff] using h.symm
            subst hrr; subst hp; subst htr
            exact ⟨rC, rE, rN, rI⟩
      -- resolveDeps
      · intro selfId ds recs parent o recs' parent' tr hnid hpw h
        cases ds with
        | nil =>
            rw [resolveDeps_nil] at h
            obtain ⟨-, hr, hp, htr⟩ : o = Out.ok [] ∧ recs' = recs ∧
                parent' = parent ∧ tr = [] := by
              simpa [Prod.ext_iff] using h.symm
            subst hr; subst hp; subst htr
            exact ⟨fun ev hev => absurd hev (List.not_mem_nil ev),
              fun ev hev => absurd hev (List.not_mem_nil ev), List.nodup_nil,
              fun ev hev => absurd hev (List.not_mem_nil ev)⟩
        | cons d ds =>
            rcases ht : tryResolveToken env fuel selfId d.token (depRec recs d) recs
              (if depToNull recs d then Chain.nil else parent) (depNfv d)
              with ⟨o₀, recs₁, pRet, tr₁⟩
            have hW1 : selfId ∉ (if depToNull recs d then Chain.nil
                else parent).ids ∧
                (if depToNull recs d then Chain.nil else parent).wf = true := by
              by_cases hnull : depToNull recs d = true
              · rw [if_pos hnull]
                exact ⟨List.not_mem_nil selfId, rfl⟩
              · rw [if_neg hnull]
                exact ⟨hnid, hpw⟩
            obtain ⟨tC, tE, tN, tI⟩ := ihT selfId d.token (depRec recs d) recs
              (if depToNull recs d then Chain.nil else parent) (depNfv d) o₀
              recs₁ pRet tr₁ (recOk_depRec recs d) hW1.1 hW1.2 ht
            obtain ⟨stVS0, stD0, stids0, stwf0, stK0⟩ := (statePost env fuel).2.2.1
              selfId d.token (depRec recs d) recs
              (if depToNull recs d then Chain.nil else parent) (depNfv d) o₀
              recs₁ pRet tr₁ (recOk_depRec recs d) ht
            -- lifted facts about the first dependency call, in the full state
            have hC1 : ∀ ev ∈ tr₁, ∃ v,
                slotE selfId recs₁ (if depToNull recs d then parent else pRet)
                  ev.1 ev.2 = some (.val v) := by
              intro ev hev
              obtain ⟨v, hv⟩ := tC ev hev
              refine ⟨v, ?_⟩
              by_cases hnull : depToNull recs d = true
              · rw [if_pos hnull]
                rcases tI ev hev with h1 | h1
                · rw [h1] at hv ⊢
                  rw [slotE_self] at hv ⊢
                  exact hv
                · rw [if_pos hnull] at h1
                  exact absurd h1 (List.not_mem_nil ev.1)
              · rw [if_neg hnull]
                exact hv
            have hE1 : ∀ ev ∈ tr₁,
                slotE selfId recs parent ev.1 ev.2 = some .empty := by
              intro ev hev
              have hv := tE ev hev
              by_cases hnull : depToNull recs d = true
              · rcases tI ev hev with h1 | h1
                · rw [h1] at hv ⊢
                  rw [slotE_self] at hv ⊢
                  exact hv
                · rw [if_pos hnull] at h1
                  exact absurd h1 (List.not_mem_nil ev.1)
              · rw [if_neg hnull] at hv
                exact hv
            have hI1 : ∀ ev ∈ tr₁, ev.1 = selfId ∨ ev.1 ∈ parent.ids := by
              intro ev hev
              rcases tI ev hev with h1 | h1
              · exact Or.inl h1
              · by_cases hnull : depToNull recs d = true
                · rw [if_pos hnull] at h1
                  exact absurd h1 (List.not_mem_nil ev.1)
                · rw [if_neg hnull] at h1
                  exact Or.inr h1
            have hD1 : ∀ v₀, o₀ = .ok v₀ → ∀ i t,
                slotE selfId recs₁ (if depToNull recs d then parent else pRet)
                  i t = some .empty →
                slotE selfId recs parent i t = some .empty := by
              intro v₀ hv i t hh
              by_cases hnull : depToNull recs d = true
              · rw [if_pos hnull] at hh
                by_cases hi : i = selfId
                · rw [hi] at hh ⊢
                  rw [slotE_self] at hh ⊢
                  have h2 := stD0 v₀ hv selfId t (by rw [slotE_self]; exact hh)
                  rwa [slotE_self] at h2
                · rw [slotE_other hi] at hh ⊢
                  exact hh
              · rw [if_neg hnull] at hh
                have h2 := stD0 v₀ hv i t hh
                rwa [if_neg hnull] at h2
            have hids1 : (if depToNull recs d then parent else pRet).ids =
                parent.ids := by
              by_cases hnull : depToNull recs d = true
              · rw [if_pos hnull]
              · rw [if_neg hnull]
                rw [if_neg hnull] at stids0
                exact stids0
            have hwf1 : (if depToNull recs d then parent else pRet).wf =
                parent.wf := by
              by_cases hnull : depToNull recs d = true
              · rw [if_pos hnull]
              · rw [if_neg hnull]
                rw [if_neg hnull] at stwf0
                exact stwf0
            cases o₀ with
            | ok v =>
                rcases hrest : resolveDeps env fuel selfId ds recs₁
                  (if depToNull recs d then parent else pRet)
                  with ⟨o₂, recs₂, par₂, tr₂⟩
                obtain ⟨dC, dE, dN, dI⟩ := ihD selfId ds recs₁
                  (if depToNull recs d then parent else pRet) o₂ recs₂ par₂ tr₂
                  (by rw [hids1]; exact hnid) (by rw [hwf1]; exact hpw) hrest
                obtain ⟨stVS2, stD2, stids2, stwf2, stK2⟩ :=
                  (statePost env fuel).2.2.2 selfId ds recs₁
                  (if depToNull recs d then parent else pRet) o₂ recs₂ par₂ tr₂
                  hrest
                have hCall : ∀ ev ∈ tr₁ ++ tr₂, ∃ v',
                    slotE selfId recs₂ par₂ ev.1 ev.2 = some (.val v') := by
                  intro ev hev
                  rcases List.mem_append.mp hev with hev | hev
                  · obtain ⟨v', hv⟩ := hC1 ev hev
                    exact ⟨v', stVS2 ev.1 ev.2 v' hv⟩
                  · exact dC ev hev
                have hEall : ∀ ev ∈ tr₁ ++ tr₂,
                    slotE selfId recs parent ev.1 ev.2 = some .empty := by
                  intro ev hev
                  rcases List.mem_append.mp hev with hev | hev
                  · exact hE1 ev hev
                  · exact hD1 v rfl ev.1 ev.2 (dE ev hev)
                have hNall : (tr₁ ++ tr₂).Nodup := by
                  rw [List.nodup_append]
                  refine ⟨tN, dN, ?_⟩
                  intro ev hev hev2
                  obtain ⟨v', hv⟩ := hC1 ev hev
                  have he := dE ev hev2
                  rw [hv] at he
                  cases he
                have hIall : ∀ ev ∈ tr₁ ++ tr₂,
                    ev.1 = selfId ∨ ev.1 ∈ parent.ids := by
                  intro ev hev
                  rcases List.mem_append.mp hev with hev | hev
                  · exact hI1 ev hev
                  · rcases dI ev hev with h1 | h1
                    · exact Or.inl h1
                    · rw [hids1] at h1
                      exact Or.inr h1
                cases o₂ with
                | ok vs =>
                    rw [resolveDeps_cons_ok ht hrest] at h
                    obtain ⟨-, hr, hp, htr⟩ : o = Out.ok (v :: vs) ∧ recs' = recs₂ ∧
                        parent' = par₂ ∧ tr = tr₁ ++ tr₂ := by
                      simpa [Prod.ext_iff] using h.symm
                    subst hr; subst hp; subst htr
                    exact ⟨hCall, hEall, hNall, hIall⟩
                | err e =>
                    rw [resolveDeps_cons_restErr ht hrest] at h
                    obtain ⟨-, hr, hp, htr⟩ : o = Out.err e ∧ recs' = recs₂ ∧
                        parent' = par₂ ∧ tr = tr₁ ++ tr₂ := by
                      simpa [Prod.ext_iff] using h.symm
                    subst hr; subst hp; subst htr
                    exact ⟨hCall, hEall, hNall, hIall⟩
                | fuelOut =>
                    rw [resolveDeps_cons_restFuelOut ht hrest] at h
                    obtain ⟨-, hr, hp, htr⟩ : o = Out.fuelOut ∧ recs' = recs₂ ∧
                        parent' = par₂ ∧ tr = tr₁ ++ tr₂ := by
                      simpa [Prod.ext_iff] using h.symm
                    subst hr; subst hp; subst htr
                    exact ⟨hCall, hEall, hNall, hIall⟩
            | err e =>
                rw [resolveDeps_cons_err ht] at h
                obtain ⟨-, hr, hp, htr⟩ : o = Out.err e ∧ recs' = recs₁ ∧
                    parent' = (if depToNull recs d then parent else pRet) ∧
                    tr = tr₁ := by
                  simpa [Prod.ext_iff] using h.symm
                subst hr; subst hp; subst htr
                exact ⟨hC1, hE1, tN, hI1⟩
            | fuelOut =>
                rw [resolveDeps_cons_fuelOut ht] at h
                obtain ⟨-, hr, hp, htr⟩ : o = Out.fuelOut ∧ recs' = recs₁ ∧
                    (parent' = if depToNull recs d = true then parent else pRet) ∧
                    tr = tr₁ := by
                  simpa [Prod.ext_iff] using h.symm
                subst hr; subst hp; subst htr
                exact ⟨hC1, hE1, tN, hI1⟩

/-- Across any sequence of top-level `get` calls on a well-formed chain:
the concatenated invocation trace never repeats a record, every traced
record was unresolved at the start of the sequence, resolved values
persist, and well-formedness is preserved. -/
theorem runGets_post (env : Env) (fuel : Nat) :
    ∀ (gets : List (Tok × NFV)) (c : Chain), c.wf = true →
    ((runGets env fuel c gets).2).Nodup ∧
    (∀ ev ∈ (runGets env fuel c gets).2, ∀ v,
      slotAt c ev.1 ev.2 ≠ some (.val v)) ∧
    (∀ i t v, slotAt c i t = some (.val v) →
      slotAt (runGets env fuel c gets).1 i t = some (.val v)) ∧
    (runGets env fuel c gets).1.wf = true := by
  intro gets
  induction gets with
  | nil =>
      intro c hwf
      exact ⟨List.nodup_nil, fun ev hev => absurd hev (List.not_mem_nil ev),
        fun i t v hh => hh, hwf⟩
  | cons g gs ih =>
      intro c hwf
      rcases hg : injGet env fuel c g.1 g.2 with ⟨o₁, c₁, tr₁⟩
      rcases hrest : runGets env fuel c₁ gs with ⟨c₂, tr₂⟩
      have hrun : runGets env fuel c (g :: gs) = (c₂, tr₁ ++ tr₂) := by
        simp only [runGets, hg, hrest]
      obtain ⟨gC, gE, gN, -⟩ := (tracePost env fuel).1 c g.1 g.2 o₁ c₁ tr₁ hwf hg
      obtain ⟨gVS, -, -, gwf⟩ := (statePost env fuel).1 c g.1 g.2 o₁ c₁ tr₁ hg
      have hwf1 : c₁.wf = true := by rw [gwf]; exact hwf
      have hihall := ih c₁ hwf1
      rw [hrest] at hihall
      obtain ⟨iN, iE, iVS, iwf⟩ := hihall
      rw [hrun]
      refine ⟨?_, ?_, ?_, iwf⟩
      · rw [List.nodup_append]
        refine ⟨gN, iN, ?_⟩
        intro ev hev hev2
        obtain ⟨v, hv⟩ := gC ev hev
        exact iE ev hev2 v hv
      · intro ev hev v hcontra
        rcases List.mem_append.mp hev with hev | hev
        · rw [gE ev hev] at hcontra
          simp at hcontra
        · exact iE ev hev v (gVS ev.1 ev.2 v hcontra)
      · intro i t v hh
        exact iVS i t v (gVS i t v hh)

/-- C1: per-injector singleton behavior.  A `useValue` provider compiles to
a record whose slot already holds the provided literal — any `Val`,
including an explicit `undefined`; a `get` on a record whose slot holds a
resolved value returns exactly that value, leaves the entire chain
untouched, and emits no invocation event, so repeated calls behave
identically; and across any sequence of top-level `get` calls on a
well-formed chain the concatenated invocation trace never repeats an
(injector, token) pair, so each record's constructor or factory runs at
most once per injector instance no matter how many times `get` is
called. -/
theorem claim_C1 :
    (∀ (T : Tok) (v : Val),
      resolveProvider { provide := T, useValue := some v } = .ok (valueRecord v) ∧
      (valueRecord v).value = .val v)
  ∧ (∀ (env : Env) (fuel id : Nat) (recs : RecMap) (parent : Chain) (token : Tok)
       (nfv : NFV) (r : Record) (v : Val),
      rget recs token = some r → r.value = .val v →
      injGet env (fuel + 3) (.cons id recs parent) token nfv =
        (.ok v, .cons id recs parent, []))
  ∧ (∀ (env : Env) (fuel : Nat) (c : Chain) (gets : List (Tok × NFV)),
      c.wf = true → ((runGets env fuel c gets).2).Nodup) :=
  ⟨fun T v => ⟨resolveProvider_value T v, rfl⟩,
   fun env fuel id recs parent token nfv r v hr hv => injGet_cached hr hv,
   fun env fuel c gets hwf => (runGets_post env fuel gets c hwf).1⟩

/-- C1, witness: an explicit-`undefined` value provider compiles to an
already-resolved record; a cached `get` returns the literal with chain
untouched and no invocation; and a two-`get` sequence on a factory record
produces a duplicate-free invocation trace. -/
theorem claim_C1_witness :
    (resolveProvider { provide := Tok.itok 0, useValue := some Val.undef } =
        .ok (valueRecord Val.undef) ∧ (valueRecord Val.undef).value = .val .undef)
  ∧ injGet envW 3 (Chain.cons 0 [(Tok.itok 1, valueRecord (Val.num 7))] .nil)
      (Tok.itok 1) .throwSent =
      (.ok (Val.num 7),
       Chain.cons 0 [(Tok.itok 1, valueRecord (Val.num 7))] .nil, [])
  ∧ ((runGets envW 9
      (Chain.cons 0 [(Tok.itok 1, ⟨Fn.user 0, false, [], Slot.empty⟩)] .nil)
      [(Tok.itok 1, .throwSent), (Tok.itok 1, .throwSent)]).2).Nodup :=
  ⟨claim_C1.1 (Tok.itok 0) Val.undef,
   claim_C1.2.1 envW 0 0 [(Tok.itok 1, valueRecord (Val.num 7))] .nil (Tok.itok 1)
     .throwSent (valueRecord (Val.num 7)) (Val.num 7) (by decide) rfl,
   claim_C1.2.2 envW 9
     (Chain.cons 0 [(Tok.itok 1, ⟨Fn.user 0, false, [], Slot.empty⟩)] .nil)
     [(Tok.itok 1, .throwSent), (Tok.itok 1, .throwSent)] (by decide)⟩

end StaticDI
